import Mathlib

/-!
Verification of the FeishuSync repository against its specification.

The development shallowly embeds the JavaScript source: pure string
helpers become Lean functions on `String`/`List Char`; the API client,
uploader and manifest writer become functions that return the list of
requests / filesystem operations they would perform; the one-shot
reconciler (`scripts/update.js`, the newer variant adopted by the spec)
becomes a state-transition function `syncRun` over an explicit world
(remote documents, local files with hashes, manifest).  JavaScript
truthiness on strings ("" is falsy) and on nullable revision ids is made
explicit through `jsOr` and `optTruthy`.
-/

/-! ## JavaScript string semantics helpers -/

/-- JS `a || b` for strings: the empty string is falsy. -/
def jsOr (a b : String) : String := if a = "" then b else a

/-- Truthiness of a nullable string (`null`/`""` are falsy). -/
def optTruthy : Option String → Bool
  | none => false
  | some s => s ≠ ""

/-- `s.endsWith(t)`, evaluated on the character lists. -/
def strEndsWith (s t : String) : Bool := t.data.isSuffixOf s.data

/-- `s.toLowerCase()` restricted to the simple per-character mapping. -/
def lowerStr (s : String) : String := ⟨s.data.map Char.toLower⟩

/-- Drop the last `n` characters (`slice(0, -n)` / regex suffix removal). -/
def dropLastStr (s : String) (n : Nat) : String := ⟨s.data.take (s.data.length - n)⟩

/-! ## sanitizeFilename (src/sync.js lines 218-224)

`name.replace(/[\\/\n\r\t\0]/g, ' ').replace(/\s+/g, ' ').trim().slice(0, 80)` -/

/-- The character class `[\\/\n\r\t\0]` of the first replace. -/
def escapedClassChar (c : Char) : Bool :=
  c == '\\' || c == '/' || c == '\n' || c == '\r' || c == '\t' || c == '\x00'

/-- JavaScript's `\s` class (also the set trimmed by `String.prototype.trim`). -/
def jsWhitespaceChar (c : Char) : Bool :=
  c == ' ' || c == '\t' || c == '\n' || c == '\r' || c == '\x0b' || c == '\x0c' ||
  c == ' ' || c == ' ' || c == ' ' || c == ' ' || c == ' ' ||
  c == ' ' || c == ' ' || c == ' ' || c == ' ' || c == ' ' ||
  c == ' ' || c == ' ' || c == ' ' || c == ' ' || c == ' ' ||
  c == ' ' || c == ' ' || c == '　' || c == '﻿'

/-- `replace(/\s+/g, ' ')`: each maximal whitespace run becomes one space
(the space is emitted at the end of the run). -/
def collapseWs : List Char → List Char
  | [] => []
  | [c] => if jsWhitespaceChar c then [' '] else [c]
  | c :: c2 :: rest =>
    if jsWhitespaceChar c then
      (if jsWhitespaceChar c2 then collapseWs (c2 :: rest)
       else ' ' :: collapseWs (c2 :: rest))
    else c :: collapseWs (c2 :: rest)

/-- `trim()`: strip whitespace from both ends. -/
def trimWs (l : List Char) : List Char :=
  ((l.dropWhile (jsWhitespaceChar ·)).reverse.dropWhile (jsWhitespaceChar ·)).reverse

/-- `sanitizeFilename` from src/sync.js lines 218-224. -/
def sanitizeFilename (name : String) : String :=
  ⟨(trimWs (collapseWs (name.data.map fun c =>
      if escapedClassChar c then ' ' else c))).take 80⟩

/-! ## ensureUniqueFilePath (src/sync.js lines 301-312)

`base = fileName.replace(/\.md$/i, '')`; candidate `base.md`; while the
candidate is in `usedPaths` try `base-1.md`, `base-2.md`, … (the loop body
joins with `baseDir` and takes the relative path back, the identity for
these flat names).  The JS `while` always terminates because only finitely
many names are used; the embedding runs the same search with fuel
`used.length + 1`, which the pigeonhole argument below proves sufficient. -/

/-- The template literal `${base}-${counter}.md`. -/
def candName (base : String) (k : Nat) : String := base ++ "-" ++ Nat.repr k ++ ".md"

/-- The counter loop of ensureUniqueFilePath. -/
def findFree (base : String) (used : List String) : Nat → Nat → String
  | 0, k => candName base k
  | fuel + 1, k =>
    if candName base k ∈ used then findFree base used fuel (k + 1) else candName base k

/-- `fileName.replace(/\.md$/i, '')`. -/
def stripMdIns (fileName : String) : String :=
  if strEndsWith (lowerStr fileName) ".md" then dropLastStr fileName 3 else fileName

/-- `ensureUniqueFilePath` from src/sync.js lines 301-312. -/
def ensureUniqueFilePath (fileName : String) (used : List String) : String :=
  if stripMdIns fileName ++ ".md" ∈ used then
    findFree (stripMdIns fileName) used (used.length + 1) 1
  else stripMdIns fileName ++ ".md"

/-! ## API retry policy (src/sync.js apiRequest lines 56-121, src/upload.js apiPost lines 36-101)

Both functions share the retry loop
`for (let attempt = 0; attempt <= maxRetries; attempt += 1)` with
`maxRetries = 5`.  On status 429 the delay is
`Number.isFinite(Number(headers.get('retry-after'))) ? retryAfter * 1000
: Math.min(8000, 1000 * 2 ** attempt)`.  `headers.get` returns `null` for
an absent header and JavaScript's `Number(null)` is `0`, which is finite. -/

/-- The state of the `Retry-After` header as the JS `Number(...)` sees it. -/
inductive RetryAfter
  /-- Header absent: `headers.get` gives `null`, and `Number(null) = 0` is finite. -/
  | absent
  /-- Header present and `Number(...)` finite, value `n` seconds. -/
  | numeric (n : Nat)
  /-- Header present but `Number(...)` is `NaN` (for instance an HTTP-date). -/
  | nonNumeric

/-- The delay in milliseconds chosen for a 429 response at a given attempt. -/
def retryDelayMs : RetryAfter → Nat → Nat
  | .absent, _ => 0 * 1000
  | .numeric n, _ => n * 1000
  | .nonNumeric, attempt => min 8000 (1000 * 2 ^ attempt)

/-- One HTTP exchange as the retry loop distinguishes them. -/
inductive HttpResponse
  | rateLimited (h : RetryAfter)
  | jsonBody (code : Int)

/-- Outcome of `apiRequest`, with the list of sleeps it performed. -/
inductive ReqResult
  | success (delays : List Nat)
  | apiError (code : Int) (delays : List Nat)
  | rateLimitedFail (delays : List Nat)
  deriving DecidableEq

def maxRetries : Nat := 5

/-- The retry loop: `resp attempt` is the response to the attempt-th fetch. -/
def apiRequestAux (resp : Nat → HttpResponse) : Nat → Nat → List Nat → ReqResult
  | 0, _, delays => .rateLimitedFail delays
  | fuel + 1, attempt, delays =>
    match resp attempt with
    | .rateLimited h => apiRequestAux resp fuel (attempt + 1) (delays ++ [retryDelayMs h attempt])
    | .jsonBody c => if c = 0 then .success delays else .apiError c delays

/-- `apiRequest` / `apiPost`: at most `maxRetries + 1` fetches. -/
def apiRequestModel (resp : Nat → HttpResponse) : ReqResult :=
  apiRequestAux resp (maxRetries + 1) 0 []

/-! ## Pagination (src/sync.js fetchAllBlocks 135-163, fetchWikiNodes 165-189, fetchChildrenCount 465-489)

Each loop requests a page, extends the accumulator, sets
`pageToken = data.page_token || data.next_page_token || ''` and continues
while `has_more` (a boolean when present; otherwise while the token is
non-empty). -/

/-- One page of an API response, with the fields the loops read. -/
structure Page where
  items : List String
  pageTok : String
  nextPageTok : String
  hasMore : Option Bool
  deriving DecidableEq

/-- A paginated GET request as issued: page size and `page_token` param. -/
structure PageRequest where
  pageSize : Nat
  pageTok : String
  deriving DecidableEq

/-- `data.page_token || data.next_page_token || ''`. -/
def pageNextTok (p : Page) : String := jsOr (jsOr p.pageTok p.nextPageTok) ""

/-- The loop's continuation test after receiving `p`. -/
def pageMore (p : Page) : Bool :=
  match p.hasMore with
  | some b => b
  | none => pageNextTok p ≠ ""

/-- The pagination loop: consumes the pages of `pages` in order; returns the
requests issued, the accumulated items, and whether the loop exited
normally (`false`: the supplied pages ran out while `hasMore` held). -/
def fetchPages (ps : Nat) : List Page → String → List PageRequest × List String × Bool
  | [], _ => ([], [], false)
  | p :: rest, tok =>
    let req : PageRequest := ⟨ps, tok⟩
    if pageMore p then
      let r := fetchPages ps rest (pageNextTok p)
      (req :: r.1, p.items ++ r.2.1, r.2.2)
    else ([req], p.items, true)

/-- `fetchAllBlocks`: page size 100, starting with no page token. -/
def fetchAllBlocksModel (pages : List Page) : List PageRequest × List String × Bool :=
  fetchPages 100 pages ""

/-- `fetchWikiNodes`: page size 50. -/
def fetchWikiNodesModel (pages : List Page) : List PageRequest × List String × Bool :=
  fetchPages 50 pages ""

/-- `fetchChildrenCount`: page size 200, result is the count of items. -/
def fetchChildrenCountModel (pages : List Page) : List PageRequest × Nat × Bool :=
  let r := fetchPages 200 pages ""
  (r.1, r.2.1.length, r.2.2)

/-- The prefix of pages the loop consumes: up to and including the first
page whose continuation test fails. -/
def consumedPages : List Page → List Page
  | [] => []
  | p :: rest => if pageMore p then p :: consumedPages rest else [p]

/-- The requests the loop issues: the first carries `tok`, and each later
one carries the `page_token || next_page_token` of the page before it. -/
def expectedReqs (ps : Nat) (tok : String) : List Page → List PageRequest
  | [] => []
  | p :: rest =>
    PageRequest.mk ps tok ::
      (if pageMore p then expectedReqs ps (pageNextTok p) rest else [])

/-! ## Wholesale upload (src/sync.js uploadMarkdownToDocument 508-512,
deleteAllChildren 491-506, appendBlocks 401-413, appendBlocksWithTables 415-435,
createTableWithContent 340-399)

The operations are recorded as a trace: `batch_delete` calls on the document's
root children, `children` POSTs at the document root, and `children` POSTs
into table cells. -/

def DELETE_BATCH_SIZE : Nat := 100

def CREATE_BATCH_SIZE : Nat := 100

/-- One API call of the upload path. -/
inductive UploadOp
  /-- `batch_delete` with body `{start_index, end_index}`. -/
  | batchDelete (startIdx endIdx : Nat)
  /-- POST `blocks/{documentId}/children` with `{index, children}`; `count`
  children in the batch. -/
  | appendDoc (index : Nat) (count : Nat)
  /-- POST `blocks/{cellId}/children` into a table cell. -/
  | appendCell (cellId : String) (count : Nat)
  deriving DecidableEq

/-- A block of `markdownToBlocks` output as the uploader distinguishes them:
a table block carries its `_table.rows` cell text and the resolved column
count (`property.column_size || rows[0]?.length || 0`). -/
inductive MdBlock
  | plain
  | table (rows : List (List String)) (columnSize : Nat)

/-- `deleteAllChildren`: `batch = Math.min(DELETE_BATCH_SIZE, remaining)`,
delete `[0, batch)`, repeat (fuel `remaining` suffices since batch ≥ 1). -/
def deleteAllChildrenOps : Nat → Nat → List UploadOp
  | 0, _ => []
  | _ + 1, 0 => []
  | fuel + 1, remaining + 1 =>
    let batch := min DELETE_BATCH_SIZE (remaining + 1)
    UploadOp.batchDelete 0 batch :: deleteAllChildrenOps fuel (remaining + 1 - batch)

/-- The chunk loop of `appendBlocks` (fuel `count` suffices: each chunk has
at least one block). -/
def appendBlocksAux : Nat → Nat → Nat → Nat × List UploadOp
  | 0, index, _ => (index, [])
  | _ + 1, index, 0 => (index, [])
  | fuel + 1, index, count + 1 =>
    let chunk := min CREATE_BATCH_SIZE (count + 1)
    let r := appendBlocksAux fuel (index + chunk) (count + 1 - chunk)
    (r.1, UploadOp.appendDoc index chunk :: r.2)

/-- `appendBlocks`: slice the blocks into chunks of `CREATE_BATCH_SIZE`, POST
each at `index`, advancing `index` by the chunk length; returns the final
index and the ops (the model keeps only the chunk sizes). -/
def appendBlocksOps (index : Nat) (count : Nat) : Nat × List UploadOp :=
  appendBlocksAux (count + 1) index count

/-- `content.split('\n')` produces this many text blocks for one cell. -/
def splitLinesCount (s : String) : Nat := s.data.count '\n' + 1

/-- The cell-population loop over one table row: `cellIds[r * columnSize + c]`
must exist and be truthy, the cell content must not be blank. -/
def cellOpsRow (cells : List String) (base : Nat) : List String → Nat → List UploadOp
  | [], _ => []
  | content :: rest, c =>
    (if (cells.get? (base + c)).getD "" = "" then []
     else if trimWs content.data = [] then []
     else [UploadOp.appendCell ((cells.get? (base + c)).getD "") (splitLinesCount content)]) ++
    cellOpsRow cells base rest (c + 1)

/-- The cell-population loops over all rows. -/
def cellOpsRows (cells : List String) (colSize : Nat) : List (List String) → Nat → List UploadOp
  | [], _ => []
  | row :: rest, r => cellOpsRow cells (r * colSize) row 0 ++ cellOpsRows cells colSize rest (r + 1)

/-- `createTableWithContent`: nothing if the table has no rows or columns;
else one skeleton POST at `index` (one child), then cell POSTs when the
response carried cell ids; returns `index + 1`. -/
def createTableOps (cells : List String) (index : Nat) (rows : List (List String))
    (colSize : Nat) : Nat × List UploadOp :=
  if rows = [] ∨ colSize = 0 then (index, [])
  else
    (index + 1,
     UploadOp.appendDoc index 1 ::
       (if cells = [] then [] else cellOpsRows cells colSize rows 0))

/-- `appendBlocksWithTables`: buffer non-table blocks, flush the buffer before
each table, create the table, flush at the end.  `tblCells k` is the cell-id
list the API returned for the k-th created table. -/
def appendBlocksWithTablesAux (tblCells : Nat → List String) :
    List MdBlock → Nat → Nat → Nat → List UploadOp
  | [], index, buf, _ => (appendBlocksOps index buf).2
  | .plain :: rest, index, buf, tbl =>
    appendBlocksWithTablesAux tblCells rest index (buf + 1) tbl
  | .table rows colSize :: rest, index, buf, tbl =>
    let flush := appendBlocksOps index buf
    let t := createTableOps (tblCells tbl) flush.1 rows colSize
    flush.2 ++ t.2 ++ appendBlocksWithTablesAux tblCells rest t.1 0 (tbl + 1)

/-- `appendBlocksWithTables(documentId, token, blocks)` starting at index 0. -/
def appendBlocksWithTablesOps (tblCells : Nat → List String) (blocks : List MdBlock) :
    List UploadOp :=
  appendBlocksWithTablesAux tblCells blocks 0 0 0

/-- `deleteAllChildren`: the remaining count starts at the paginated child
count. -/
def deleteAllChildrenOpsAll (remaining : Nat) : List UploadOp :=
  deleteAllChildrenOps remaining remaining

/-- `uploadMarkdownToDocument`: convert (blocks given), delete all children,
append the new blocks. -/
def uploadMarkdownToDocumentOps (tblCells : Nat → List String) (childPages : List Page)
    (blocks : List MdBlock) : List UploadOp :=
  deleteAllChildrenOpsAll (fetchChildrenCountModel childPages).2.1 ++
    appendBlocksWithTablesOps tblCells blocks

/-- The document-root append calls of a trace, as (index, batch size) pairs. -/
def docAppends (ops : List UploadOp) : List (Nat × Nat) :=
  ops.filterMap fun op =>
    match op with
    | .appendDoc i c => some (i, c)
    | _ => none

/-- Total number of children removed by the batch-delete calls of a trace. -/
def deletedSum (ops : List UploadOp) : Nat :=
  (ops.map fun op =>
    match op with
    | .batchDelete s e => e - s
    | _ => 0).sum

/-- The doc-root appends form a gapless chain of batches from `i` to `j`,
each of 1 to 100 blocks. -/
def ChainFromTo : Nat → List (Nat × Nat) → Nat → Prop
  | i, [], j => i = j
  | i, (a, c) :: rest, j => a = i ∧ 1 ≤ c ∧ c ≤ 100 ∧ ChainFromTo (i + c) rest j

/-! ## Manifest store (src/sync.js readManifest 265-280, writeManifest 282-290) -/

def MANIFEST_NAME : String := ".feishu-sync.json"

/-- One manifest entry (`manifest.docs[documentId]`). -/
structure ManifestEntry where
  file : String
  revisionId : Option String
  title : String
  fileType : String
  hash : String
  deriving DecidableEq

/-- The JSON payload `writeManifest` serializes. -/
structure ManifestFile where
  spaceId : String
  updatedAt : String
  docs : List (String × ManifestEntry)
  deriving DecidableEq

/-- A filesystem mutation of the manifest-writing path. -/
inductive FsWriteOp
  | writeFile (path : String) (content : ManifestFile)
  | rename (fromPath toPath : String)
  deriving DecidableEq

/-- `writeManifest(folder, manifest)` from src/sync.js lines 282-290: build
`{spaceId: manifest.spaceId || '', updatedAt: now, docs}` and call
`fs.writeFile(path.join(folder, MANIFEST_NAME), json)` — one direct write. -/
def writeManifestOps (folder spaceId : String) (docs : List (String × ManifestEntry))
    (now : String) : List FsWriteOp :=
  [FsWriteOp.writeFile (folder ++ "/" ++ MANIFEST_NAME) ⟨jsOr spaceId "", now, docs⟩]

def opIsRename : FsWriteOp → Bool
  | .rename _ _ => true
  | _ => false

/-- The write-temp-then-rename pattern the claim asserts. -/
def usesTempRename (ops : List FsWriteOp) (finalPath : String) : Prop :=
  ∃ tmp content, tmp ≠ finalPath ∧
    ops = [FsWriteOp.writeFile tmp content, FsWriteOp.rename tmp finalPath]

/-! ## Local file set (src/sync.js listMarkdownFiles 230-258; the newer
variant in scripts/update.js lines 41-69 is identical apart from taking the
manifest name as a parameter) -/

/-- A directory tree entry as `fs.readdir(..., {withFileTypes: true})` sees it. -/
inductive FsEntry
  | file (name : String)
  | dir (name : String) (entries : List FsEntry)

/-- `isMarkdownFile`: `entry.toLowerCase().endsWith('.md')`. -/
def isMarkdownFile (name : String) : Bool := strEndsWith (lowerStr name) ".md"

/-- The recursive walk of `listMarkdownFiles`: skip the manifest, skip
`.git`/`node_modules` directories, keep markdown files that do not end in
`.remote.md` (exact match), paths joined with `/`. -/
def walkEntries (pre : String) : List FsEntry → List String
  | [] => []
  | FsEntry.file name :: rest =>
    (if name = MANIFEST_NAME then []
     else if isMarkdownFile name && !(strEndsWith name ".remote.md") then [pre ++ name]
     else []) ++ walkEntries pre rest
  | FsEntry.dir name es :: rest =>
    (if name = MANIFEST_NAME then []
     else if name = ".git" ∨ name = "node_modules" then []
     else walkEntries (pre ++ name ++ "/") es) ++ walkEntries pre rest

/-- `listMarkdownFiles(rootDir)`, as the relative POSIX paths it returns. -/
def listMarkdownFilesModel (root : List FsEntry) : List String := walkEntries "" root

/-! ## The one-shot reconciler (scripts/update.js, the variant the spec adopts)

The run is embedded as a state transition: remote documents are enumerated
with fresh metadata, the manifest and the local file set evolve through the
per-document state machine (lines 135-275), the deletion sweep
(lines 277-291) and the new-local upload sweep (lines 293-311).  Effects on
the outside world (downloads, remote deletions, wholesale uploads, document
creations) are recorded as traces.  JS objects/Maps become insertion-ordered
association lists (`lookupA`/`setA`/`eraseA`), the `usedPaths` Set a list
queried only for membership. -/

/-- A remote wiki document as the enumeration loop (lines 105-118) builds it:
node data plus freshly fetched title and revision.  `contentHash` is the
SHA-256 of the markdown a download of the document would write right now
(what `downloadDocumentToFile` returns). -/
structure RDoc where
  documentId : String
  nodeToken : String
  title : String
  revisionId : Option String
  fileType : String
  contentHash : String
  deriving DecidableEq

def lookupA {α : Type} (k : String) : List (String × α) → Option α
  | [] => none
  | p :: rest => if k = p.1 then some p.2 else lookupA k rest

/-- JS object assignment: update in place, else append. -/
def setA {α : Type} (k : String) (v : α) : List (String × α) → List (String × α)
  | [] => [(k, v)]
  | p :: rest => if k = p.1 then (p.1, v) :: rest else p :: setA k v rest

/-- JS `delete obj[k]` / `map.delete(k)`. -/
def eraseA {α : Type} (k : String) : List (String × α) → List (String × α)
  | [] => []
  | p :: rest => if k = p.1 then eraseA k rest else p :: eraseA k rest

/-- The in-place mutation `existing.file = fileRel`. -/
def setEntryFile (k f : String) : List (String × ManifestEntry) → List (String × ManifestEntry)
  | [] => []
  | p :: rest =>
    if k = p.1 then (p.1, { p.2 with file := f }) :: rest else p :: setEntryFile k f rest

def addPath (p : String) (l : List String) : List String := if p ∈ l then l else p :: l

def removePath (p : String) (l : List String) : List String := l.filter (· ≠ p)

/-- Modelled from the spec: `resolveFileType` is defined in api/helpers.js,
which is not among the source files; per the spec (§3 "records `fileType`
per entry", types `doc`/`docx` defaulting to `docx`) it resolves the node's
category, falling back to the manifest entry's and then to `"docx"`. -/
def resolveFileType (d : RDoc) (e : Option ManifestEntry) : String :=
  jsOr d.fileType (match e with
    | some e => jsOr e.fileType "docx"
    | none => "docx")

/-- `buildConflictPath` from src/sync.js lines 536-541:
`relPath.replace(/\.md$/i, '.remote.md')`, or append when no `.md` suffix. -/
def buildConflictPath (relPath : String) : String :=
  if strEndsWith (lowerStr relPath) ".md" then dropLastStr relPath 3 ++ ".remote.md"
  else relPath ++ ".remote.md"

/-- The reconciler's evolving state: manifest, local file hashes, used paths,
the six counters, and the effect traces. -/
structure SyncState where
  manifest : List (String × ManifestEntry)
  locals : List (String × String)
  usedPaths : List String
  downloaded : Nat
  uploaded : Nat
  conflicts : Nat
  skipped : Nat
  deletedLocal : Nat
  deletedRemote : Nat
  downloads : List (String × String × String)
  remoteDeletes : List String
  uploadsDone : List String
  createCount : Nat
  deriving DecidableEq

/-- The reconciler's external collaborators: the revision
`fetchDocumentMeta` reports after `uploadMarkdownToDocument` of a document,
and the (title, revision) and fresh id of the k-th `createDocumentFromMarkdown`. -/
structure SyncEnv where
  uploadMeta : String → Option String
  createMeta : Nat → String × Option String
  newDocId : Nat → String

/-- The entry's current file (`existing?.file`), the empty string when there
is no entry (or the entry's file is empty — both falsy in JS). -/
def pairFileRel0 (s : SyncState) (d : RDoc) : String :=
  match lookupA d.documentId s.manifest with
  | some e => e.file
  | none => ""

/-- `desiredRel`: the sanitized title (falling back to the document id) with
`.md`, made unique against `usedPaths` minus the entry's own file. -/
def pairDesiredRel (s : SyncState) (d : RDoc) : String :=
  ensureUniqueFilePath (jsOr (sanitizeFilename d.title) d.documentId ++ ".md")
    (if pairFileRel0 s d = "" then s.usedPaths else removePath (pairFileRel0 s d) s.usedPaths)

/-- The state after `fs.rename(oldAbs, newAbs)` plus the `localMap`,
`usedPaths` and `existing.file` updates (lines 152-166), when the old path
was tracked with hash `h`. -/
def renameStateL (s : SyncState) (d : RDoc) (h : String) : SyncState :=
  { s with
    locals := setA (pairDesiredRel s d) h (eraseA (pairFileRel0 s d) s.locals),
    usedPaths := addPath (pairDesiredRel s d) (removePath (pairFileRel0 s d) s.usedPaths),
    manifest := setEntryFile d.documentId (pairDesiredRel s d) s.manifest }

/-- The same updates when no local file sits at the old path (no move). -/
def renameStateN (s : SyncState) (d : RDoc) : SyncState :=
  { s with
    usedPaths := addPath (pairDesiredRel s d) (removePath (pairFileRel0 s d) s.usedPaths),
    manifest := setEntryFile d.documentId (pairDesiredRel s d) s.manifest }

/-- Lines 136-167: resolve the pairing, renaming the tracked file and the
entry's `file` when the resolved name differs; returns the updated state and
`fileRel`.  (`desiredRel` always ends in `.md`, so the JS `desiredRel &&`
guard is always true.) -/
def resolvePairing (s : SyncState) (d : RDoc) : SyncState × String :=
  if pairFileRel0 s d = "" then (s, pairDesiredRel s d)
  else if pairDesiredRel s d = pairFileRel0 s d then (s, pairFileRel0 s d)
  else
    match lookupA (pairFileRel0 s d) s.locals with
    | some h => (renameStateL s d h, pairDesiredRel s d)
    | none => (renameStateN s d, pairDesiredRel s d)

/-- `localChanged = existing.hash && localInfo.hash && existing.hash !== localInfo.hash`. -/
def localChangedB (e : ManifestEntry) (h : String) : Bool :=
  e.hash != "" && h != "" && e.hash != h

/-- `remoteChanged = existing.revisionId && doc.revisionId && existing.revisionId !== doc.revisionId`. -/
def remoteChangedB (e : ManifestEntry) (d : RDoc) : Bool :=
  match e.revisionId, d.revisionId with
  | some a, some b => a != "" && b != "" && a != b
  | _, _ => false

/-- Lines 135-275: the per-remote-document state machine.  After the pairing
is resolved: no entry → download a new pairing; entry but no local file →
delete the remote document; both changed → conflict artifact only; remote
changed → download over the file; local changed → wholesale upload (the
refetched title equals the enumerated one: uploading replaces children
only); neither → refresh the entry and count skipped. -/
def processRemoteDoc (env : SyncEnv) (s0 : SyncState) (d : RDoc) : SyncState :=
  match lookupA d.documentId (resolvePairing s0 d).1.manifest with
  | none =>
    { (resolvePairing s0 d).1 with
      manifest := setA d.documentId
        ⟨(resolvePairing s0 d).2, d.revisionId, d.title, resolveFileType d none,
         d.contentHash⟩ (resolvePairing s0 d).1.manifest,
      usedPaths := addPath (resolvePairing s0 d).2 (resolvePairing s0 d).1.usedPaths,
      locals := setA (resolvePairing s0 d).2 d.contentHash (resolvePairing s0 d).1.locals,
      downloaded := (resolvePairing s0 d).1.downloaded + 1,
      downloads := (resolvePairing s0 d).1.downloads ++
        [(d.documentId, (resolvePairing s0 d).2, d.contentHash)] }
  | some e =>
    match lookupA (resolvePairing s0 d).2 (resolvePairing s0 d).1.locals with
    | none =>
      { (resolvePairing s0 d).1 with
        manifest := eraseA d.documentId (resolvePairing s0 d).1.manifest,
        deletedRemote := (resolvePairing s0 d).1.deletedRemote + 1,
        remoteDeletes := (resolvePairing s0 d).1.remoteDeletes ++ [d.documentId] }
    | some h =>
      if remoteChangedB e d && localChangedB e h then
        { (resolvePairing s0 d).1 with
          conflicts := (resolvePairing s0 d).1.conflicts + 1,
          downloads := (resolvePairing s0 d).1.downloads ++
            [(d.documentId, buildConflictPath (resolvePairing s0 d).2, d.contentHash)] }
      else if remoteChangedB e d then
        { (resolvePairing s0 d).1 with
          manifest := setA d.documentId
            ⟨(resolvePairing s0 d).2, d.revisionId, d.title, resolveFileType d (some e),
             d.contentHash⟩ (resolvePairing s0 d).1.manifest,
          locals := setA (resolvePairing s0 d).2 d.contentHash (resolvePairing s0 d).1.locals,
          downloaded := (resolvePairing s0 d).1.downloaded + 1,
          downloads := (resolvePairing s0 d).1.downloads ++
            [(d.documentId, (resolvePairing s0 d).2, d.contentHash)] }
      else if localChangedB e h then
        { (resolvePairing s0 d).1 with
          manifest := setA d.documentId
            ⟨(resolvePairing s0 d).2,
             (match env.uploadMeta d.documentId with
              | some r => some r
              | none => d.revisionId),
             d.title, resolveFileType d (some e), h⟩ (resolvePairing s0 d).1.manifest,
          uploaded := (resolvePairing s0 d).1.uploaded + 1,
          uploadsDone := (resolvePairing s0 d).1.uploadsDone ++ [d.documentId] }
      else
        { (resolvePairing s0 d).1 with
          manifest := setA d.documentId
            ⟨(resolvePairing s0 d).2, d.revisionId, d.title, resolveFileType d (some e),
             jsOr h e.hash⟩ (resolvePairing s0 d).1.manifest,
          skipped := (resolvePairing s0 d).1.skipped + 1 }

/-- Lines 277-291: drop manifest entries whose document no longer exists
remotely, deleting their local file when present. -/
def phase2Step (remoteIds : List String) (s : SyncState) (pair : String × ManifestEntry) :
    SyncState :=
  if pair.1 ∈ remoteIds then s
  else if pair.2.file = "" then { s with manifest := eraseA pair.1 s.manifest }
  else
    match lookupA pair.2.file s.locals with
    | some _ =>
      { s with
        manifest := eraseA pair.1 s.manifest,
        locals := eraseA pair.2.file s.locals,
        deletedLocal := s.deletedLocal + 1 }
    | none => { s with manifest := eraseA pair.1 s.manifest }

/-- Lines 293-311: create a remote document for every unpaired local file. -/
def phase3Step (env : SyncEnv) (fileToDoc : List String) (s : SyncState)
    (pair : String × String) : SyncState :=
  if pair.1 ∈ fileToDoc then s
  else
    { s with
      manifest := setA (env.newDocId s.createCount)
        ⟨pair.1, (env.createMeta s.createCount).2, (env.createMeta s.createCount).1,
         "docx", pair.2⟩ s.manifest,
      uploaded := s.uploaded + 1,
      createCount := s.createCount + 1 }

/-- The reconciler's input world: the enumerated remote documents, the local
files with their hashes, and the manifest read from disk. -/
structure SyncWorld where
  remote : List RDoc
  manifest : List (String × ManifestEntry)
  locals : List (String × String)

/-- `usedPaths`: all local relative paths plus every truthy entry file. -/
def initialUsedPaths (w : SyncWorld) : List String :=
  w.locals.map Prod.fst ++
    (w.manifest.filterMap fun p => if p.2.file = "" then none else some p.2.file)

def initialState (w : SyncWorld) : SyncState :=
  ⟨w.manifest, w.locals, initialUsedPaths w, 0, 0, 0, 0, 0, 0, [], [], [], 0⟩

/-- The truthy entry files, in order (`fileToDoc`'s key set). -/
def manifestFiles (m : List (String × ManifestEntry)) : List String :=
  m.filterMap fun p => if p.2.file = "" then none else some p.2.file

/-- One full reconciliation pass (`main` of scripts/update.js). -/
def syncRun (env : SyncEnv) (w : SyncWorld) : SyncState :=
  let s1 := w.remote.foldl (processRemoteDoc env) (initialState w)
  let s2 := s1.manifest.foldl (phase2Step (w.remote.map RDoc.documentId)) s1
  s2.locals.foldl (phase3Step env (manifestFiles s2.manifest)) s2

def c3env : SyncEnv := ⟨fun _ => none, fun _ => ("", none), fun _ => "n"⟩

def c3s : SyncState :=
  ⟨[("D1", ⟨"x.md", some "r1", "x", "docx", "h1"⟩)], [], ["x.md"],
   0, 0, 0, 0, 0, 0, [], [], [], 0⟩

def c3d : RDoc := ⟨"D1", "n1", "x", some "r1", "docx", "h1"⟩

def c4env : SyncEnv := ⟨fun _ => none, fun _ => ("", none), fun _ => "n"⟩

def c4s : SyncState :=
  ⟨[("D1", ⟨"x.md", some "r1", "x", "docx", "h1"⟩)], [("x.md", "h2")], ["x.md"],
   0, 0, 0, 0, 0, 0, [], [], [], 0⟩

def c4d : RDoc := ⟨"D1", "n1", "x", some "r2", "docx", "hRemote"⟩

/-! ## The world a second run sees

With no external changes between two runs, the second enumeration returns:
every document the first run did not delete remotely, with the revision the
first run last fetched for it (the post-upload fetch for uploaded docs), plus
the created documents; the manifest and local files are the first run's
output.  Titles, node tokens, fileTypes and current remote content are
supplied by arbitrary functions — a run's counters do not depend on them. -/

def remoteAfter (env : SyncEnv) (w : SyncWorld) : List (String × Option String) :=
  (w.remote.filterMap fun d =>
    if d.documentId ∈ (syncRun env w).remoteDeletes then none
    else some (d.documentId,
      if d.documentId ∈ (syncRun env w).uploadsDone then env.uploadMeta d.documentId
      else d.revisionId)) ++
  ((List.range (syncRun env w).createCount).map fun k => (env.newDocId k, (env.createMeta k).2))

def worldAfter (env : SyncEnv) (w : SyncWorld) (tf ntf ftf chf : String → String) :
    SyncWorld :=
  ⟨(remoteAfter env w).map fun p => ⟨p.1, ntf p.1, tf p.1, p.2, ftf p.1, chf p.1⟩,
   (syncRun env w).manifest, (syncRun env w).locals⟩

def c5env : SyncEnv := ⟨fun _ => none, fun _ => ("", none), fun k => "new" ++ Nat.repr k⟩

/-- One document, edited on both sides: entry hash `h1` vs local hash `h2`,
entry revision `r1` vs remote revision `r2`. -/
def c5w : SyncWorld :=
  ⟨[⟨"D1", "n1", "x", some "r2", "docx", "hR"⟩],
   [("D1", ⟨"x.md", some "r1", "x", "docx", "h1"⟩)], [("x.md", "h2")]⟩

def c8env : SyncEnv := ⟨fun _ => none, fun _ => ("", none), fun k => "new" ++ Nat.repr k⟩

/-- A manifest that already pairs two documents with the same file. -/
def c8w : SyncWorld :=
  ⟨[⟨"D1", "n1", "X", some "r1", "docx", "hx"⟩, ⟨"D2", "n2", "X", some "r1", "docx", "hx"⟩],
   [("D1", ⟨"X.md", some "r1", "X", "docx", "hx"⟩),
    ("D2", ⟨"X.md", some "r1", "X", "docx", "hx"⟩)],
   [("X.md", "hx")]⟩

/-- Well-formedness of the reconciler state: manifest and local map have
distinct keys (JS objects/Maps), entry files are pairwise distinct, every
non-empty entry file and every local path is tracked in `usedPaths`, and no
local path is empty. -/
structure StateInv (s : SyncState) : Prop where
  keysNodup : (s.manifest.map Prod.fst).Nodup
  localsNodup : (s.locals.map Prod.fst).Nodup
  filesUnique : ∀ k1 k2 e1 e2, lookupA k1 s.manifest = some e1 →
    lookupA k2 s.manifest = some e2 → k1 ≠ k2 → e1.file ≠ e2.file
  filesNe : ∀ p ∈ s.manifest, p.2.file ≠ ""
  filesUsed : ∀ p ∈ s.manifest, p.2.file ∈ s.usedPaths
  localsUsed : ∀ q ∈ s.locals, q.1 ∈ s.usedPaths
  localsNe : ∀ q ∈ s.locals, q.1 ≠ ""

/-- What the pairing-resolution step (lines 136-167) guarantees when the
document has an entry with a non-empty tracked file and a local file sits at
that path: the entry survives with its `file` possibly renamed, the local
file (with its hash untouched) follows the rename, and every other lookup,
the key list, and the state's well-formedness are preserved. -/
structure PairingGood (s s' : SyncState) (fr : String) (d : RDoc)
    (e0 : ManifestEntry) (h : String) : Prop where
  entry : lookupA d.documentId s'.manifest = some { e0 with file := fr }
  frNe : fr ≠ ""
  loc : lookupA fr s'.locals = some h
  manOther : ∀ k, k ≠ d.documentId → lookupA k s'.manifest = lookupA k s.manifest
  locOther : ∀ q, q ≠ e0.file → q ≠ fr → lookupA q s'.locals = lookupA q s.locals
  frFresh : ∀ k e1, k ≠ d.documentId → lookupA k s.manifest = some e1 → e1.file ≠ fr
  inv : StateInv s'
  keysEq : s'.manifest.map Prod.fst = s.manifest.map Prod.fst
  frUsed : fr ∈ s'.usedPaths
  usedSup : ∀ x ∈ s.usedPaths, x ≠ e0.file → x ∈ s'.usedPaths
  frNotOld : ∀ x ∈ s.usedPaths, x ≠ e0.file → x ≠ fr
  locChar : ∀ q ∈ s'.locals,
    (q.1 = fr ∧ q.2 = h) ∨ (q ∈ s.locals ∧ q.1 ≠ e0.file ∧ q.1 ≠ fr)

/-- `remoteChanged` as a function of the compared revision (the remote side's
`doc.revisionId` in the code). -/
def remoteChangedRev (e : ManifestEntry) (r : Option String) : Bool :=
  match e.revisionId, r with
  | some a, some b => a != "" && b != "" && a != b
  | _, _ => false

/-- The revision the remote document reports after the pass: the refetched
post-upload revision when the pass uploaded to it, its enumerated revision
otherwise. -/
def revAfter (env : SyncEnv) (s : SyncState) (d : RDoc) : Option String :=
  if d.documentId ∈ s.uploadsDone then env.uploadMeta d.documentId else d.revisionId

/-- The document `id` is cleanly paired in state `s` against remote revision
`r`: its entry points at a tracked local file and neither side reads as
changed. -/
def SkipGoodAt (s : SyncState) (id : String) (r : Option String) : Prop :=
  ∃ e h, lookupA id s.manifest = some e ∧ e.file ≠ "" ∧
    lookupA e.file s.locals = some h ∧
    localChangedB e h = false ∧ remoteChangedRev e r = false

/-- What the pass guarantees about a processed remote document: it was
deleted remotely, or it ended cleanly paired, or some document conflicted. -/
def DonePost (env : SyncEnv) (s : SyncState) (d : RDoc) : Prop :=
  d.documentId ∈ s.remoteDeletes ∨
  SkipGoodAt s d.documentId (revAfter env s d) ∨ 1 ≤ s.conflicts

/-- Every tracked local file is some entry's file. -/
def LocalsPaired (s : SyncState) : Prop :=
  ∀ q ∈ s.locals, ∃ k e, lookupA k s.manifest = some e ∧ e.file = q.1

/-- Well-formedness of the reconciler's input world: the manifest read from
disk and the enumerated remote docs have distinct keys, entry files are
non-empty and pairwise distinct, and local paths are distinct and non-empty. -/
structure WorldInv (w : SyncWorld) : Prop where
  keysNodup : (w.manifest.map Prod.fst).Nodup
  localsNodup : (w.locals.map Prod.fst).Nodup
  remoteNodup : (w.remote.map RDoc.documentId).Nodup
  filesNodup : (w.manifest.map fun p => p.2.file).Nodup
  filesNe : ∀ p ∈ w.manifest, p.2.file ≠ ""
  localsNe : ∀ q ∈ w.locals, q.1 ≠ ""

/-- A world in sync: one remote doc paired with its entry and local file,
nothing changed on either side. -/
def c5wClean : SyncWorld :=
  ⟨[⟨"D1", "n1", "x", some "r1", "docx", "h1"⟩],
   [("D1", ⟨"x.md", some "r1", "x", "docx", "h1"⟩)], [("x.md", "h1")]⟩

/-- A well-formed two-document world: distinct keys and distinct files. -/
def c8wGood : SyncWorld :=
  ⟨[⟨"D1", "n1", "x", some "r1", "docx", "h1"⟩, ⟨"D2", "n2", "y", some "r1", "docx", "h2"⟩],
   [("D1", ⟨"x.md", some "r1", "x", "docx", "h1"⟩),
    ("D2", ⟨"y.md", some "r1", "y", "docx", "h2"⟩)],
   [("x.md", "h1"), ("y.md", "h2")]⟩

theorem mem_collapseWs {c : Char} : ∀ {l : List Char}, c ∈ collapseWs l → c = ' ' ∨ c ∈ l := by
  intro l
  induction l with
  | nil => simp [collapseWs]
  | cons a rest ih =>
    intro h
    cases rest with
    | nil =>
      rw [collapseWs] at h
      by_cases ha : jsWhitespaceChar a
      · rw [if_pos ha] at h; simp at h; exact .inl h
      · rw [if_neg ha] at h; simp at h; exact .inr (by simp [h])
    | cons c2 t =>
      rw [collapseWs] at h
      by_cases ha : jsWhitespaceChar a
      · rw [if_pos ha] at h
        by_cases h2 : jsWhitespaceChar c2
        · rw [if_pos h2] at h
          rcases ih h with h' | h'
          · exact .inl h'
          · exact .inr (List.mem_cons_of_mem _ h')
        · rw [if_neg h2, List.mem_cons] at h
          obtain h3 | h3 := h
          · exact .inl h3
          · rcases ih h3 with h4 | h4
            · exact .inl h4
            · exact .inr (List.mem_cons_of_mem _ h4)
      · rw [if_neg ha, List.mem_cons] at h
        obtain h3 | h3 := h
        · exact .inr (h3 ▸ List.mem_cons_self a _)
        · rcases ih h3 with h4 | h4
          · exact .inl h4
          · exact .inr (List.mem_cons_of_mem _ h4)

theorem trimWs_subset (l : List Char) : trimWs l ⊆ l := by
  intro c hc
  unfold trimWs at hc
  rw [List.mem_reverse] at hc
  have h1 := List.dropWhile_sublist (l := (l.dropWhile (jsWhitespaceChar ·)).reverse)
    (p := (jsWhitespaceChar ·))
  have h2 := h1.subset hc
  rw [List.mem_reverse] at h2
  exact (List.dropWhile_sublist (l := l) (p := (jsWhitespaceChar ·))).subset h2

/-- C9: sanitizeFilename yields a name of length at most 80 that contains
none of slash, backslash, newline, carriage return, tab, NUL — so the
derived filename stays directly inside the sync root. -/
theorem sanitizeFilename_safe (name : String) :
    (sanitizeFilename name).length ≤ 80 ∧
    ∀ c ∈ (sanitizeFilename name).data,
      c ≠ '/' ∧ c ≠ '\\' ∧ c ≠ '\n' ∧ c ≠ '\r' ∧ c ≠ '\t' ∧ c ≠ '\x00' := by
  constructor
  · show (List.take 80 _).length ≤ 80
    simp [List.length_take_le]
  · intro c hc
    have hc' : c ∈ trimWs (collapseWs (name.data.map fun c =>
        if escapedClassChar c then ' ' else c)) := List.take_subset _ _ hc
    have hc'' := trimWs_subset _ hc'
    have : c = ' ' ∨ c ∈ name.data.map fun c => if escapedClassChar c then ' ' else c :=
      mem_collapseWs hc''
    have hne : escapedClassChar c = false := by
      rcases this with h | h
      · subst h; decide
      · rcases List.mem_map.1 h with ⟨a, _, ha⟩
        by_cases he : escapedClassChar a
        · simp only [he, if_true] at ha; subst ha; decide
        · simp only [he, if_false] at ha; subst ha
          simpa using he
    refine ⟨?_, ?_, ?_, ?_, ?_, ?_⟩ <;>
      (intro h; subst h; simp [escapedClassChar] at hne)

/-! ## Decimal numerals

`ensureUniqueFilePath` forms candidate names `base-1.md`, `base-2.md`, …
(template literal `${base}-${counter}.md`).  To know the search always finds
a name outside a finite used set we prove `Nat.repr` injective. -/

theorem toDigitsCore_acc (b : Nat) :
    ∀ (fuel n : Nat) (ds : List Char),
      Nat.toDigitsCore b fuel n ds = Nat.toDigitsCore b fuel n [] ++ ds := by
  intro fuel
  induction fuel with
  | zero => intro n ds; simp [Nat.toDigitsCore]
  | succ f ih =>
    intro n ds
    simp only [Nat.toDigitsCore]
    by_cases hx : n / b = 0
    · simp [hx]
    · simp only [hx, if_false]
      rw [ih (n / b) (Nat.digitChar (n % b) :: ds), ih (n / b) [Nat.digitChar (n % b)]]
      simp

theorem toDigitsCore_fuel (b : Nat) (hb : 1 < b) :
    ∀ (n fuel fuel' : Nat) (ds : List Char), n < fuel → n < fuel' →
      Nat.toDigitsCore b fuel n ds = Nat.toDigitsCore b fuel' n ds := by
  intro n
  induction n using Nat.strong_induction_on with
  | _ n ih =>
    intro fuel fuel' ds hf hf'
    cases fuel with
    | zero => omega
    | succ f =>
      cases fuel' with
      | zero => omega
      | succ f' =>
        simp only [Nat.toDigitsCore]
        by_cases hx : n / b = 0
        · simp [hx]
        · simp only [hx, if_false]
          have hn1 : 1 ≤ n := by
            rcases Nat.eq_zero_or_pos n with h0 | h1
            · subst h0; simp [Nat.zero_div] at hx
            · exact h1
          have hdiv : n / b < n := Nat.div_lt_self hn1 hb
          exact ih (n / b) hdiv f f' _ (by omega) (by omega)

theorem toDigits_unfold (n : Nat) :
    Nat.toDigits 10 n =
      if n < 10 then [Nat.digitChar n]
      else Nat.toDigits 10 (n / 10) ++ [Nat.digitChar (n % 10)] := by
  show Nat.toDigitsCore 10 (n + 1) n [] = _
  simp only [Nat.toDigitsCore]
  by_cases hlt : n < 10
  · have hx : n / 10 = 0 := Nat.div_eq_of_lt hlt
    have hm : n % 10 = n := Nat.mod_eq_of_lt hlt
    simp [hx, hm, hlt]
  · have hge : 10 ≤ n := by omega
    have hx : n / 10 ≠ 0 := by
      have : 1 ≤ n / 10 := (Nat.one_le_div_iff (by omega)).2 hge
      omega
    simp only [hx, if_false, hlt, if_false]
    rw [toDigitsCore_acc]
    congr 1
    show Nat.toDigitsCore 10 n (n / 10) [] = Nat.toDigits 10 (n / 10)
    have hdiv : n / 10 < n := Nat.div_lt_self (by omega) (by omega)
    exact toDigitsCore_fuel 10 (by omega) (n / 10) n (n / 10 + 1) [] hdiv (by omega)

theorem toDigits_ne_nil (n : Nat) : Nat.toDigits 10 n ≠ [] := by
  rw [toDigits_unfold]
  by_cases hlt : n < 10
  · simp [hlt]
  · simp [hlt]

theorem toDigits_inj : ∀ n m : Nat, Nat.toDigits 10 n = Nat.toDigits 10 m → n = m := by
  intro n
  induction n using Nat.strong_induction_on with
  | _ n ih =>
    intro m h
    rw [toDigits_unfold n, toDigits_unfold m] at h
    have hdc : ∀ a < 10, ∀ b < 10, Nat.digitChar a = Nat.digitChar b → a = b := by decide
    by_cases hn : n < 10
    · by_cases hm : m < 10
      · rw [if_pos hn, if_pos hm] at h
        simp only [List.cons.injEq] at h
        exact hdc n hn m hm h.1
      · rw [if_pos hn, if_neg hm] at h
        have hlen := congrArg List.length h
        have hne := toDigits_ne_nil (m / 10)
        have hpos : 1 ≤ (Nat.toDigits 10 (m / 10)).length := List.length_pos.2 hne
        simp only [List.length_cons, List.length_append, List.length_nil] at hlen
        omega
    · by_cases hm : m < 10
      · rw [if_neg hn, if_pos hm] at h
        have hlen := congrArg List.length h
        have hne := toDigits_ne_nil (n / 10)
        have hpos : 1 ≤ (Nat.toDigits 10 (n / 10)).length := List.length_pos.2 hne
        simp only [List.length_cons, List.length_append, List.length_nil] at hlen
        omega
      · rw [if_neg hn, if_neg hm] at h
        obtain ⟨h3, h4⟩ := List.append_inj' h (by rfl)
        have hdiv : n / 10 < n := Nat.div_lt_self (by omega) (by omega)
        have heq1 : n / 10 = m / 10 := ih (n / 10) hdiv (m / 10) h3
        have heq2 : n % 10 = m % 10 := by
          simp only [List.cons.injEq] at h4
          exact hdc (n % 10) (Nat.mod_lt n (by omega)) (m % 10) (Nat.mod_lt m (by omega)) h4.1
        omega

theorem natRepr_inj : Function.Injective Nat.repr := by
  intro n m h
  exact toDigits_inj n m (congrArg String.data h)

theorem candName_inj (base : String) : Function.Injective (candName base) := by
  intro j k h
  unfold candName at h
  have h1 : (base ++ "-" ++ Nat.repr j ++ ".md").data
      = (base ++ "-" ++ Nat.repr k ++ ".md").data := congrArg String.data h
  simp only [String.data_append, List.append_assoc] at h1
  have h2 := List.append_cancel_left h1
  have h3 := List.append_cancel_left h2
  have h4 := List.append_cancel_right h3
  exact natRepr_inj (congrArg String.mk h4)

/-- Among `used.length + 1` successive candidates one is unused. -/
theorem exists_free_cand (base : String) (used : List String) (k0 : Nat) :
    ∃ j < used.length + 1, candName base (k0 + j) ∉ used := by
  by_contra hcon
  push_neg at hcon
  have hnodup : ((List.range (used.length + 1)).map fun j => candName base (k0 + j)).Nodup := by
    refine (List.nodup_range _).map ?_
    intro a b hab
    have := candName_inj base hab
    omega
  have hsub : ((List.range (used.length + 1)).map fun j => candName base (k0 + j)) ⊆ used := by
    intro x hx
    rcases List.mem_map.1 hx with ⟨j, hj, rfl⟩
    exact hcon j (List.mem_range.1 hj)
  have hle := (hnodup.subperm hsub).length_le
  simp at hle

theorem findFree_not_mem (base : String) (used : List String) :
    ∀ fuel k, (∃ j < fuel, candName base (k + j) ∉ used) →
      findFree base used fuel k ∉ used := by
  intro fuel
  induction fuel with
  | zero => intro k h; obtain ⟨j, hj, _⟩ := h; omega
  | succ f ih =>
    intro k h
    obtain ⟨j, hj, hfree⟩ := h
    by_cases hc : candName base k ∈ used
    · rw [findFree, if_pos hc]
      apply ih
      have hj0 : j ≠ 0 := by
        intro h0
        subst h0
        simp at hfree
        exact hfree hc
      exact ⟨j - 1, by omega, by
        have : k + 1 + (j - 1) = k + j := by omega
        rw [this]; exact hfree⟩
    · rw [findFree, if_neg hc]
      exact hc

/-- The chosen path is never one of the used paths. -/
theorem ensureUniqueFilePath_not_mem (fileName : String) (used : List String) :
    ensureUniqueFilePath fileName used ∉ used := by
  unfold ensureUniqueFilePath
  by_cases hf : stripMdIns fileName ++ ".md" ∈ used
  · rw [if_pos hf]
    apply findFree_not_mem
    obtain ⟨j, hj, hfree⟩ := exists_free_cand (stripMdIns fileName) used 1
    exact ⟨j, hj, hfree⟩
  · rw [if_neg hf]
    exact hf

/-- C2 (code_bug evidence): on 429 with no `Retry-After` header the client
sleeps 0 ms on all six fetches (initial + 5 retries) and then fails —
`Number(null) = 0` is finite, so the exponential-backoff expression is dead
for the absent-header case; the spec's 1 s/2 s/4 s/8 s backoff appears only
when the header is present but non-numeric. -/
theorem apiRequest_zero_backoff_when_header_absent :
    apiRequestModel (fun _ => .rateLimited .absent)
        = .rateLimitedFail [0, 0, 0, 0, 0, 0] ∧
    retryDelayMs .absent 0 = 0 ∧
    retryDelayMs .nonNumeric 0 = 1000 ∧
    retryDelayMs .nonNumeric 1 = 2000 ∧
    retryDelayMs .nonNumeric 2 = 4000 ∧
    retryDelayMs .nonNumeric 3 = 8000 ∧
    retryDelayMs .nonNumeric 4 = 8000 ∧
    retryDelayMs (.numeric 7) 2 = 7000 := by
  refine ⟨rfl, rfl, rfl, rfl, rfl, rfl, rfl, rfl⟩

theorem fetchPages_items (ps : Nat) :
    ∀ (pages : List Page) (tok : String),
      (fetchPages ps pages tok).2.1 = (consumedPages pages).flatMap Page.items := by
  intro pages
  induction pages with
  | nil => intro tok; simp [fetchPages, consumedPages]
  | cons p rest ih =>
    intro tok
    rw [fetchPages, consumedPages]
    by_cases hm : pageMore p
    · rw [if_pos hm, if_pos hm]
      simp [ih]
    · rw [if_neg hm, if_neg hm]
      simp

theorem fetchPages_sizes (ps : Nat) :
    ∀ (pages : List Page) (tok : String),
      ∀ r ∈ (fetchPages ps pages tok).1, r.pageSize = ps := by
  intro pages
  induction pages with
  | nil => intro tok; simp [fetchPages]
  | cons p rest ih =>
    intro tok r hr
    rw [fetchPages] at hr
    by_cases hm : pageMore p
    · rw [if_pos hm] at hr
      simp only [List.mem_cons] at hr
      rcases hr with h1 | h1
      · subst h1; rfl
      · exact ih _ r h1
    · rw [if_neg hm] at hr
      simp at hr
      subst hr; rfl

theorem fetchPages_reqs (ps : Nat) :
    ∀ (pages : List Page) (tok : String),
      (fetchPages ps pages tok).1 = expectedReqs ps tok pages := by
  intro pages
  induction pages with
  | nil => intro tok; simp [fetchPages, expectedReqs]
  | cons p rest ih =>
    intro tok
    rw [fetchPages, expectedReqs]
    by_cases hm : pageMore p
    · rw [if_pos hm, if_pos hm]
      simp [ih]
    · rw [if_neg hm, if_neg hm]

theorem consumedPages_of_chain :
    ∀ pages : List Page, (∀ p ∈ pages.dropLast, pageMore p = true) →
      consumedPages pages = pages := by
  intro pages
  induction pages with
  | nil => intro _; rfl
  | cons p rest ih =>
    intro h
    cases rest with
    | nil =>
      rw [consumedPages]
      by_cases hm : pageMore p
      · rw [if_pos hm, consumedPages]
      · rw [if_neg hm]
    | cons q t =>
      have hp : pageMore p = true := h p (by simp)
      rw [consumedPages, if_pos hp]
      rw [ih (fun x hx => h x (by
        rw [List.dropLast_cons₂]
        exact List.mem_cons_of_mem _ hx))]

/-- C6 (amended): each pagination loop requests pages whose first request
carries no token and each later request the previous page's
`page_token || next_page_token`; it consumes pages exactly while `has_more`
is true (or, absent, while the returned token is non-empty), accumulating
every consumed page's items; the page sizes are 100 for document blocks,
50 for wiki nodes and 200 for block children. -/
theorem pagination_follows_tokens (pages : List Page)
    (hchain : ∀ p ∈ pages.dropLast, pageMore p = true) :
    (fetchAllBlocksModel pages).2.1 = pages.flatMap Page.items ∧
    (fetchWikiNodesModel pages).2.1 = pages.flatMap Page.items ∧
    (fetchChildrenCountModel pages).2.1 = (pages.flatMap Page.items).length ∧
    (fetchAllBlocksModel pages).1 = expectedReqs 100 "" pages ∧
    (fetchWikiNodesModel pages).1 = expectedReqs 50 "" pages ∧
    (fetchChildrenCountModel pages).1 = expectedReqs 200 "" pages ∧
    (∀ r ∈ (fetchAllBlocksModel pages).1, r.pageSize = 100) ∧
    (∀ r ∈ (fetchWikiNodesModel pages).1, r.pageSize = 50) ∧
    (∀ r ∈ (fetchChildrenCountModel pages).1, r.pageSize = 200) := by
  have hc := consumedPages_of_chain pages hchain
  refine ⟨?_, ?_, ?_, ?_, ?_, ?_, ?_, ?_, ?_⟩
  · rw [show (fetchAllBlocksModel pages).2.1 = (consumedPages pages).flatMap Page.items from
      fetchPages_items 100 pages "", hc]
  · rw [show (fetchWikiNodesModel pages).2.1 = (consumedPages pages).flatMap Page.items from
      fetchPages_items 50 pages "", hc]
  · show (fetchPages 200 pages "").2.1.length = _
    rw [fetchPages_items 200 pages "", hc]
  · exact fetchPages_reqs 100 pages ""
  · exact fetchPages_reqs 50 pages ""
  · exact fetchPages_reqs 200 pages ""
  · exact fetchPages_sizes 100 pages ""
  · exact fetchPages_sizes 50 pages ""
  · exact fetchPages_sizes 200 pages ""

/-- Witness for `pagination_follows_tokens` at a concrete two-page run. -/
theorem pagination_follows_tokens_witness :
    (∀ p ∈ ([⟨["a"], "t1", "", some true⟩, ⟨["b"], "", "", some false⟩] :
        List Page).dropLast, pageMore p = true) ∧
    (fetchAllBlocksModel [⟨["a"], "t1", "", some true⟩, ⟨["b"], "", "", some false⟩]).2.1
      = ["a", "b"] := by
  refine ⟨by decide, ?_⟩
  have h := pagination_follows_tokens
    [⟨["a"], "t1", "", some true⟩, ⟨["b"], "", "", some false⟩] (by decide)
  rw [h.1]
  decide

/-- C6 (counterexample): the block-children loop requests page size 200,
not 100 as claimed — here on a single already-final page. -/
theorem children_page_size_not_100 :
    ((fetchChildrenCountModel [⟨["a"], "", "", some false⟩]).1.all
      fun r => r.pageSize == 100) = false := by
  decide

theorem chainFromTo_append :
    ∀ {l1 l2 : List (Nat × Nat)} {i j k : Nat},
      ChainFromTo i l1 j → ChainFromTo j l2 k → ChainFromTo i (l1 ++ l2) k := by
  intro l1
  induction l1 with
  | nil =>
    intro l2 i j k h1 h2
    simp only [ChainFromTo] at h1
    subst h1
    simpa using h2
  | cons p t ih =>
    intro l2 i j k h1 h2
    obtain ⟨pa, pc⟩ := p
    obtain ⟨ha, hc1, hc2, hrest⟩ := h1
    exact ⟨ha, hc1, hc2, ih hrest h2⟩

theorem chainFromTo_counts :
    ∀ {l : List (Nat × Nat)} {i j : Nat}, ChainFromTo i l j →
      ∀ pr ∈ l, 1 ≤ pr.2 ∧ pr.2 ≤ 100 := by
  intro l
  induction l with
  | nil => intro i j _ pr hpr; simp at hpr
  | cons p t ih =>
    intro i j h pr hpr
    obtain ⟨pa, pc⟩ := p
    obtain ⟨ha, hc1, hc2, hrest⟩ := h
    rcases List.mem_cons.1 hpr with h1 | h1
    · subst h1; exact ⟨hc1, hc2⟩
    · exact ih hrest pr h1

theorem chainFromTo_mono :
    ∀ {l : List (Nat × Nat)} {i j : Nat}, ChainFromTo i l j →
      List.Chain' (· < ·) (l.map Prod.fst) := by
  intro l
  induction l with
  | nil => intro i j _; simp
  | cons p t ih =>
    intro i j h
    obtain ⟨pa, pc⟩ := p
    obtain ⟨ha, hc1, hc2, hrest⟩ := h
    cases t with
    | nil => simp
    | cons q u =>
      obtain ⟨qa, qc⟩ := q
      refine List.Chain'.cons ?_ (ih hrest)
      obtain ⟨hqa, hq1, hq2, hq3⟩ := hrest
      subst ha; subst hqa; omega

theorem appendBlocksAux_spec :
    ∀ (fuel count index : Nat), count ≤ fuel →
      (appendBlocksAux fuel index count).1 = index + count ∧
      ChainFromTo index (docAppends (appendBlocksAux fuel index count).2) (index + count) ∧
      ∀ op ∈ (appendBlocksAux fuel index count).2, ∃ i c, op = UploadOp.appendDoc i c := by
  intro fuel
  induction fuel with
  | zero =>
    intro count index h
    have : count = 0 := by omega
    subst this
    refine ⟨rfl, ?_, ?_⟩
    · simp [appendBlocksAux, docAppends, ChainFromTo]
    · simp [appendBlocksAux]
  | succ f ih =>
    intro count index h
    cases count with
    | zero =>
      refine ⟨rfl, ?_, ?_⟩
      · simp [appendBlocksAux, docAppends, ChainFromTo]
      · simp [appendBlocksAux]
    | succ c =>
      rw [appendBlocksAux]
      have hchunk1 : 1 ≤ min CREATE_BATCH_SIZE (c + 1) := by
        unfold CREATE_BATCH_SIZE; omega
      have hchunk2 : min CREATE_BATCH_SIZE (c + 1) ≤ 100 := by
        unfold CREATE_BATCH_SIZE; omega
      have hchunk3 : min CREATE_BATCH_SIZE (c + 1) ≤ c + 1 := Nat.min_le_right _ _
      have hrec := ih (c + 1 - min CREATE_BATCH_SIZE (c + 1))
        (index + min CREATE_BATCH_SIZE (c + 1)) (by omega)
      obtain ⟨h1, h2, h3⟩ := hrec
      refine ⟨by rw [h1]; omega, ?_, ?_⟩
      · show ChainFromTo index
          ((index, min CREATE_BATCH_SIZE (c + 1)) :: docAppends (appendBlocksAux f _ _).2) _
        refine ⟨rfl, hchunk1, hchunk2, ?_⟩
        have : index + min CREATE_BATCH_SIZE (c + 1) + (c + 1 - min CREATE_BATCH_SIZE (c + 1))
            = index + (c + 1) := by omega
        rw [← this]
        exact h2
      · intro op hop
        rcases List.mem_cons.1 hop with h4 | h4
        · exact ⟨index, _, h4⟩
        · exact h3 op h4

theorem cellOpsRow_cells (cells : List String) (base : Nat) :
    ∀ (row : List String) (c : Nat) (op : UploadOp), op ∈ cellOpsRow cells base row c →
      ∃ s k, op = UploadOp.appendCell s k := by
  intro row
  induction row with
  | nil => intro c op hop; simp [cellOpsRow] at hop
  | cons content rest ih =>
    intro c op hop
    rw [cellOpsRow] at hop
    rcases List.mem_append.1 hop with h1 | h1
    · by_cases hid : (cells.get? (base + c)).getD "" = ""
      · rw [if_pos hid] at h1; simp at h1
      · rw [if_neg hid] at h1
        by_cases hblank : trimWs content.data = []
        · rw [if_pos hblank] at h1; simp at h1
        · rw [if_neg hblank] at h1
          simp at h1
          exact ⟨_, _, h1⟩
    · exact ih (c + 1) op h1

theorem cellOpsRows_cells (cells : List String) (colSize : Nat) :
    ∀ (rows : List (List String)) (r : Nat) (op : UploadOp),
      op ∈ cellOpsRows cells colSize rows r → ∃ s k, op = UploadOp.appendCell s k := by
  intro rows
  induction rows with
  | nil => intro r op hop; simp [cellOpsRows] at hop
  | cons row rest ih =>
    intro r op hop
    rw [cellOpsRows] at hop
    rcases List.mem_append.1 hop with h1 | h1
    · exact cellOpsRow_cells cells (r * colSize) row 0 op h1
    · exact ih (r + 1) op h1

theorem createTableOps_spec (cells : List String) (index : Nat) (rows : List (List String))
    (colSize : Nat) :
    ChainFromTo index (docAppends (createTableOps cells index rows colSize).2)
      (createTableOps cells index rows colSize).1 ∧
    ∀ op ∈ (createTableOps cells index rows colSize).2,
      (∃ i c, op = UploadOp.appendDoc i c) ∨ (∃ s k, op = UploadOp.appendCell s k) := by
  unfold createTableOps
  by_cases hempty : rows = [] ∨ colSize = 0
  · rw [if_pos hempty]
    exact ⟨rfl, by simp⟩
  · rw [if_neg hempty]
    constructor
    · show ChainFromTo index ((index, 1) ::
        docAppends (if cells = [] then [] else cellOpsRows cells colSize rows 0)) (index + 1)
      refine ⟨rfl, by omega, by omega, ?_⟩
      by_cases hc : cells = []
      · simp [hc, docAppends, ChainFromTo]
      · rw [if_neg hc]
        have : docAppends (cellOpsRows cells colSize rows 0) = [] := by
          rw [docAppends, List.filterMap_eq_nil_iff]
          intro op hop
          obtain ⟨s, k, rfl⟩ := cellOpsRows_cells cells colSize rows 0 op hop
          rfl
        rw [this]
        rfl
    · intro op hop
      rcases List.mem_cons.1 hop with h1 | h1
      · exact .inl ⟨index, 1, h1⟩
      · by_cases hc : cells = []
        · rw [if_pos hc] at h1; simp at h1
        · rw [if_neg hc] at h1
          exact .inr (cellOpsRows_cells cells colSize rows 0 op h1)

theorem docAppends_append (l1 l2 : List UploadOp) :
    docAppends (l1 ++ l2) = docAppends l1 ++ docAppends l2 := by
  simp [docAppends]

theorem appendBlocksOps_spec (index buf : Nat) :
    (appendBlocksOps index buf).1 = index + buf ∧
    ChainFromTo index (docAppends (appendBlocksOps index buf).2) (index + buf) ∧
    ∀ op ∈ (appendBlocksOps index buf).2, ∃ i c, op = UploadOp.appendDoc i c :=
  appendBlocksAux_spec (buf + 1) buf index (by omega)

theorem appendWithTablesAux_spec (tblCells : Nat → List String) :
    ∀ (blocks : List MdBlock) (index buf tbl : Nat),
      (∃ j, ChainFromTo index
        (docAppends (appendBlocksWithTablesAux tblCells blocks index buf tbl)) j) ∧
      ∀ op ∈ appendBlocksWithTablesAux tblCells blocks index buf tbl,
        (∃ i c, op = UploadOp.appendDoc i c) ∨ (∃ s k, op = UploadOp.appendCell s k) := by
  intro blocks
  induction blocks with
  | nil =>
    intro index buf tbl
    obtain ⟨h1, h2, h3⟩ := appendBlocksOps_spec index buf
    constructor
    · exact ⟨index + buf, h2⟩
    · intro op hop
      exact .inl (h3 op hop)
  | cons b rest ih =>
    intro index buf tbl
    cases b with
    | plain => exact ih index (buf + 1) tbl
    | table rows colSize =>
      rw [appendBlocksWithTablesAux]
      obtain ⟨hf1, hf2, hf3⟩ := appendBlocksOps_spec index buf
      rw [hf1]
      obtain ⟨ht1, ht2⟩ := createTableOps_spec (tblCells tbl) (index + buf) rows colSize
      obtain ⟨⟨j, hr1⟩, hr2⟩ := ih (createTableOps (tblCells tbl) (index + buf) rows colSize).1 0
        (tbl + 1)
      constructor
      · refine ⟨j, ?_⟩
        rw [docAppends_append, docAppends_append, List.append_assoc]
        exact chainFromTo_append hf2 (chainFromTo_append ht1 hr1)
      · intro op hop
        rcases List.mem_append.1 hop with h1 | h1
        · rcases List.mem_append.1 h1 with h2 | h2
          · exact .inl (hf3 op h2)
          · exact ht2 op h2
        · exact hr2 op h1

theorem deleteAllChildrenOps_spec :
    ∀ (fuel remaining : Nat), remaining ≤ fuel →
      (∀ op ∈ deleteAllChildrenOps fuel remaining,
        ∃ b, op = UploadOp.batchDelete 0 b ∧ 1 ≤ b ∧ b ≤ 100) ∧
      deletedSum (deleteAllChildrenOps fuel remaining) = remaining := by
  intro fuel
  induction fuel with
  | zero =>
    intro remaining h
    have : remaining = 0 := by omega
    subst this
    exact ⟨by simp [deleteAllChildrenOps], by simp [deleteAllChildrenOps, deletedSum]⟩
  | succ f ih =>
    intro remaining h
    cases remaining with
    | zero =>
      exact ⟨by simp [deleteAllChildrenOps], by simp [deleteAllChildrenOps, deletedSum]⟩
    | succ r =>
      rw [deleteAllChildrenOps]
      have hb1 : 1 ≤ min DELETE_BATCH_SIZE (r + 1) := by
        unfold DELETE_BATCH_SIZE; omega
      have hb2 : min DELETE_BATCH_SIZE (r + 1) ≤ 100 := by
        unfold DELETE_BATCH_SIZE; omega
      have hb3 : min DELETE_BATCH_SIZE (r + 1) ≤ r + 1 := Nat.min_le_right _ _
      obtain ⟨ih1, ih2⟩ := ih (r + 1 - min DELETE_BATCH_SIZE (r + 1)) (by omega)
      constructor
      · intro op hop
        rcases List.mem_cons.1 hop with h1 | h1
        · exact ⟨min DELETE_BATCH_SIZE (r + 1), h1, hb1, hb2⟩
        · exact ih1 op h1
      · show deletedSum (UploadOp.batchDelete 0 (min DELETE_BATCH_SIZE (r + 1)) ::
          deleteAllChildrenOps f (r + 1 - min DELETE_BATCH_SIZE (r + 1))) = r + 1
        unfold deletedSum at ih2 ⊢
        simp only [List.map_cons, List.sum_cons]
        rw [ih2]
        omega

/-- C7: uploading replaces content wholesale — the trace is the batch
deletes followed by the appends; every delete is `batch_delete` of
`[0, b)` with `1 ≤ b ≤ 100` and the deletes remove exactly the fetched
child count; the append phase issues no delete; the document-root append
batches have 1 to 100 blocks and their indices form a gapless strictly
increasing chain from 0. -/
theorem uploadMarkdown_wholesale (tblCells : Nat → List String) (childPages : List Page)
    (blocks : List MdBlock) :
    uploadMarkdownToDocumentOps tblCells childPages blocks
      = deleteAllChildrenOpsAll (fetchChildrenCountModel childPages).2.1 ++
        appendBlocksWithTablesOps tblCells blocks ∧
    (∀ op ∈ deleteAllChildrenOpsAll (fetchChildrenCountModel childPages).2.1,
      ∃ b, op = UploadOp.batchDelete 0 b ∧ 1 ≤ b ∧ b ≤ 100) ∧
    deletedSum (deleteAllChildrenOpsAll (fetchChildrenCountModel childPages).2.1)
      = (fetchChildrenCountModel childPages).2.1 ∧
    (∀ op ∈ appendBlocksWithTablesOps tblCells blocks,
      ∀ s e, op ≠ UploadOp.batchDelete s e) ∧
    (∀ pr ∈ docAppends (appendBlocksWithTablesOps tblCells blocks),
      1 ≤ pr.2 ∧ pr.2 ≤ 100) ∧
    List.Chain' (· < ·)
      ((docAppends (appendBlocksWithTablesOps tblCells blocks)).map Prod.fst) := by
  obtain ⟨hd1, hd2⟩ := deleteAllChildrenOps_spec (fetchChildrenCountModel childPages).2.1
    (fetchChildrenCountModel childPages).2.1 (le_refl _)
  obtain ⟨⟨j, hchain⟩, hmem⟩ := appendWithTablesAux_spec tblCells blocks 0 0 0
  refine ⟨rfl, hd1, hd2, ?_, ?_, ?_⟩
  · intro op hop s e heq
    rcases hmem op hop with ⟨i, c, h1⟩ | ⟨s', k', h1⟩ <;> (subst heq; cases h1)
  · exact chainFromTo_counts hchain
  · exact chainFromTo_mono hchain

/-- C1 (counterexample): writing the manifest performs no rename — on a
concrete manifest the trace is a single direct `fs.writeFile` of the final
path, not a temp-file write followed by a rename. -/
theorem writeManifest_not_temp_rename :
    ¬ usesTempRename (writeManifestOps "root" "s1" [] "t0")
        ("root" ++ "/" ++ MANIFEST_NAME) ∧
    writeManifestOps "root" "s1" [] "t0"
      = [FsWriteOp.writeFile ("root" ++ "/" ++ MANIFEST_NAME) ⟨"s1", "t0", []⟩] := by
  constructor
  · rintro ⟨tmp, content, hne, heq⟩
    simp [writeManifestOps] at heq
  · decide

/-- C1 (amended): `writeManifest` writes the refreshed payload directly to
`<folder>/.feishu-sync.json` in a single `fs.writeFile` call; no temporary
file and no rename are involved, so atomicity is not provided by this code. -/
theorem writeManifest_single_direct_write (folder spaceId : String)
    (docs : List (String × ManifestEntry)) (now : String) :
    writeManifestOps folder spaceId docs now
      = [FsWriteOp.writeFile (folder ++ "/" ++ MANIFEST_NAME) ⟨jsOr spaceId "", now, docs⟩] ∧
    (writeManifestOps folder spaceId docs now).all (fun op => !opIsRename op) = true :=
  ⟨rfl, rfl⟩

theorem emptyAppendStr (s : String) : "" ++ s = s := by
  have : ("" ++ s).data = s.data := by
    rw [String.data_append]
    rfl
  exact congrArg String.mk this

/-- C10: the markdown check lowercases the name, but the conflict-artifact
exclusion compares exactly: any file whose lowercased name ends in `.md`
and whose exact name does not end in `.remote.md` is listed (for example
`notes.Remote.MD`), while engine-written artifacts — always exactly
`.remote.md` — are excluded. -/
theorem listMarkdownFiles_case_mismatch :
    (∀ name : String, name ≠ MANIFEST_NAME →
      strEndsWith (lowerStr name) ".md" = true →
      strEndsWith name ".remote.md" = false →
      listMarkdownFilesModel [FsEntry.file name] = [name]) ∧
    (∀ name : String, strEndsWith name ".remote.md" = true →
      listMarkdownFilesModel [FsEntry.file name] = []) := by
  constructor
  · intro name h1 h2 h3
    show walkEntries "" [FsEntry.file name] = [name]
    rw [walkEntries, walkEntries]
    rw [if_neg h1]
    rw [if_pos (by rw [isMarkdownFile, h2, h3]; rfl)]
    rw [emptyAppendStr]
    rfl
  · intro name h1
    show walkEntries "" [FsEntry.file name] = []
    rw [walkEntries, walkEntries]
    by_cases hm : name = MANIFEST_NAME
    · rw [if_pos hm]; rfl
    · rw [if_neg hm]
      rw [if_neg (by rw [h1]; simp)]
      rfl

/-- Witness: `notes.Remote.MD` is listed; `a.remote.md` is excluded. -/
theorem listMarkdownFiles_case_mismatch_witness :
    listMarkdownFilesModel [FsEntry.file "notes.Remote.MD"] = ["notes.Remote.MD"] ∧
    listMarkdownFilesModel [FsEntry.file "a.remote.md"] = [] :=
  ⟨listMarkdownFiles_case_mismatch.1 "notes.Remote.MD" (by decide) (by decide) (by decide),
   listMarkdownFiles_case_mismatch.2 "a.remote.md" (by decide)⟩

theorem lookupA_eraseA {α : Type} (k : String) :
    ∀ m : List (String × α), lookupA k (eraseA k m) = none := by
  intro m
  induction m with
  | nil => rfl
  | cons p rest ih =>
    rw [eraseA]
    by_cases h : k = p.1
    · rw [if_pos h]; exact ih
    · rw [if_neg h, lookupA, if_neg h]; exact ih

theorem eraseA_setEntryFile (k f : String) :
    ∀ m : List (String × ManifestEntry), eraseA k (setEntryFile k f m) = eraseA k m := by
  intro m
  induction m with
  | nil => rfl
  | cons p rest ih =>
    rw [setEntryFile]
    by_cases h : k = p.1
    · rw [if_pos h, eraseA, if_pos h, eraseA, if_pos h]
    · rw [if_neg h, eraseA, if_neg h, eraseA, if_neg h, ih]

theorem lookupA_setEntryFile_self (k f : String) :
    ∀ m : List (String × ManifestEntry),
      lookupA k (setEntryFile k f m)
        = (lookupA k m).map fun e => { e with file := f } := by
  intro m
  induction m with
  | nil => rfl
  | cons p rest ih =>
    rw [setEntryFile]
    by_cases h : k = p.1
    · rw [if_pos h, lookupA, lookupA, if_pos h]
      simp [h]
    · rw [if_neg h, lookupA, if_neg h, lookupA, if_neg h, ih]

theorem resolvePairing_frame (s : SyncState) (d : RDoc) :
    (resolvePairing s d).1.downloaded = s.downloaded ∧
    (resolvePairing s d).1.uploaded = s.uploaded ∧
    (resolvePairing s d).1.conflicts = s.conflicts ∧
    (resolvePairing s d).1.skipped = s.skipped ∧
    (resolvePairing s d).1.deletedLocal = s.deletedLocal ∧
    (resolvePairing s d).1.deletedRemote = s.deletedRemote ∧
    (resolvePairing s d).1.downloads = s.downloads ∧
    (resolvePairing s d).1.remoteDeletes = s.remoteDeletes ∧
    (resolvePairing s d).1.uploadsDone = s.uploadsDone ∧
    (resolvePairing s d).1.createCount = s.createCount := by
  rw [resolvePairing]
  split
  · exact ⟨rfl, rfl, rfl, rfl, rfl, rfl, rfl, rfl, rfl, rfl⟩
  · split
    · exact ⟨rfl, rfl, rfl, rfl, rfl, rfl, rfl, rfl, rfl, rfl⟩
    · split <;> exact ⟨rfl, rfl, rfl, rfl, rfl, rfl, rfl, rfl, rfl, rfl⟩

theorem resolvePairing_manifest (s : SyncState) (d : RDoc) :
    (resolvePairing s d).1.manifest = s.manifest ∨
    (resolvePairing s d).1.manifest
      = setEntryFile d.documentId (resolvePairing s d).2 s.manifest := by
  rw [resolvePairing]
  split
  · exact .inl rfl
  · split
    · exact .inl rfl
    · split <;> exact .inr rfl

theorem processRemoteDoc_deleteBranch (env : SyncEnv) (s : SyncState) (d : RDoc)
    (e : ManifestEntry)
    (hentry : lookupA d.documentId (resolvePairing s d).1.manifest = some e)
    (hmissing : lookupA (resolvePairing s d).2 (resolvePairing s d).1.locals = none) :
    processRemoteDoc env s d =
      { (resolvePairing s d).1 with
        manifest := eraseA d.documentId (resolvePairing s d).1.manifest,
        deletedRemote := (resolvePairing s d).1.deletedRemote + 1,
        remoteDeletes := (resolvePairing s d).1.remoteDeletes ++ [d.documentId] } := by
  unfold processRemoteDoc
  rw [hentry, hmissing]

/-- C3: a remote document with a manifest entry but no local file at the
(possibly renamed) entry path is deleted remotely: its entry is removed,
`deletedRemote` increments, and no download happens. -/
theorem reconciler_deletes_remote_when_local_missing
    (env : SyncEnv) (s : SyncState) (d : RDoc) (e : ManifestEntry)
    (hentry : lookupA d.documentId (resolvePairing s d).1.manifest = some e)
    (hmissing : lookupA (resolvePairing s d).2 (resolvePairing s d).1.locals = none) :
    (processRemoteDoc env s d).manifest = eraseA d.documentId s.manifest ∧
    lookupA d.documentId (processRemoteDoc env s d).manifest = none ∧
    (processRemoteDoc env s d).deletedRemote = s.deletedRemote + 1 ∧
    (processRemoteDoc env s d).remoteDeletes = s.remoteDeletes ++ [d.documentId] ∧
    (processRemoteDoc env s d).downloads = s.downloads ∧
    (processRemoteDoc env s d).downloaded = s.downloaded := by
  have hb := processRemoteDoc_deleteBranch env s d e hentry hmissing
  have hf := resolvePairing_frame s d
  have hman : (processRemoteDoc env s d).manifest = eraseA d.documentId s.manifest := by
    rw [hb]
    show eraseA d.documentId (resolvePairing s d).1.manifest = eraseA d.documentId s.manifest
    rcases resolvePairing_manifest s d with hm | hm
    · rw [hm]
    · rw [hm, eraseA_setEntryFile]
  refine ⟨hman, ?_, ?_, ?_, ?_, ?_⟩
  · rw [hman, lookupA_eraseA]
  · rw [hb]
    show (resolvePairing s d).1.deletedRemote + 1 = s.deletedRemote + 1
    rw [hf.2.2.2.2.2.1]
  · rw [hb]
    show (resolvePairing s d).1.remoteDeletes ++ [d.documentId] = s.remoteDeletes ++ [d.documentId]
    rw [hf.2.2.2.2.2.2.2.1]
  · rw [hb]
    show (resolvePairing s d).1.downloads = s.downloads
    rw [hf.2.2.2.2.2.2.1]
  · rw [hb]
    show (resolvePairing s d).1.downloaded = s.downloaded
    rw [hf.1]

/-- Witness: deleting document D1 whose `x.md` was removed locally. -/
theorem reconciler_deletes_remote_witness :
    (processRemoteDoc c3env c3s c3d).manifest = [] ∧
    (processRemoteDoc c3env c3s c3d).deletedRemote = 1 ∧
    (processRemoteDoc c3env c3s c3d).downloads = [] ∧
    (processRemoteDoc c3env c3s c3d).downloaded = 0 := by
  have h := reconciler_deletes_remote_when_local_missing c3env c3s c3d
    ⟨"x.md", some "r1", "x", "docx", "h1"⟩ (by decide) (by decide)
  refine ⟨?_, ?_, ?_, ?_⟩
  · rw [h.1]; decide
  · rw [h.2.2.1]; rfl
  · rw [h.2.2.2.2.1]; rfl
  · rw [h.2.2.2.2.2]; rfl

theorem processRemoteDoc_conflictBranch (env : SyncEnv) (s : SyncState) (d : RDoc)
    (e : ManifestEntry) (h : String)
    (hentry : lookupA d.documentId (resolvePairing s d).1.manifest = some e)
    (hlocal : lookupA (resolvePairing s d).2 (resolvePairing s d).1.locals = some h)
    (hcond : (remoteChangedB e d && localChangedB e h) = true) :
    processRemoteDoc env s d =
      { (resolvePairing s d).1 with
        conflicts := (resolvePairing s d).1.conflicts + 1,
        downloads := (resolvePairing s d).1.downloads ++
          [(d.documentId, buildConflictPath (resolvePairing s d).2, d.contentHash)] } := by
  unfold processRemoteDoc
  rw [hentry, hlocal]
  show (if (remoteChangedB e d && localChangedB e h) = true then _ else _) = _
  rw [if_pos hcond]

/-- C4: when the paired entry shows both a local hash change and a remote
revision change, the reconciler downloads the remote content to the sibling
conflict path of the (possibly renamed) paired file, leaves the local file's
content hash in place, keeps the entry with its pre-pass hash and
revisionId, and increments only the conflicts counter. -/
theorem reconciler_conflict_writes_sibling_only
    (env : SyncEnv) (s : SyncState) (d : RDoc) (e0 e : ManifestEntry) (h : String)
    (hentry0 : lookupA d.documentId s.manifest = some e0)
    (hentry : lookupA d.documentId (resolvePairing s d).1.manifest = some e)
    (hlocal : lookupA (resolvePairing s d).2 (resolvePairing s d).1.locals = some h)
    (hlc : e.hash ≠ "" ∧ h ≠ "" ∧ e.hash ≠ h)
    (hrc : ∃ a b, e.revisionId = some a ∧ d.revisionId = some b ∧
      a ≠ "" ∧ b ≠ "" ∧ a ≠ b) :
    (processRemoteDoc env s d).conflicts = s.conflicts + 1 ∧
    (processRemoteDoc env s d).downloads = s.downloads ++
      [(d.documentId, buildConflictPath (resolvePairing s d).2, d.contentHash)] ∧
    (processRemoteDoc env s d).locals = (resolvePairing s d).1.locals ∧
    lookupA (resolvePairing s d).2 (processRemoteDoc env s d).locals = some h ∧
    lookupA d.documentId (processRemoteDoc env s d).manifest = some e ∧
    e.hash = e0.hash ∧ e.revisionId = e0.revisionId ∧
    (processRemoteDoc env s d).downloaded = s.downloaded ∧
    (processRemoteDoc env s d).uploaded = s.uploaded ∧
    (processRemoteDoc env s d).skipped = s.skipped ∧
    (processRemoteDoc env s d).deletedLocal = s.deletedLocal ∧
    (processRemoteDoc env s d).deletedRemote = s.deletedRemote := by
  have hcond : (remoteChangedB e d && localChangedB e h) = true := by
    obtain ⟨a, b, ha, hb, ha1, hb1, hab⟩ := hrc
    obtain ⟨h1, h2, h3⟩ := hlc
    rw [remoteChangedB, localChangedB, ha, hb]
    simp [bne_iff_ne, h1, h2, h3, ha1, hb1, hab]
  have hb := processRemoteDoc_conflictBranch env s d e h hentry hlocal hcond
  have hf := resolvePairing_frame s d
  have hpres : e.hash = e0.hash ∧ e.revisionId = e0.revisionId := by
    rcases resolvePairing_manifest s d with hm | hm
    · rw [hm, hentry0] at hentry
      cases hentry
      exact ⟨rfl, rfl⟩
    · rw [hm, lookupA_setEntryFile_self, hentry0] at hentry
      cases hentry
      exact ⟨rfl, rfl⟩
  refine ⟨?_, ?_, ?_, ?_, ?_, hpres.1, hpres.2, ?_, ?_, ?_, ?_, ?_⟩
  · rw [hb]
    show (resolvePairing s d).1.conflicts + 1 = s.conflicts + 1
    rw [hf.2.2.1]
  · rw [hb]
    show (resolvePairing s d).1.downloads ++ _ = s.downloads ++ _
    rw [hf.2.2.2.2.2.2.1]
  · rw [hb]
  · rw [hb]
    exact hlocal
  · rw [hb]
    exact hentry
  · rw [hb]
    show (resolvePairing s d).1.downloaded = s.downloaded
    rw [hf.1]
  · rw [hb]
    show (resolvePairing s d).1.uploaded = s.uploaded
    rw [hf.2.1]
  · rw [hb]
    show (resolvePairing s d).1.skipped = s.skipped
    rw [hf.2.2.2.1]
  · rw [hb]
    show (resolvePairing s d).1.deletedLocal = s.deletedLocal
    rw [hf.2.2.2.2.1]
  · rw [hb]
    show (resolvePairing s d).1.deletedRemote = s.deletedRemote
    rw [hf.2.2.2.2.2.1]

/-- Witness: document D1 edited on both sides — conflict artifact
`x.remote.md`, everything else untouched. -/
theorem reconciler_conflict_witness :
    (processRemoteDoc c4env c4s c4d).conflicts = 1 ∧
    (processRemoteDoc c4env c4s c4d).downloads = [("D1", "x.remote.md", "hRemote")] ∧
    lookupA "x.md" (processRemoteDoc c4env c4s c4d).locals = some "h2" ∧
    lookupA "D1" (processRemoteDoc c4env c4s c4d).manifest
      = some ⟨"x.md", some "r1", "x", "docx", "h1"⟩ := by
  have h := reconciler_conflict_writes_sibling_only c4env c4s c4d
    ⟨"x.md", some "r1", "x", "docx", "h1"⟩ ⟨"x.md", some "r1", "x", "docx", "h1"⟩ "h2"
    (by decide) (by decide) (by decide) (by decide)
    ⟨"r1", "r2", rfl, rfl, by decide, by decide, by decide⟩
  refine ⟨?_, ?_, ?_, ?_⟩
  · rw [h.1]; rfl
  · rw [h.2.1]; decide
  · have := h.2.2.2.1
    rw [show (resolvePairing c4s c4d).2 = "x.md" from by decide] at this
    exact this
  · exact h.2.2.2.2.1

/-- C5 (counterexample): the first run counts one conflict and leaves the
manifest entry untouched, so a second run with no external changes detects
the same conflict again — its conflicts counter is 1, not 0, and the
document is not counted as skipped. -/
theorem reconciler_not_idempotent_after_conflict :
    (syncRun c5env c5w).conflicts = 1 ∧
    (syncRun c5env (worldAfter c5env c5w (fun _ => "x") (fun _ => "n") (fun _ => "docx")
      (fun _ => "hR"))).conflicts = 1 ∧
    (syncRun c5env (worldAfter c5env c5w (fun _ => "x") (fun _ => "n") (fun _ => "docx")
      (fun _ => "hR"))).skipped = 0 := by
  refine ⟨by decide, by decide, by decide⟩

/-- C8 (counterexample): a reconciliation pass over a manifest whose entries
already share a `file` completes successfully (both documents skipped) and
leaves two distinct documentIds paired to the same path `X.md`. -/
theorem manifest_files_not_unique_after_sync :
    lookupA "D1" (syncRun c8env c8w).manifest
      = some ⟨"X.md", some "r1", "X", "docx", "hx"⟩ ∧
    lookupA "D2" (syncRun c8env c8w).manifest
      = some ⟨"X.md", some "r1", "X", "docx", "hx"⟩ ∧
    ("D1" : String) ≠ "D2" ∧
    (syncRun c8env c8w).skipped = 2 := by
  refine ⟨by decide, by decide, by decide, by decide⟩

/-! ## Association-list lemma kit -/

theorem lookupA_setA_self {α : Type} (k : String) (v : α) :
    ∀ m : List (String × α), lookupA k (setA k v m) = some v := by
  intro m
  induction m with
  | nil => rw [setA, lookupA]; simp
  | cons p rest ih =>
    rw [setA]
    by_cases h : k = p.1
    · rw [if_pos h, lookupA, if_pos h]
    · rw [if_neg h, lookupA, if_neg h]; exact ih

theorem lookupA_setA_other {α : Type} (k k' : String) (v : α) (hne : k ≠ k') :
    ∀ m : List (String × α), lookupA k (setA k' v m) = lookupA k m := by
  intro m
  induction m with
  | nil => simp [setA, lookupA, hne]
  | cons p rest ih =>
    rw [setA]
    by_cases h : k' = p.1
    · rw [if_pos h, lookupA, lookupA]
      have : k ≠ p.1 := fun hk => hne (hk.trans h.symm)
      rw [if_neg this, if_neg this]
    · rw [if_neg h, lookupA, lookupA]
      by_cases h2 : k = p.1
      · rw [if_pos h2, if_pos h2]
      · rw [if_neg h2, if_neg h2]; exact ih

theorem lookupA_eraseA_other {α : Type} (k k' : String) (hne : k ≠ k') :
    ∀ m : List (String × α), lookupA k (eraseA k' m) = lookupA k m := by
  intro m
  induction m with
  | nil => rfl
  | cons p rest ih =>
    rw [eraseA]
    by_cases h : k' = p.1
    · rw [if_pos h, lookupA]
      have : k ≠ p.1 := fun hk => hne (hk.trans h.symm)
      rw [if_neg this]; exact ih
    · rw [if_neg h, lookupA, lookupA]
      by_cases h2 : k = p.1
      · rw [if_pos h2, if_pos h2]
      · rw [if_neg h2, if_neg h2]; exact ih

theorem lookupA_setEntryFile_other (k k' f : String) (hne : k ≠ k') :
    ∀ m : List (String × ManifestEntry),
      lookupA k (setEntryFile k' f m) = lookupA k m := by
  intro m
  induction m with
  | nil => rfl
  | cons p rest ih =>
    rw [setEntryFile]
    by_cases h : k' = p.1
    · rw [if_pos h, lookupA, lookupA]
      have : k ≠ p.1 := fun hk => hne (hk.trans h.symm)
      rw [if_neg this, if_neg this]
    · rw [if_neg h, lookupA, lookupA]
      by_cases h2 : k = p.1
      · rw [if_pos h2, if_pos h2]
      · rw [if_neg h2, if_neg h2]; exact ih

theorem lookupA_mem {α : Type} (k : String) (v : α) :
    ∀ m : List (String × α), lookupA k m = some v → (k, v) ∈ m := by
  intro m
  induction m with
  | nil => intro h; cases h
  | cons p rest ih =>
    intro h
    rw [lookupA] at h
    by_cases hk : k = p.1
    · rw [if_pos hk] at h
      cases h
      cases p with
      | mk a b =>
        subst hk
        exact List.mem_cons_self _ _
    · rw [if_neg hk] at h
      exact List.mem_cons_of_mem _ (ih h)

theorem lookupA_eq_none {α : Type} (k : String) :
    ∀ m : List (String × α), lookupA k m = none ↔ k ∉ m.map Prod.fst := by
  intro m
  induction m with
  | nil => simp [lookupA]
  | cons p rest ih =>
    rw [lookupA]
    by_cases h : k = p.1
    · rw [if_pos h]; simp [h]
    · rw [if_neg h]; simp [h, ih]

theorem lookupA_isSome_of_mem {α : Type} (k : String) (v : α) :
    ∀ m : List (String × α), (k, v) ∈ m → lookupA k m ≠ none := by
  intro m hm hnone
  rw [lookupA_eq_none] at hnone
  exact hnone (by
    rcases List.mem_map.1 (List.mem_map_of_mem Prod.fst hm) with h
    exact List.mem_map_of_mem Prod.fst hm)

theorem map_fst_setEntryFile (k f : String) :
    ∀ m : List (String × ManifestEntry),
      (setEntryFile k f m).map Prod.fst = m.map Prod.fst := by
  intro m
  induction m with
  | nil => rfl
  | cons p rest ih =>
    rw [setEntryFile]
    by_cases h : k = p.1
    · rw [if_pos h]; simp
    · rw [if_neg h]; simp [ih]

theorem map_fst_setA_mem {α : Type} (k : String) (v : α) :
    ∀ m : List (String × α), k ∈ m.map Prod.fst →
      (setA k v m).map Prod.fst = m.map Prod.fst := by
  intro m
  induction m with
  | nil => simp
  | cons p rest ih =>
    intro hmem
    rw [setA]
    by_cases h : k = p.1
    · rw [if_pos h]; simp [h]
    · rw [if_neg h]
      simp only [List.map_cons] at hmem ⊢
      rcases List.mem_cons.1 hmem with h1 | h1
      · exact absurd h1 h
      · rw [ih h1]

theorem map_fst_setA_new {α : Type} (k : String) (v : α) :
    ∀ m : List (String × α), k ∉ m.map Prod.fst →
      (setA k v m).map Prod.fst = m.map Prod.fst ++ [k] := by
  intro m
  induction m with
  | nil => simp [setA]
  | cons p rest ih =>
    intro hmem
    rw [setA]
    simp only [List.map_cons, List.mem_cons] at hmem
    push_neg at hmem
    rw [if_neg hmem.1]
    simp [ih hmem.2]

theorem mem_eraseA_sub {α : Type} (k : String) :
    ∀ m : List (String × α), ∀ p ∈ eraseA k m, p ∈ m := by
  intro m
  induction m with
  | nil => intro p hp; cases hp
  | cons q rest ih =>
    intro p hp
    rw [eraseA] at hp
    by_cases h : k = q.1
    · rw [if_pos h] at hp
      exact List.mem_cons_of_mem _ (ih p hp)
    · rw [if_neg h] at hp
      rcases List.mem_cons.1 hp with h1 | h1
      · exact h1 ▸ List.mem_cons_self q rest
      · exact List.mem_cons_of_mem _ (ih p h1)

theorem mem_setA {α : Type} (k : String) (v : α) :
    ∀ m : List (String × α), ∀ p ∈ setA k v m, p ∈ m ∨ p = (k, v) ∨ (∃ q ∈ m, p = (q.1, v) ∧ k = q.1) := by
  intro m
  induction m with
  | nil =>
    intro p hp
    rw [setA] at hp
    simp at hp
    exact .inr (.inl hp)
  | cons q rest ih =>
    intro p hp
    rw [setA] at hp
    by_cases h : k = q.1
    · rw [if_pos h] at hp
      rcases List.mem_cons.1 hp with h1 | h1
      · exact .inr (.inr ⟨q, List.mem_cons_self q rest, h1, h⟩)
      · exact .inl (List.mem_cons_of_mem _ h1)
    · rw [if_neg h] at hp
      rcases List.mem_cons.1 hp with h1 | h1
      · exact .inl (h1 ▸ List.mem_cons_self q rest)
      · rcases ih p h1 with h2 | h2 | ⟨r, hr, h3⟩
        · exact .inl (List.mem_cons_of_mem _ h2)
        · exact .inr (.inl h2)
        · exact .inr (.inr ⟨r, List.mem_cons_of_mem _ hr, h3⟩)

theorem candName_ne_empty (base : String) (k : Nat) : candName base k ≠ "" := by
  intro h
  have h2 := congrArg String.data h
  simp [candName, String.data_append] at h2

theorem findFree_isCand (base : String) (used : List String) :
    ∀ fuel k, ∃ j, findFree base used fuel k = candName base j := by
  intro fuel
  induction fuel with
  | zero => intro k; exact ⟨k, rfl⟩
  | succ f ih =>
    intro k
    rw [findFree]
    by_cases h : candName base k ∈ used
    · rw [if_pos h]; exact ih (k + 1)
    · rw [if_neg h]; exact ⟨k, rfl⟩

theorem appendMd_ne_empty (base : String) : base ++ ".md" ≠ "" := by
  intro h
  have h2 := congrArg String.data h
  simp [String.data_append] at h2

theorem ensureUniqueFilePath_ne_empty (fileName : String) (used : List String) :
    ensureUniqueFilePath fileName used ≠ "" := by
  rw [ensureUniqueFilePath]
  split
  · obtain ⟨j, hj⟩ := findFree_isCand (stripMdIns fileName) used (used.length + 1) 1
    rw [hj]
    exact candName_ne_empty _ _
  · exact appendMd_ne_empty _

theorem pairDesiredRel_ne_empty (s : SyncState) (d : RDoc) : pairDesiredRel s d ≠ "" :=
  ensureUniqueFilePath_ne_empty _ _

theorem pairDesiredRel_not_mem (s : SyncState) (d : RDoc) :
    pairDesiredRel s d ∉
      (if pairFileRel0 s d = "" then s.usedPaths
       else removePath (pairFileRel0 s d) s.usedPaths) :=
  ensureUniqueFilePath_not_mem _ _

theorem eraseA_sublist {α : Type} (k : String) :
    ∀ m : List (String × α), (eraseA k m).Sublist m := by
  intro m
  induction m with
  | nil => exact List.Sublist.refl _
  | cons p rest ih =>
    rw [eraseA]
    by_cases h : k = p.1
    · rw [if_pos h]; exact ih.cons p
    · rw [if_neg h]; exact ih.cons₂ p

theorem mem_eraseA {α : Type} (k : String) (p : String × α) :
    ∀ m : List (String × α), p ∈ eraseA k m ↔ p ∈ m ∧ p.1 ≠ k := by
  intro m
  induction m with
  | nil => simp [eraseA]
  | cons q rest ih =>
    rw [eraseA]
    by_cases h : k = q.1
    · rw [if_pos h, ih]
      constructor
      · intro ⟨h1, h2⟩
        exact ⟨List.mem_cons_of_mem _ h1, h2⟩
      · intro ⟨h1, h2⟩
        rcases List.mem_cons.1 h1 with h3 | h3
        · exact absurd (h3 ▸ h.symm) h2
        · exact ⟨h3, h2⟩
    · rw [if_neg h]
      constructor
      · intro h1
        rcases List.mem_cons.1 h1 with h3 | h3
        · subst h3
          exact ⟨List.mem_cons_self _ _, fun hk => h (hk.symm)⟩
        · obtain ⟨h4, h5⟩ := ih.1 h3
          exact ⟨List.mem_cons_of_mem _ h4, h5⟩
      · intro ⟨h1, h2⟩
        rcases List.mem_cons.1 h1 with h3 | h3
        · exact h3 ▸ List.mem_cons_self _ _
        · exact List.mem_cons_of_mem _ (ih.2 ⟨h3, h2⟩)

theorem mem_setEntryFile (k f : String) (p : String × ManifestEntry) :
    ∀ m : List (String × ManifestEntry), p ∈ setEntryFile k f m →
      p ∈ m ∨ ∃ q ∈ m, q.1 = k ∧ p = (q.1, { q.2 with file := f }) := by
  intro m
  induction m with
  | nil => intro h; cases h
  | cons q rest ih =>
    intro hp
    rw [setEntryFile] at hp
    by_cases h : k = q.1
    · rw [if_pos h] at hp
      rcases List.mem_cons.1 hp with h1 | h1
      · exact .inr ⟨q, List.mem_cons_self _ _, h.symm, h1⟩
      · exact .inl (List.mem_cons_of_mem _ h1)
    · rw [if_neg h] at hp
      rcases List.mem_cons.1 hp with h1 | h1
      · exact .inl (h1 ▸ List.mem_cons_self _ _)
      · rcases ih h1 with h2 | ⟨r, hr, h3⟩
        · exact .inl (List.mem_cons_of_mem _ h2)
        · exact .inr ⟨r, List.mem_cons_of_mem _ hr, h3⟩

theorem lookupA_of_mem_nodup {α : Type} (p : String × α) :
    ∀ m : List (String × α), (m.map Prod.fst).Nodup → p ∈ m →
      lookupA p.1 m = some p.2 := by
  intro m
  induction m with
  | nil => intro _ h; cases h
  | cons q rest ih =>
    intro hnd hp
    simp only [List.map_cons, List.nodup_cons] at hnd
    rcases List.mem_cons.1 hp with h1 | h1
    · subst h1
      rw [lookupA, if_pos rfl]
    · rw [lookupA]
      by_cases h : p.1 = q.1
      · exfalso
        exact hnd.1 (h ▸ List.mem_map_of_mem Prod.fst h1)
      · rw [if_neg h]
        exact ih hnd.2 h1

theorem mem_setA_new {α : Type} (k : String) (v : α) (p : String × α) :
    ∀ m : List (String × α), k ∉ m.map Prod.fst →
      (p ∈ setA k v m ↔ p ∈ m ∨ p = (k, v)) := by
  intro m
  induction m with
  | nil => intro _; simp [setA]
  | cons q rest ih =>
    intro hk
    simp only [List.map_cons, List.mem_cons] at hk
    push_neg at hk
    rw [setA, if_neg hk.1]
    constructor
    · intro hp
      rcases List.mem_cons.1 hp with h1 | h1
      · exact .inl (h1 ▸ List.mem_cons_self _ _)
      · rcases (ih hk.2).1 h1 with h2 | h2
        · exact .inl (List.mem_cons_of_mem _ h2)
        · exact .inr h2
    · intro hp
      rcases hp with h1 | h1
      · rcases List.mem_cons.1 h1 with h2 | h2
        · exact h2 ▸ List.mem_cons_self _ _
        · exact List.mem_cons_of_mem _ ((ih hk.2).2 (.inl h2))
      · exact List.mem_cons_of_mem _ ((ih hk.2).2 (.inr h1))

theorem mem_addPath (x p : String) (l : List String) :
    x ∈ addPath p l ↔ x = p ∨ x ∈ l := by
  rw [addPath]
  by_cases h : p ∈ l
  · rw [if_pos h]
    constructor
    · exact .inr
    · intro h1
      rcases h1 with h2 | h2
      · exact h2 ▸ h
      · exact h2
  · rw [if_neg h]
    simp

theorem mem_removePath (x p : String) (l : List String) :
    x ∈ removePath p l ↔ x ∈ l ∧ x ≠ p := by
  simp [removePath]

theorem nodup_append_single {α : Type} (l : List α) (a : α) (hl : l.Nodup) (ha : a ∉ l) :
    (l ++ [a]).Nodup := by
  simp [List.nodup_append, hl, ha]

theorem mem_setEntryFile_nodup (k f : String) (p : String × ManifestEntry) :
    ∀ m : List (String × ManifestEntry), (m.map Prod.fst).Nodup → p ∈ setEntryFile k f m →
      (p ∈ m ∧ p.1 ≠ k) ∨ ∃ q ∈ m, q.1 = k ∧ p = (q.1, { q.2 with file := f }) := by
  intro m
  induction m with
  | nil => intro _ h; cases h
  | cons q rest ih =>
    intro hnd hp
    simp only [List.map_cons, List.nodup_cons] at hnd
    rw [setEntryFile] at hp
    by_cases h : k = q.1
    · rw [if_pos h] at hp
      rcases List.mem_cons.1 hp with h1 | h1
      · exact .inr ⟨q, List.mem_cons_self _ _, h.symm, h1⟩
      · left
        refine ⟨List.mem_cons_of_mem _ h1, fun hpk => ?_⟩
        exact hnd.1 (h ▸ hpk ▸ List.mem_map_of_mem Prod.fst h1)
    · rw [if_neg h] at hp
      rcases List.mem_cons.1 hp with h1 | h1
      · exact .inl ⟨h1 ▸ List.mem_cons_self _ _, h1 ▸ fun hq => h hq.symm⟩
      · rcases ih hnd.2 h1 with ⟨h2, h3⟩ | ⟨r, hr, h3⟩
        · exact .inl ⟨List.mem_cons_of_mem _ h2, h3⟩
        · exact .inr ⟨r, List.mem_cons_of_mem _ hr, h3⟩

theorem resolvePairing_good (s : SyncState) (d : RDoc) (e0 : ManifestEntry) (h : String)
    (inv : StateInv s)
    (hentry0 : lookupA d.documentId s.manifest = some e0)
    (hfile0 : e0.file ≠ "")
    (hlocal0 : lookupA e0.file s.locals = some h) :
    PairingGood s (resolvePairing s d).1 (resolvePairing s d).2 d e0 h := by
  have hfr0 : pairFileRel0 s d = e0.file := by rw [pairFileRel0, hentry0]
  have h1 : ¬ pairFileRel0 s d = "" := by rw [hfr0]; exact hfile0
  by_cases hD : pairDesiredRel s d = pairFileRel0 s d
  case pos =>
    have hres : resolvePairing s d = (s, e0.file) := by
      rw [resolvePairing, if_neg h1, if_pos hD, hfr0]
    rw [hres]
    show PairingGood s s e0.file d e0 h
    refine ⟨hentry0, hfile0, hlocal0, fun k _ => rfl, fun q _ _ => rfl, ?_, inv, rfl, ?_,
      fun x hx _ => hx, fun x _ hne => hne, ?_⟩
    · exact fun k e1 hk hl => inv.filesUnique k d.documentId e1 e0 hl hentry0 hk
    · exact inv.filesUsed (d.documentId, e0) (lookupA_mem _ _ _ hentry0)
    · intro q hq
      by_cases hqf : q.1 = e0.file
      · left
        refine ⟨hqf, ?_⟩
        have hl := lookupA_of_mem_nodup q s.locals inv.localsNodup hq
        rw [hqf, hlocal0] at hl
        exact (Option.some.inj hl).symm
      · exact .inr ⟨hq, hqf, hqf⟩
  case neg =>
    have hlocal0' : lookupA (pairFileRel0 s d) s.locals = some h := by rw [hfr0]; exact hlocal0
    have hres : resolvePairing s d = (renameStateL s d h, pairDesiredRel s d) := by
      rw [resolvePairing, if_neg h1, if_neg hD, hlocal0']
    rw [hres]
    show PairingGood s (renameStateL s d h) (pairDesiredRel s d) d e0 h
    have hDnotmem : pairDesiredRel s d ∉ removePath (pairFileRel0 s d) s.usedPaths := by
      have hpd := pairDesiredRel_not_mem s d
      rw [if_neg h1] at hpd
      exact hpd
    have hfrne : pairDesiredRel s d ≠ "" := pairDesiredRel_ne_empty s d
    have hDneF : pairDesiredRel s d ≠ e0.file := fun he => hD (by rw [hfr0]; exact he)
    have hfrNotOld : ∀ x ∈ s.usedPaths, x ≠ e0.file → x ≠ pairDesiredRel s d := by
      intro x hx hne heq
      apply hDnotmem
      rw [← heq]
      exact (mem_removePath x _ _).2 ⟨hx, by rw [hfr0]; exact hne⟩
    have hDnotUsed : pairDesiredRel s d ∉ s.usedPaths :=
      fun hmem => hfrNotOld _ hmem hDneF rfl
    have hDnotLKeys : pairDesiredRel s d ∉ s.locals.map Prod.fst := by
      intro hmem
      rcases List.mem_map.1 hmem with ⟨q, hq, hq1⟩
      exact hDnotUsed (hq1 ▸ inv.localsUsed q hq)
    have hDnotEr : pairDesiredRel s d ∉ (eraseA (pairFileRel0 s d) s.locals).map Prod.fst := by
      intro hmem
      rcases List.mem_map.1 hmem with ⟨q, hq, hq1⟩
      exact hDnotLKeys (hq1 ▸ List.mem_map_of_mem Prod.fst (mem_eraseA_sub _ s.locals q hq))
    have hman : (renameStateL s d h).manifest
        = setEntryFile d.documentId (pairDesiredRel s d) s.manifest := rfl
    have hloc : (renameStateL s d h).locals
        = setA (pairDesiredRel s d) h (eraseA (pairFileRel0 s d) s.locals) := rfl
    have hused : (renameStateL s d h).usedPaths
        = addPath (pairDesiredRel s d) (removePath (pairFileRel0 s d) s.usedPaths) := rfl
    have hOtherFile : ∀ k e1, k ≠ d.documentId → lookupA k s.manifest = some e1 →
        e1.file ≠ pairDesiredRel s d := by
      intro k e1 hk hl
      exact hfrNotOld e1.file (inv.filesUsed (k, e1) (lookupA_mem _ _ _ hl))
        (inv.filesUnique k d.documentId e1 e0 hl hentry0 hk)
    refine ⟨?_, hfrne, ?_, ?_, ?_, hOtherFile, ?_, ?_, ?_, ?_, hfrNotOld, ?_⟩
    · rw [hman, lookupA_setEntryFile_self, hentry0]
      rfl
    · rw [hloc]
      exact lookupA_setA_self _ _ _
    · intro k hk
      rw [hman]
      exact lookupA_setEntryFile_other k _ _ hk _
    · intro q hqe hqD
      rw [hloc, lookupA_setA_other q _ h hqD, lookupA_eraseA_other q _ (by rw [hfr0]; exact hqe)]
    · -- StateInv (renameStateL s d h)
      refine ⟨?_, ?_, ?_, ?_, ?_, ?_, ?_⟩
      · rw [hman, map_fst_setEntryFile]
        exact inv.keysNodup
      · rw [hloc, map_fst_setA_new _ _ _ hDnotEr]
        refine nodup_append_single _ _ ?_ hDnotEr
        exact inv.localsNodup.sublist ((eraseA_sublist _ s.locals).map Prod.fst)
      · intro k1 k2 e1 e2 hl1 hl2 hne
        rw [hman] at hl1 hl2
        by_cases hk1 : k1 = d.documentId
        · subst hk1
          rw [lookupA_setEntryFile_self, hentry0] at hl1
          have he1 : e1 = { e0 with file := pairDesiredRel s d } := (Option.some.inj hl1).symm
          have hk2 : k2 ≠ d.documentId := fun hh => hne hh.symm
          rw [lookupA_setEntryFile_other k2 _ _ hk2] at hl2
          have := hOtherFile k2 e2 hk2 hl2
          rw [he1]
          exact fun hh => this hh.symm
        · rw [lookupA_setEntryFile_other k1 _ _ hk1] at hl1
          by_cases hk2 : k2 = d.documentId
          · subst hk2
            rw [lookupA_setEntryFile_self, hentry0] at hl2
            have he2 : e2 = { e0 with file := pairDesiredRel s d } := (Option.some.inj hl2).symm
            rw [he2]
            exact hOtherFile k1 e1 hk1 hl1
          · rw [lookupA_setEntryFile_other k2 _ _ hk2] at hl2
            exact inv.filesUnique k1 k2 e1 e2 hl1 hl2 hne
      · intro p hp
        rw [hman] at hp
        rcases mem_setEntryFile_nodup _ _ p s.manifest inv.keysNodup hp with ⟨hpm, _⟩ | ⟨q, _, _, hpq⟩
        · exact inv.filesNe p hpm
        · rw [hpq]
          exact hfrne
      · intro p hp
        rw [hman] at hp
        rw [hused]
        rcases mem_setEntryFile_nodup _ _ p s.manifest inv.keysNodup hp with ⟨hpm, hpk⟩ | ⟨q, _, _, hpq⟩
        · have hl := lookupA_of_mem_nodup p s.manifest inv.keysNodup hpm
          have hneF : p.2.file ≠ e0.file := inv.filesUnique p.1 d.documentId p.2 e0 hl hentry0 hpk
          exact (mem_addPath _ _ _).2 (.inr ((mem_removePath _ _ _).2
            ⟨inv.filesUsed p hpm, by rw [hfr0]; exact hneF⟩))
        · rw [hpq]
          exact (mem_addPath _ _ _).2 (.inl rfl)
      · intro q hq
        rw [hloc] at hq
        rw [hused]
        rcases (mem_setA_new _ h q _ hDnotEr).1 hq with hq1 | hq1
        · obtain ⟨hqm, hqF⟩ := (mem_eraseA _ q s.locals).1 hq1
          exact (mem_addPath _ _ _).2 (.inr ((mem_removePath _ _ _).2
            ⟨inv.localsUsed q hqm, hqF⟩))
        · rw [hq1]
          exact (mem_addPath _ _ _).2 (.inl rfl)
      · intro q hq
        rw [hloc] at hq
        rcases (mem_setA_new _ h q _ hDnotEr).1 hq with hq1 | hq1
        · exact inv.localsNe q (mem_eraseA_sub _ s.locals q hq1)
        · rw [hq1]
          exact hfrne
    · rw [hman, map_fst_setEntryFile]
    · rw [hused]
      exact (mem_addPath _ _ _).2 (.inl rfl)
    · intro x hx hne
      rw [hused]
      exact (mem_addPath _ _ _).2 (.inr ((mem_removePath _ _ _).2 ⟨hx, by rw [hfr0]; exact hne⟩))
    · intro q hq
      rw [hloc] at hq
      rcases (mem_setA_new _ h q _ hDnotEr).1 hq with hq1 | hq1
      · obtain ⟨hqm, hqF⟩ := (mem_eraseA _ q s.locals).1 hq1
        refine .inr ⟨hqm, by rw [← hfr0]; exact hqF, fun hqd => ?_⟩
        exact hDnotUsed (hqd ▸ inv.localsUsed q hqm)
      · exact .inl ⟨by rw [hq1], by rw [hq1]⟩

theorem resolvePairing_noentry (s : SyncState) (d : RDoc)
    (hentry0 : lookupA d.documentId s.manifest = none) :
    resolvePairing s d = (s, pairDesiredRel s d) ∧ pairDesiredRel s d ∉ s.usedPaths := by
  have hfr0 : pairFileRel0 s d = "" := by rw [pairFileRel0, hentry0]
  refine ⟨by rw [resolvePairing, if_pos hfr0], ?_⟩
  have hpd := pairDesiredRel_not_mem s d
  rw [if_pos hfr0] at hpd
  exact hpd

theorem resolvePairing_nolocal (s : SyncState) (d : RDoc) (e0 : ManifestEntry)
    (inv : StateInv s)
    (hentry0 : lookupA d.documentId s.manifest = some e0)
    (hlocal0 : lookupA e0.file s.locals = none) :
    lookupA d.documentId (resolvePairing s d).1.manifest
      = some { e0 with file := (resolvePairing s d).2 } ∧
    lookupA (resolvePairing s d).2 (resolvePairing s d).1.locals = none ∧
    (∀ k, k ≠ d.documentId →
      lookupA k (resolvePairing s d).1.manifest = lookupA k s.manifest) ∧
    (resolvePairing s d).1.locals = s.locals ∧
    StateInv (resolvePairing s d).1 ∧
    (resolvePairing s d).1.manifest.map Prod.fst = s.manifest.map Prod.fst ∧
    (∀ x ∈ s.usedPaths, x ≠ e0.file → x ∈ (resolvePairing s d).1.usedPaths) := by
  have hfile0 : e0.file ≠ "" := inv.filesNe (d.documentId, e0) (lookupA_mem _ _ _ hentry0)
  have hfr0 : pairFileRel0 s d = e0.file := by rw [pairFileRel0, hentry0]
  have h1 : ¬ pairFileRel0 s d = "" := by rw [hfr0]; exact hfile0
  by_cases hD : pairDesiredRel s d = pairFileRel0 s d
  case pos =>
    have hres : resolvePairing s d = (s, e0.file) := by
      rw [resolvePairing, if_neg h1, if_pos hD, hfr0]
    rw [hres]
    exact ⟨hentry0, hlocal0, fun k _ => rfl, rfl, inv, rfl, fun x hx _ => hx⟩
  case neg =>
    have hlocal0' : lookupA (pairFileRel0 s d) s.locals = none := by rw [hfr0]; exact hlocal0
    have hres : resolvePairing s d = (renameStateN s d, pairDesiredRel s d) := by
      rw [resolvePairing, if_neg h1, if_neg hD, hlocal0']
    rw [hres]
    have hDnotmem : pairDesiredRel s d ∉ removePath (pairFileRel0 s d) s.usedPaths := by
      have hpd := pairDesiredRel_not_mem s d
      rw [if_neg h1] at hpd
      exact hpd
    have hfrne : pairDesiredRel s d ≠ "" := pairDesiredRel_ne_empty s d
    have hDneF : pairDesiredRel s d ≠ e0.file := fun he => hD (by rw [hfr0]; exact he)
    have hDnotUsed : pairDesiredRel s d ∉ s.usedPaths := by
      intro hmem
      exact hDnotmem ((mem_removePath _ _ _).2 ⟨hmem, by rw [hfr0]; exact hDneF⟩)
    have hFnotL : e0.file ∉ s.locals.map Prod.fst := by
      rw [← lookupA_eq_none]
      exact hlocal0
    have hman : (renameStateN s d).manifest
        = setEntryFile d.documentId (pairDesiredRel s d) s.manifest := rfl
    have hused : (renameStateN s d).usedPaths
        = addPath (pairDesiredRel s d) (removePath (pairFileRel0 s d) s.usedPaths) := rfl
    have hOtherFile : ∀ k e1, k ≠ d.documentId → lookupA k s.manifest = some e1 →
        e1.file ≠ pairDesiredRel s d := by
      intro k e1 hk hl heq
      apply hDnotmem
      rw [← heq]
      exact (mem_removePath _ _ _).2 ⟨inv.filesUsed (k, e1) (lookupA_mem _ _ _ hl),
        by rw [hfr0]; exact inv.filesUnique k d.documentId e1 e0 hl hentry0 hk⟩
    refine ⟨?_, ?_, ?_, rfl, ?_, ?_, ?_⟩
    · rw [hman, lookupA_setEntryFile_self, hentry0]
      rfl
    · show lookupA (pairDesiredRel s d) s.locals = none
      rw [lookupA_eq_none]
      intro hmem
      rcases List.mem_map.1 hmem with ⟨q, hq, hq1⟩
      exact hDnotUsed (hq1 ▸ inv.localsUsed q hq)
    · intro k hk
      rw [hman]
      exact lookupA_setEntryFile_other k _ _ hk _
    · refine ⟨?_, inv.localsNodup, ?_, ?_, ?_, ?_, inv.localsNe⟩
      · rw [hman, map_fst_setEntryFile]
        exact inv.keysNodup
      · intro k1 k2 e1 e2 hl1 hl2 hne
        rw [hman] at hl1 hl2
        by_cases hk1 : k1 = d.documentId
        · subst hk1
          rw [lookupA_setEntryFile_self, hentry0] at hl1
          have he1 : e1 = { e0 with file := pairDesiredRel s d } := (Option.some.inj hl1).symm
          have hk2 : k2 ≠ d.documentId := fun hh => hne hh.symm
          rw [lookupA_setEntryFile_other k2 _ _ hk2] at hl2
          have := hOtherFile k2 e2 hk2 hl2
          rw [he1]
          exact fun hh => this hh.symm
        · rw [lookupA_setEntryFile_other k1 _ _ hk1] at hl1
          by_cases hk2 : k2 = d.documentId
          · subst hk2
            rw [lookupA_setEntryFile_self, hentry0] at hl2
            have he2 : e2 = { e0 with file := pairDesiredRel s d } := (Option.some.inj hl2).symm
            rw [he2]
            exact hOtherFile k1 e1 hk1 hl1
          · rw [lookupA_setEntryFile_other k2 _ _ hk2] at hl2
            exact inv.filesUnique k1 k2 e1 e2 hl1 hl2 hne
      · intro p hp
        rw [hman] at hp
        rcases mem_setEntryFile_nodup _ _ p s.manifest inv.keysNodup hp with ⟨hpm, _⟩ | ⟨q, _, _, hpq⟩
        · exact inv.filesNe p hpm
        · rw [hpq]
          exact hfrne
      · intro p hp
        rw [hman] at hp
        rw [hused]
        rcases mem_setEntryFile_nodup _ _ p s.manifest inv.keysNodup hp with ⟨hpm, hpk⟩ | ⟨q, _, _, hpq⟩
        · have hl := lookupA_of_mem_nodup p s.manifest inv.keysNodup hpm
          have hneF : p.2.file ≠ e0.file := inv.filesUnique p.1 d.documentId p.2 e0 hl hentry0 hpk
          exact (mem_addPath _ _ _).2 (.inr ((mem_removePath _ _ _).2
            ⟨inv.filesUsed p hpm, by rw [hfr0]; exact hneF⟩))
        · rw [hpq]
          exact (mem_addPath _ _ _).2 (.inl rfl)
      · intro q hq
        rw [hused]
        have hqF : q.1 ≠ e0.file := fun hh => hFnotL (hh ▸ List.mem_map_of_mem Prod.fst hq)
        exact (mem_addPath _ _ _).2 (.inr ((mem_removePath _ _ _).2
          ⟨inv.localsUsed q hq, by rw [hfr0]; exact hqF⟩))
    · rw [hman, map_fst_setEntryFile]
    · intro x hx hne
      rw [hused]
      exact (mem_addPath _ _ _).2 (.inr ((mem_removePath _ _ _).2 ⟨hx, by rw [hfr0]; exact hne⟩))

theorem processRemoteDoc_newBranch (env : SyncEnv) (s : SyncState) (d : RDoc)
    (hentry : lookupA d.documentId (resolvePairing s d).1.manifest = none) :
    processRemoteDoc env s d =
      { (resolvePairing s d).1 with
        manifest := setA d.documentId
          ⟨(resolvePairing s d).2, d.revisionId, d.title, resolveFileType d none,
           d.contentHash⟩ (resolvePairing s d).1.manifest,
        usedPaths := addPath (resolvePairing s d).2 (resolvePairing s d).1.usedPaths,
        locals := setA (resolvePairing s d).2 d.contentHash (resolvePairing s d).1.locals,
        downloaded := (resolvePairing s d).1.downloaded + 1,
        downloads := (resolvePairing s d).1.downloads ++
          [(d.documentId, (resolvePairing s d).2, d.contentHash)] } := by
  unfold processRemoteDoc
  rw [hentry]

theorem processRemoteDoc_downloadBranch (env : SyncEnv) (s : SyncState) (d : RDoc)
    (e : ManifestEntry) (h : String)
    (hentry : lookupA d.documentId (resolvePairing s d).1.manifest = some e)
    (hlocal : lookupA (resolvePairing s d).2 (resolvePairing s d).1.locals = some h)
    (hrc : remoteChangedB e d = true) (hlc : localChangedB e h = false) :
    processRemoteDoc env s d =
      { (resolvePairing s d).1 with
        manifest := setA d.documentId
          ⟨(resolvePairing s d).2, d.revisionId, d.title, resolveFileType d (some e),
           d.contentHash⟩ (resolvePairing s d).1.manifest,
        locals := setA (resolvePairing s d).2 d.contentHash (resolvePairing s d).1.locals,
        downloaded := (resolvePairing s d).1.downloaded + 1,
        downloads := (resolvePairing s d).1.downloads ++
          [(d.documentId, (resolvePairing s d).2, d.contentHash)] } := by
  unfold processRemoteDoc
  rw [hentry, hlocal]
  show (if (remoteChangedB e d && localChangedB e h) = true then _
    else if remoteChangedB e d = true then _ else _) = _
  rw [hrc, hlc]
  rfl

theorem processRemoteDoc_uploadBranch (env : SyncEnv) (s : SyncState) (d : RDoc)
    (e : ManifestEntry) (h : String)
    (hentry : lookupA d.documentId (resolvePairing s d).1.manifest = some e)
    (hlocal : lookupA (resolvePairing s d).2 (resolvePairing s d).1.locals = some h)
    (hrc : remoteChangedB e d = false) (hlc : localChangedB e h = true) :
    processRemoteDoc env s d =
      { (resolvePairing s d).1 with
        manifest := setA d.documentId
          ⟨(resolvePairing s d).2,
           (match env.uploadMeta d.documentId with
            | some r => some r
            | none => d.revisionId),
           d.title, resolveFileType d (some e), h⟩ (resolvePairing s d).1.manifest,
        uploaded := (resolvePairing s d).1.uploaded + 1,
        uploadsDone := (resolvePairing s d).1.uploadsDone ++ [d.documentId] } := by
  unfold processRemoteDoc
  rw [hentry, hlocal]
  show (if (remoteChangedB e d && localChangedB e h) = true then _
    else if remoteChangedB e d = true then _
    else if localChangedB e h = true then _ else _) = _
  rw [hrc, hlc]
  rfl

theorem processRemoteDoc_skipBranch (env : SyncEnv) (s : SyncState) (d : RDoc)
    (e : ManifestEntry) (h : String)
    (hentry : lookupA d.documentId (resolvePairing s d).1.manifest = some e)
    (hlocal : lookupA (resolvePairing s d).2 (resolvePairing s d).1.locals = some h)
    (hrc : remoteChangedB e d = false) (hlc : localChangedB e h = false) :
    processRemoteDoc env s d =
      { (resolvePairing s d).1 with
        manifest := setA d.documentId
          ⟨(resolvePairing s d).2, d.revisionId, d.title, resolveFileType d (some e),
           jsOr h e.hash⟩ (resolvePairing s d).1.manifest,
        skipped := (resolvePairing s d).1.skipped + 1 } := by
  unfold processRemoteDoc
  rw [hentry, hlocal]
  show (if (remoteChangedB e d && localChangedB e h) = true then _
    else if remoteChangedB e d = true then _
    else if localChangedB e h = true then _ else _) = _
  rw [hrc, hlc]
  rfl

theorem StateInv_transfer (s' s2 : SyncState) (inv : StateInv s')
    (hm : s2.manifest = s'.manifest) (hl : s2.locals = s'.locals)
    (hu : s2.usedPaths = s'.usedPaths) : StateInv s2 := by
  constructor
  · rw [hm]; exact inv.keysNodup
  · rw [hl]; exact inv.localsNodup
  · intro k1 k2 e1 e2 h1 h2 hne
    rw [hm] at h1 h2
    exact inv.filesUnique k1 k2 e1 e2 h1 h2 hne
  · intro p hp; rw [hm] at hp; exact inv.filesNe p hp
  · intro p hp; rw [hm] at hp; rw [hu]; exact inv.filesUsed p hp
  · intro q hq; rw [hl] at hq; rw [hu]; exact inv.localsUsed q hq
  · intro q hq; rw [hl] at hq; exact inv.localsNe q hq

theorem StateInv_setA_entry (s s' : SyncState) (fr : String) (d : RDoc)
    (e0 : ManifestEntry) (h : String) (pg : PairingGood s s' fr d e0 h)
    (v : ManifestEntry) (hvf : v.file = fr)
    (s2 : SyncState) (hm : s2.manifest = setA d.documentId v s'.manifest)
    (hl : s2.locals = s'.locals) (hu : s2.usedPaths = s'.usedPaths) :
    StateInv s2 := by
  have hkeys : d.documentId ∈ s'.manifest.map Prod.fst :=
    List.mem_map_of_mem Prod.fst (lookupA_mem _ _ _ pg.entry)
  constructor
  · rw [hm, map_fst_setA_mem _ _ _ hkeys]
    exact pg.inv.keysNodup
  · rw [hl]
    exact pg.inv.localsNodup
  · intro k1 k2 e1 e2 h1 h2 hne
    rw [hm] at h1 h2
    by_cases hk1 : k1 = d.documentId
    · subst hk1
      rw [lookupA_setA_self] at h1
      have he1 : e1 = v := (Option.some.inj h1).symm
      have hk2 : k2 ≠ d.documentId := fun hh => hne hh.symm
      rw [lookupA_setA_other k2 _ _ hk2, pg.manOther k2 hk2] at h2
      have := pg.frFresh k2 e2 hk2 h2
      rw [he1, hvf]
      exact fun hh => this hh.symm
    · rw [lookupA_setA_other k1 _ _ hk1] at h1
      by_cases hk2 : k2 = d.documentId
      · subst hk2
        rw [lookupA_setA_self] at h2
        have he2 : e2 = v := (Option.some.inj h2).symm
        rw [pg.manOther k1 hk1] at h1
        rw [he2, hvf]
        exact pg.frFresh k1 e1 hk1 h1
      · rw [lookupA_setA_other k2 _ _ hk2] at h2
        exact pg.inv.filesUnique k1 k2 e1 e2 h1 h2 hne
  · intro p hp
    rw [hm] at hp
    rcases mem_setA d.documentId v s'.manifest p hp with h1 | h1 | ⟨q, hq, h2, h3⟩
    · exact pg.inv.filesNe p h1
    · rw [h1]
      show v.file ≠ ""
      rw [hvf]; exact pg.frNe
    · rw [h2]
      show v.file ≠ ""
      rw [hvf]; exact pg.frNe
  · intro p hp
    rw [hm] at hp
    rw [hu]
    rcases mem_setA d.documentId v s'.manifest p hp with h1 | h1 | ⟨q, hq, h2, h3⟩
    · exact pg.inv.filesUsed p h1
    · rw [h1]
      show v.file ∈ s'.usedPaths
      rw [hvf]; exact pg.frUsed
    · rw [h2]
      show v.file ∈ s'.usedPaths
      rw [hvf]; exact pg.frUsed
  · intro q hq; rw [hl] at hq; rw [hu]; exact pg.inv.localsUsed q hq
  · intro q hq; rw [hl] at hq; exact pg.inv.localsNe q hq

theorem StateInv_setA_entry_dl (s s' : SyncState) (fr : String) (d : RDoc)
    (e0 : ManifestEntry) (h : String) (pg : PairingGood s s' fr d e0 h)
    (v : ManifestEntry) (hvf : v.file = fr) (val : String)
    (s2 : SyncState) (hm : s2.manifest = setA d.documentId v s'.manifest)
    (hl : s2.locals = setA fr val s'.locals) (hu : s2.usedPaths = s'.usedPaths) :
    StateInv s2 := by
  have base := StateInv_setA_entry s s' fr d e0 h pg v hvf
    { s' with manifest := setA d.documentId v s'.manifest } rfl rfl rfl
  have hfrk : fr ∈ s'.locals.map Prod.fst :=
    List.mem_map_of_mem Prod.fst (lookupA_mem _ _ _ pg.loc)
  constructor
  · rw [hm]; exact base.keysNodup
  · rw [hl, map_fst_setA_mem _ _ _ hfrk]
    exact pg.inv.localsNodup
  · intro k1 k2 e1 e2 h1 h2 hne
    rw [hm] at h1 h2
    exact base.filesUnique k1 k2 e1 e2 h1 h2 hne
  · intro p hp; rw [hm] at hp; exact base.filesNe p hp
  · intro p hp; rw [hm] at hp; rw [hu]; exact base.filesUsed p hp
  · intro q hq
    rw [hl] at hq
    rw [hu]
    rcases mem_setA fr val s'.locals q hq with h1 | h1 | ⟨r, hr, h2, h3⟩
    · exact pg.inv.localsUsed q h1
    · rw [h1]
      show fr ∈ s'.usedPaths
      exact pg.frUsed
    · rw [h2]
      show r.1 ∈ s'.usedPaths
      exact pg.inv.localsUsed r hr
  · intro q hq
    rw [hl] at hq
    rcases mem_setA fr val s'.locals q hq with h1 | h1 | ⟨r, hr, h2, h3⟩
    · exact pg.inv.localsNe q h1
    · rw [h1]
      show fr ≠ ""
      exact pg.frNe
    · rw [h2]
      show r.1 ≠ ""
      exact pg.inv.localsNe r hr

theorem StateInv_newdoc (s : SyncState) (inv : StateInv s) (d : RDoc) (fr : String)
    (hfr : fr ∉ s.usedPaths) (hfrne : fr ≠ "")
    (hkey : lookupA d.documentId s.manifest = none)
    (v : ManifestEntry) (hvf : v.file = fr) (val : String)
    (s2 : SyncState) (hm : s2.manifest = setA d.documentId v s.manifest)
    (hl : s2.locals = setA fr val s.locals) (hu : s2.usedPaths = addPath fr s.usedPaths) :
    StateInv s2 := by
  have hknot : d.documentId ∉ s.manifest.map Prod.fst := (lookupA_eq_none _ _).1 hkey
  have hfrnotl : fr ∉ s.locals.map Prod.fst := by
    intro hmem
    rcases List.mem_map.1 hmem with ⟨q, hq, hq1⟩
    exact hfr (hq1 ▸ inv.localsUsed q hq)
  constructor
  · rw [hm, map_fst_setA_new _ _ _ hknot]
    exact nodup_append_single _ _ inv.keysNodup hknot
  · rw [hl, map_fst_setA_new _ _ _ hfrnotl]
    exact nodup_append_single _ _ inv.localsNodup hfrnotl
  · intro k1 k2 e1 e2 h1 h2 hne
    rw [hm] at h1 h2
    by_cases hk1 : k1 = d.documentId
    · subst hk1
      rw [lookupA_setA_self] at h1
      have he1 : e1 = v := (Option.some.inj h1).symm
      have hk2 : k2 ≠ d.documentId := fun hh => hne hh.symm
      rw [lookupA_setA_other k2 _ _ hk2] at h2
      have : e2.file ∈ s.usedPaths := inv.filesUsed (k2, e2) (lookupA_mem _ _ _ h2)
      rw [he1, hvf]
      exact fun hh => hfr (hh ▸ this)
    · rw [lookupA_setA_other k1 _ _ hk1] at h1
      by_cases hk2 : k2 = d.documentId
      · subst hk2
        rw [lookupA_setA_self] at h2
        have he2 : e2 = v := (Option.some.inj h2).symm
        have : e1.file ∈ s.usedPaths := inv.filesUsed (k1, e1) (lookupA_mem _ _ _ h1)
        rw [he2, hvf]
        exact fun hh => hfr (hh ▸ this)
      · rw [lookupA_setA_other k2 _ _ hk2] at h2
        exact inv.filesUnique k1 k2 e1 e2 h1 h2 hne
  · intro p hp
    rw [hm] at hp
    rcases mem_setA d.documentId v s.manifest p hp with h1 | h1 | ⟨q, hq, h2, h3⟩
    · exact inv.filesNe p h1
    · rw [h1]; show v.file ≠ ""; rw [hvf]; exact hfrne
    · rw [h2]; show v.file ≠ ""; rw [hvf]; exact hfrne
  · intro p hp
    rw [hm] at hp
    rw [hu]
    rcases mem_setA d.documentId v s.manifest p hp with h1 | h1 | ⟨q, hq, h2, h3⟩
    · exact (mem_addPath _ _ _).2 (.inr (inv.filesUsed p h1))
    · rw [h1]
      show v.file ∈ addPath fr s.usedPaths
      rw [hvf]
      exact (mem_addPath _ _ _).2 (.inl rfl)
    · rw [h2]
      show v.file ∈ addPath fr s.usedPaths
      rw [hvf]
      exact (mem_addPath _ _ _).2 (.inl rfl)
  · intro q hq
    rw [hl] at hq
    rw [hu]
    rcases mem_setA fr val s.locals q hq with h1 | h1 | ⟨r, hr, h2, h3⟩
    · exact (mem_addPath _ _ _).2 (.inr (inv.localsUsed q h1))
    · rw [h1]
      show fr ∈ addPath fr s.usedPaths
      exact (mem_addPath _ _ _).2 (.inl rfl)
    · rw [h2]
      show r.1 ∈ addPath fr s.usedPaths
      exact (mem_addPath _ _ _).2 (.inr (inv.localsUsed r hr))
  · intro q hq
    rw [hl] at hq
    rcases mem_setA fr val s.locals q hq with h1 | h1 | ⟨r, hr, h2, h3⟩
    · exact inv.localsNe q h1
    · rw [h1]; show fr ≠ ""; exact hfrne
    · rw [h2]; show r.1 ≠ ""; exact inv.localsNe r hr

theorem StateInv_erase (s' : SyncState) (inv : StateInv s') (k : String)
    (s2 : SyncState) (hm : s2.manifest = eraseA k s'.manifest)
    (hl : s2.locals = s'.locals) (hu : s2.usedPaths = s'.usedPaths) : StateInv s2 := by
  constructor
  · rw [hm]
    exact inv.keysNodup.sublist ((eraseA_sublist k s'.manifest).map Prod.fst)
  · rw [hl]; exact inv.localsNodup
  · intro k1 k2 e1 e2 h1 h2 hne
    rw [hm] at h1 h2
    by_cases hk1 : k1 = k
    · subst hk1
      rw [lookupA_eraseA] at h1
      cases h1
    · rw [lookupA_eraseA_other k1 k hk1] at h1
      by_cases hk2 : k2 = k
      · subst hk2
        rw [lookupA_eraseA] at h2
        cases h2
      · rw [lookupA_eraseA_other k2 k hk2] at h2
        exact inv.filesUnique k1 k2 e1 e2 h1 h2 hne
  · intro p hp
    rw [hm] at hp
    exact inv.filesNe p (mem_eraseA_sub k s'.manifest p hp)
  · intro p hp
    rw [hm] at hp
    rw [hu]
    exact inv.filesUsed p (mem_eraseA_sub k s'.manifest p hp)
  · intro q hq; rw [hl] at hq; rw [hu]; exact inv.localsUsed q hq
  · intro q hq; rw [hl] at hq; exact inv.localsNe q hq

theorem remoteChangedB_eq_rev (e : ManifestEntry) (d : RDoc) :
    remoteChangedB e d = remoteChangedRev e d.revisionId := rfl

theorem localChangedB_self (e : ManifestEntry) (h : String) (hh : e.hash = h) :
    localChangedB e h = false := by
  rw [localChangedB, hh]
  simp

theorem localChangedB_jsOr (e : ManifestEntry) (h h0 : String) (hh : e.hash = jsOr h h0) :
    localChangedB e h = false := by
  by_cases he : h = ""
  · rw [localChangedB, he]
    simp
  · rw [jsOr, if_neg he] at hh
    exact localChangedB_self e h hh

theorem remoteChangedRev_self (e : ManifestEntry) (r : Option String)
    (he : e.revisionId = r) : remoteChangedRev e r = false := by
  subst he
  obtain ⟨f, rv, t, ft, hs⟩ := e
  cases rv with
  | none => rfl
  | some a =>
    show (a != "" && a != "" && a != a) = false
    simp

theorem remoteChangedRev_none (e : ManifestEntry) : remoteChangedRev e none = false := by
  obtain ⟨f, r, t, ft, hs⟩ := e
  cases r <;> rfl

theorem bool_of_not_true {b : Bool} (h : ¬ b = true) : b = false := by
  cases b
  · rfl
  · exact absurd rfl h

theorem processRemoteDoc_master (env : SyncEnv) (s : SyncState) (d : RDoc)
    (inv : StateInv s) (hup : d.documentId ∉ s.uploadsDone) :
    StateInv (processRemoteDoc env s d) ∧
    (∀ k, k ≠ d.documentId →
      lookupA k (processRemoteDoc env s d).manifest = lookupA k s.manifest) ∧
    (∀ f, f ∈ s.usedPaths →
      (∀ e0, lookupA d.documentId s.manifest = some e0 → f ≠ e0.file) →
      lookupA f (processRemoteDoc env s d).locals = lookupA f s.locals) ∧
    s.conflicts ≤ (processRemoteDoc env s d).conflicts ∧
    (∀ x ∈ s.remoteDeletes, x ∈ (processRemoteDoc env s d).remoteDeletes) ∧
    (∀ x ∈ (processRemoteDoc env s d).remoteDeletes,
      x ∈ s.remoteDeletes ∨ (x = d.documentId ∧
        lookupA d.documentId (processRemoteDoc env s d).manifest = none)) ∧
    (∀ x ∈ s.uploadsDone, x ∈ (processRemoteDoc env s d).uploadsDone) ∧
    (∀ x ∈ (processRemoteDoc env s d).uploadsDone,
      x ∈ s.uploadsDone ∨ x = d.documentId) ∧
    DonePost env (processRemoteDoc env s d) d ∧
    (processRemoteDoc env s d).createCount = s.createCount := by
  obtain ⟨hfD, hfU, hfC, hfS, hfDL, hfDR, hfDW, hfRD, hfUD, hfCC⟩ := resolvePairing_frame s d
  cases hent : lookupA d.documentId s.manifest with
  | none =>
    obtain ⟨hres, hDnot⟩ := resolvePairing_noentry s d hent
    have h1 : (resolvePairing s d).1 = s := by rw [hres]
    have h2 : (resolvePairing s d).2 = pairDesiredRel s d := by rw [hres]
    have hlook' : lookupA d.documentId (resolvePairing s d).1.manifest = none := by
      rw [h1]; exact hent
    have hb := processRemoteDoc_newBranch env s d hlook'
    rw [h1, h2] at hb
    have hDne : pairDesiredRel s d ≠ "" := pairDesiredRel_ne_empty s d
    refine ⟨?_, ?_, ?_, ?_, ?_, ?_, ?_, ?_, ?_, ?_⟩
    · exact StateInv_newdoc s inv d (pairDesiredRel s d) hDnot hDne hent
        ⟨pairDesiredRel s d, d.revisionId, d.title, resolveFileType d none, d.contentHash⟩
        rfl d.contentHash _ (by rw [hb]) (by rw [hb]) (by rw [hb])
    · intro k hk
      rw [hb]
      show lookupA k (setA d.documentId _ s.manifest) = lookupA k s.manifest
      rw [lookupA_setA_other k _ _ hk]
    · intro f hf _
      rw [hb]
      show lookupA f (setA (pairDesiredRel s d) d.contentHash s.locals) = lookupA f s.locals
      rw [lookupA_setA_other f _ _ (fun he => hDnot (by rw [← he]; exact hf))]
    · rw [hb]
    · intro x hx
      rw [hb]
      exact hx
    · intro x hx
      rw [hb] at hx
      exact .inl hx
    · intro x hx
      rw [hb]
      exact hx
    · intro x hx
      rw [hb] at hx
      exact .inl hx
    · refine .inr (.inl ⟨⟨pairDesiredRel s d, d.revisionId, d.title,
        resolveFileType d none, d.contentHash⟩, d.contentHash, ?_, hDne, ?_, ?_, ?_⟩)
      · rw [hb]
        show lookupA d.documentId (setA d.documentId _ s.manifest) = _
        rw [lookupA_setA_self]
      · rw [hb]
        show lookupA (pairDesiredRel s d) (setA (pairDesiredRel s d) d.contentHash s.locals) = _
        rw [lookupA_setA_self]
      · exact localChangedB_self _ _ rfl
      · have hupS : (processRemoteDoc env s d).uploadsDone = s.uploadsDone := by rw [hb]
        rw [revAfter, hupS, if_neg hup]
        exact remoteChangedRev_self _ _ rfl
    · rw [hb]
  | some e0 =>
    have hfile0 : e0.file ≠ "" := inv.filesNe (d.documentId, e0) (lookupA_mem _ _ _ hent)
    cases hloc : lookupA e0.file s.locals with
    | none =>
      obtain ⟨hent', hloc', hmanO, hlocEq, hinv', hkeys', husedS⟩ :=
        resolvePairing_nolocal s d e0 inv hent hloc
      have hb := processRemoteDoc_deleteBranch env s d _ hent' hloc'
      refine ⟨?_, ?_, ?_, ?_, ?_, ?_, ?_, ?_, ?_, ?_⟩
      · exact StateInv_erase (resolvePairing s d).1 hinv' d.documentId _
          (by rw [hb]) (by rw [hb]) (by rw [hb])
      · intro k hk
        rw [hb]
        show lookupA k (eraseA d.documentId (resolvePairing s d).1.manifest) = lookupA k s.manifest
        rw [lookupA_eraseA_other k _ hk, hmanO k hk]
      · intro f _ _
        rw [hb]
        show lookupA f (resolvePairing s d).1.locals = lookupA f s.locals
        rw [hlocEq]
      · rw [hb]
        show s.conflicts ≤ (resolvePairing s d).1.conflicts
        exact le_of_eq hfC.symm
      · intro x hx
        rw [hb]
        show x ∈ (resolvePairing s d).1.remoteDeletes ++ [d.documentId]
        rw [hfRD]
        exact List.mem_append_left _ hx
      · intro x hx
        rw [hb] at hx
        replace hx : x ∈ (resolvePairing s d).1.remoteDeletes ++ [d.documentId] := hx
        rw [hfRD] at hx
        rcases List.mem_append.1 hx with h3 | h3
        · exact .inl h3
        · refine .inr ⟨List.mem_singleton.1 h3, ?_⟩
          rw [hb]
          show lookupA d.documentId (eraseA d.documentId (resolvePairing s d).1.manifest) = none
          rw [lookupA_eraseA]
      · intro x hx
        rw [hb]
        show x ∈ (resolvePairing s d).1.uploadsDone
        rw [hfUD]
        exact hx
      · intro x hx
        rw [hb] at hx
        replace hx : x ∈ (resolvePairing s d).1.uploadsDone := hx
        rw [hfUD] at hx
        exact .inl hx
      · left
        rw [hb]
        show d.documentId ∈ (resolvePairing s d).1.remoteDeletes ++ [d.documentId]
        exact List.mem_append_right _ (List.mem_singleton.2 rfl)
      · rw [hb]
        show (resolvePairing s d).1.createCount = s.createCount
        exact hfCC
    | some h =>
      have pg := resolvePairing_good s d e0 h inv hent hfile0 hloc
      have hCfr : ∀ f, f ∈ s.usedPaths →
          (∀ e1 : ManifestEntry, (some e0 : Option ManifestEntry) = some e1 → f ≠ e1.file) →
          f ≠ e0.file ∧ f ≠ (resolvePairing s d).2 := by
        intro f hf hfe
        exact ⟨hfe e0 rfl, pg.frNotOld f hf (hfe e0 rfl)⟩
      by_cases hrc : remoteChangedB { e0 with file := (resolvePairing s d).2 } d = true
      · by_cases hlc : localChangedB { e0 with file := (resolvePairing s d).2 } h = true
        · -- conflict branch
          have hb := processRemoteDoc_conflictBranch env s d _ h pg.entry pg.loc
            (by rw [hrc, hlc]; rfl)
          refine ⟨?_, ?_, ?_, ?_, ?_, ?_, ?_, ?_, ?_, ?_⟩
          · exact StateInv_transfer (resolvePairing s d).1 _ pg.inv
              (by rw [hb]) (by rw [hb]) (by rw [hb])
          · intro k hk
            rw [hb]
            show lookupA k (resolvePairing s d).1.manifest = lookupA k s.manifest
            exact pg.manOther k hk
          · intro f hf hfe
            rw [hb]
            show lookupA f (resolvePairing s d).1.locals = lookupA f s.locals
            exact pg.locOther f (hCfr f hf hfe).1 (hCfr f hf hfe).2
          · rw [hb]
            show s.conflicts ≤ (resolvePairing s d).1.conflicts + 1
            rw [hfC]
            exact Nat.le_succ _
          · intro x hx
            rw [hb]
            show x ∈ (resolvePairing s d).1.remoteDeletes
            rw [hfRD]
            exact hx
          · intro x hx
            rw [hb] at hx
            replace hx : x ∈ (resolvePairing s d).1.remoteDeletes := hx
            rw [hfRD] at hx
            exact .inl hx
          · intro x hx
            rw [hb]
            show x ∈ (resolvePairing s d).1.uploadsDone
            rw [hfUD]
            exact hx
          · intro x hx
            rw [hb] at hx
            replace hx : x ∈ (resolvePairing s d).1.uploadsDone := hx
            rw [hfUD] at hx
            exact .inl hx
          · right; right
            rw [hb]
            show 1 ≤ (resolvePairing s d).1.conflicts + 1
            exact Nat.le_add_left 1 _
          · rw [hb]
            show (resolvePairing s d).1.createCount = s.createCount
            exact hfCC
        · -- download branch
          have hlcF := bool_of_not_true hlc
          have hb := processRemoteDoc_downloadBranch env s d _ h pg.entry pg.loc hrc hlcF
          refine ⟨?_, ?_, ?_, ?_, ?_, ?_, ?_, ?_, ?_, ?_⟩
          · exact StateInv_setA_entry_dl s (resolvePairing s d).1 (resolvePairing s d).2 d e0 h
              pg ⟨(resolvePairing s d).2, d.revisionId, d.title, resolveFileType d _,
                d.contentHash⟩ rfl d.contentHash _ (by rw [hb]) (by rw [hb]) (by rw [hb])
          · intro k hk
            rw [hb]
            show lookupA k (setA d.documentId _ (resolvePairing s d).1.manifest)
              = lookupA k s.manifest
            rw [lookupA_setA_other k _ _ hk, pg.manOther k hk]
          · intro f hf hfe
            rw [hb]
            show lookupA f (setA (resolvePairing s d).2 d.contentHash
              (resolvePairing s d).1.locals) = lookupA f s.locals
            rw [lookupA_setA_other f _ _ (hCfr f hf hfe).2,
              pg.locOther f (hCfr f hf hfe).1 (hCfr f hf hfe).2]
          · rw [hb]
            show s.conflicts ≤ (resolvePairing s d).1.conflicts
            exact le_of_eq hfC.symm
          · intro x hx
            rw [hb]
            show x ∈ (resolvePairing s d).1.remoteDeletes
            rw [hfRD]
            exact hx
          · intro x hx
            rw [hb] at hx
            replace hx : x ∈ (resolvePairing s d).1.remoteDeletes := hx
            rw [hfRD] at hx
            exact .inl hx
          · intro x hx
            rw [hb]
            show x ∈ (resolvePairing s d).1.uploadsDone
            rw [hfUD]
            exact hx
          · intro x hx
            rw [hb] at hx
            replace hx : x ∈ (resolvePairing s d).1.uploadsDone := hx
            rw [hfUD] at hx
            exact .inl hx
          · refine .inr (.inl ⟨⟨(resolvePairing s d).2, d.revisionId, d.title,
              resolveFileType d (some { e0 with file := (resolvePairing s d).2 }),
              d.contentHash⟩, d.contentHash, ?_, pg.frNe, ?_, ?_, ?_⟩)
            · rw [hb]
              show lookupA d.documentId (setA d.documentId _ _) = _
              rw [lookupA_setA_self]
            · rw [hb]
              show lookupA (resolvePairing s d).2
                (setA (resolvePairing s d).2 d.contentHash _) = _
              rw [lookupA_setA_self]
            · exact localChangedB_self _ _ rfl
            · have hupS : (processRemoteDoc env s d).uploadsDone = s.uploadsDone := by
                rw [hb]
                show (resolvePairing s d).1.uploadsDone = s.uploadsDone
                exact hfUD
              rw [revAfter, hupS, if_neg hup]
              exact remoteChangedRev_self _ _ rfl
          · rw [hb]
            show (resolvePairing s d).1.createCount = s.createCount
            exact hfCC
      · have hrcF := bool_of_not_true hrc
        by_cases hlc : localChangedB { e0 with file := (resolvePairing s d).2 } h = true
        · -- upload branch
          have hb := processRemoteDoc_uploadBranch env s d _ h pg.entry pg.loc hrcF hlc
          refine ⟨?_, ?_, ?_, ?_, ?_, ?_, ?_, ?_, ?_, ?_⟩
          · exact StateInv_setA_entry s (resolvePairing s d).1 (resolvePairing s d).2 d e0 h
              pg ⟨(resolvePairing s d).2, _, d.title, resolveFileType d _, h⟩ rfl _
              (by rw [hb]) (by rw [hb]) (by rw [hb])
          · intro k hk
            rw [hb]
            show lookupA k (setA d.documentId _ (resolvePairing s d).1.manifest)
              = lookupA k s.manifest
            rw [lookupA_setA_other k _ _ hk, pg.manOther k hk]
          · intro f hf hfe
            rw [hb]
            show lookupA f (resolvePairing s d).1.locals = lookupA f s.locals
            exact pg.locOther f (hCfr f hf hfe).1 (hCfr f hf hfe).2
          · rw [hb]
            show s.conflicts ≤ (resolvePairing s d).1.conflicts
            exact le_of_eq hfC.symm
          · intro x hx
            rw [hb]
            show x ∈ (resolvePairing s d).1.remoteDeletes
            rw [hfRD]
            exact hx
          · intro x hx
            rw [hb] at hx
            replace hx : x ∈ (resolvePairing s d).1.remoteDeletes := hx
            rw [hfRD] at hx
            exact .inl hx
          · intro x hx
            rw [hb]
            show x ∈ (resolvePairing s d).1.uploadsDone ++ [d.documentId]
            rw [hfUD]
            exact List.mem_append_left _ hx
          · intro x hx
            rw [hb] at hx
            replace hx : x ∈ (resolvePairing s d).1.uploadsDone ++ [d.documentId] := hx
            rw [hfUD] at hx
            rcases List.mem_append.1 hx with h3 | h3
            · exact .inl h3
            · exact .inr (List.mem_singleton.1 h3)
          · refine .inr (.inl ⟨⟨(resolvePairing s d).2,
              (match env.uploadMeta d.documentId with
               | some r => some r
               | none => d.revisionId), d.title,
              resolveFileType d (some { e0 with file := (resolvePairing s d).2 }), h⟩, h,
              ?_, pg.frNe, ?_, ?_, ?_⟩)
            · rw [hb]
              show lookupA d.documentId (setA d.documentId _ _) = _
              rw [lookupA_setA_self]
            · rw [hb]
              show lookupA (resolvePairing s d).2 (resolvePairing s d).1.locals = _
              exact pg.loc
            · exact localChangedB_self _ _ rfl
            · have hupS : d.documentId ∈ (processRemoteDoc env s d).uploadsDone := by
                rw [hb]
                show d.documentId ∈ (resolvePairing s d).1.uploadsDone ++ [d.documentId]
                exact List.mem_append_right _ (List.mem_singleton.2 rfl)
              rw [revAfter, if_pos hupS]
              cases hum : env.uploadMeta d.documentId with
              | some r => exact remoteChangedRev_self _ _ rfl
              | none => exact remoteChangedRev_none _
          · rw [hb]
            show (resolvePairing s d).1.createCount = s.createCount
            exact hfCC
        · -- skip branch
          have hlcF := bool_of_not_true hlc
          have hb := processRemoteDoc_skipBranch env s d _ h pg.entry pg.loc hrcF hlcF
          refine ⟨?_, ?_, ?_, ?_, ?_, ?_, ?_, ?_, ?_, ?_⟩
          · exact StateInv_setA_entry s (resolvePairing s d).1 (resolvePairing s d).2 d e0 h
              pg ⟨(resolvePairing s d).2, d.revisionId, d.title, resolveFileType d _,
                jsOr h e0.hash⟩ rfl _ (by rw [hb]) (by rw [hb]) (by rw [hb])
          · intro k hk
            rw [hb]
            show lookupA k (setA d.documentId _ (resolvePairing s d).1.manifest)
              = lookupA k s.manifest
            rw [lookupA_setA_other k _ _ hk, pg.manOther k hk]
          · intro f hf hfe
            rw [hb]
            show lookupA f (resolvePairing s d).1.locals = lookupA f s.locals
            exact pg.locOther f (hCfr f hf hfe).1 (hCfr f hf hfe).2
          · rw [hb]
            show s.conflicts ≤ (resolvePairing s d).1.conflicts
            exact le_of_eq hfC.symm
          · intro x hx
            rw [hb]
            show x ∈ (resolvePairing s d).1.remoteDeletes
            rw [hfRD]
            exact hx
          · intro x hx
            rw [hb] at hx
            replace hx : x ∈ (resolvePairing s d).1.remoteDeletes := hx
            rw [hfRD] at hx
            exact .inl hx
          · intro x hx
            rw [hb]
            show x ∈ (resolvePairing s d).1.uploadsDone
            rw [hfUD]
            exact hx
          · intro x hx
            rw [hb] at hx
            replace hx : x ∈ (resolvePairing s d).1.uploadsDone := hx
            rw [hfUD] at hx
            exact .inl hx
          · refine .inr (.inl ⟨⟨(resolvePairing s d).2, d.revisionId, d.title,
              resolveFileType d (some { e0 with file := (resolvePairing s d).2 }),
              jsOr h e0.hash⟩, h, ?_, pg.frNe, ?_, ?_, ?_⟩)
            · rw [hb]
              show lookupA d.documentId (setA d.documentId _ _) = _
              rw [lookupA_setA_self]
            · rw [hb]
              show lookupA (resolvePairing s d).2 (resolvePairing s d).1.locals = _
              exact pg.loc
            · exact localChangedB_jsOr _ _ _ rfl
            · have hupS : (processRemoteDoc env s d).uploadsDone = s.uploadsDone := by
                rw [hb]
                show (resolvePairing s d).1.uploadsDone = s.uploadsDone
                exact hfUD
              rw [revAfter, hupS, if_neg hup]
              exact remoteChangedRev_self _ _ rfl
          · rw [hb]
            show (resolvePairing s d).1.createCount = s.createCount
            exact hfCC

theorem run1_fold (env : SyncEnv) :
    ∀ (todo done : List RDoc) (s : SyncState),
      StateInv s →
      (((done ++ todo).map RDoc.documentId).Nodup) →
      (∀ d0 ∈ done, DonePost env s d0) →
      (∀ x ∈ s.remoteDeletes, x ∈ done.map RDoc.documentId) →
      (∀ x ∈ s.uploadsDone, x ∈ done.map RDoc.documentId) →
      (∀ x ∈ s.remoteDeletes, lookupA x s.manifest = none) →
      s.createCount = 0 →
      StateInv (todo.foldl (processRemoteDoc env) s) ∧
      (∀ d0 ∈ done ++ todo, DonePost env (todo.foldl (processRemoteDoc env) s) d0) ∧
      (∀ x ∈ (todo.foldl (processRemoteDoc env) s).remoteDeletes,
        x ∈ (done ++ todo).map RDoc.documentId) ∧
      (∀ x ∈ (todo.foldl (processRemoteDoc env) s).uploadsDone,
        x ∈ (done ++ todo).map RDoc.documentId) ∧
      (∀ x ∈ (todo.foldl (processRemoteDoc env) s).remoteDeletes,
        lookupA x (todo.foldl (processRemoteDoc env) s).manifest = none) ∧
      (todo.foldl (processRemoteDoc env) s).createCount = 0 ∧
      s.conflicts ≤ (todo.foldl (processRemoteDoc env) s).conflicts := by
  intro todo
  induction todo with
  | nil =>
    intro done s hinv hnd hpost hdel hupl hdeln hcc
    simp only [List.foldl_nil, List.append_nil]
    exact ⟨hinv, hpost, hdel, hupl, hdeln, hcc, le_refl _⟩
  | cons d rest ih =>
    intro done s hinv hnd hpost hdel hupl hdeln hcc
    have hnd' := hnd
    rw [List.map_append] at hnd'
    have hdisj : (done.map RDoc.documentId).Disjoint ((d :: rest).map RDoc.documentId) :=
      List.disjoint_of_nodup_append hnd'
    have hdhead : d.documentId ∈ (d :: rest).map RDoc.documentId :=
      List.mem_map_of_mem RDoc.documentId (List.mem_cons_self d rest)
    have hupS : d.documentId ∉ s.uploadsDone := fun hx => hdisj (hupl _ hx) hdhead
    obtain ⟨mInv, mB, mC, mD, mE1, mE2, mE3, mE4, mF, mG⟩ :=
      processRemoteDoc_master env s d hinv hupS
    simp only [List.foldl_cons]
    have hseq : done ++ d :: rest = (done ++ [d]) ++ rest := by
      rw [List.append_cons]
    have hnd2 : (((done ++ [d]) ++ rest).map RDoc.documentId).Nodup := by
      rw [← hseq]; exact hnd
    have hpost2 : ∀ d0 ∈ done ++ [d], DonePost env (processRemoteDoc env s d) d0 := by
      intro d0 hd0
      rcases List.mem_append.1 hd0 with hd0 | hd0
      · have hne : d0.documentId ≠ d.documentId := fun heq =>
          hdisj (List.mem_map_of_mem RDoc.documentId hd0) (heq ▸ hdhead)
        rcases hpost d0 hd0 with hA | hB | hC
        · exact .inl (mE1 _ hA)
        · obtain ⟨e, hh, hle, hfne, hll, hlcB, hrcB⟩ := hB
          refine .inr (.inl ⟨e, hh, ?_, hfne, ?_, hlcB, ?_⟩)
          · rw [mB d0.documentId hne]
            exact hle
          · rw [mC e.file (hinv.filesUsed (d0.documentId, e) (lookupA_mem _ _ _ hle))
              (fun e1 hl1 => hinv.filesUnique d0.documentId d.documentId e e1 hle hl1 hne)]
            exact hll
          · have hrw : revAfter env (processRemoteDoc env s d) d0 = revAfter env s d0 := by
              rw [revAfter, revAfter]
              by_cases hm : d0.documentId ∈ s.uploadsDone
              · rw [if_pos hm, if_pos (mE3 _ hm)]
              · rw [if_neg hm, if_neg (fun hx => (mE4 _ hx).elim hm hne)]
            rw [hrw]
            exact hrcB
        · exact .inr (.inr (le_trans hC mD))
      · rw [List.mem_singleton.1 hd0]
        exact mF
    have hdel2 : ∀ x ∈ (processRemoteDoc env s d).remoteDeletes,
        x ∈ (done ++ [d]).map RDoc.documentId := by
      intro x hx
      rw [List.map_append]
      rcases mE2 x hx with h1 | ⟨h1, _⟩
      · exact List.mem_append_left _ (hdel x h1)
      · exact List.mem_append_right _ (by rw [h1]; exact List.mem_singleton.2 rfl)
    have hupl2 : ∀ x ∈ (processRemoteDoc env s d).uploadsDone,
        x ∈ (done ++ [d]).map RDoc.documentId := by
      intro x hx
      rw [List.map_append]
      rcases mE4 x hx with h1 | h1
      · exact List.mem_append_left _ (hupl x h1)
      · exact List.mem_append_right _ (by rw [h1]; exact List.mem_singleton.2 rfl)
    have hdeln2 : ∀ x ∈ (processRemoteDoc env s d).remoteDeletes,
        lookupA x (processRemoteDoc env s d).manifest = none := by
      intro x hx
      rcases mE2 x hx with h1 | ⟨h1, h2⟩
      · have hne : x ≠ d.documentId := fun heq =>
          hdisj (hdel x h1) (heq ▸ hdhead)
        rw [mB x hne]
        exact hdeln x h1
      · rw [h1]
        exact h2
    have hcc2 : (processRemoteDoc env s d).createCount = 0 := by rw [mG]; exact hcc
    obtain ⟨c1, c2, c3, c4, c5, c6, c7⟩ :=
      ih (done ++ [d]) (processRemoteDoc env s d) mInv hnd2 hpost2 hdel2 hupl2 hdeln2 hcc2
    rw [hseq]
    exact ⟨c1, c2, c3, c4, c5, c6, le_trans mD c7⟩

theorem StateInv_eraseLoc (s' : SyncState) (inv : StateInv s') (k f : String)
    (s2 : SyncState) (hm : s2.manifest = eraseA k s'.manifest)
    (hl : s2.locals = eraseA f s'.locals) (hu : s2.usedPaths = s'.usedPaths) :
    StateInv s2 := by
  have base := StateInv_erase s' inv k { s' with manifest := eraseA k s'.manifest } rfl rfl rfl
  constructor
  · rw [hm]; exact base.keysNodup
  · rw [hl]
    exact inv.localsNodup.sublist ((eraseA_sublist f s'.locals).map Prod.fst)
  · intro k1 k2 e1 e2 h1 h2 hne
    rw [hm] at h1 h2
    exact base.filesUnique k1 k2 e1 e2 h1 h2 hne
  · intro p hp; rw [hm] at hp; exact base.filesNe p hp
  · intro p hp; rw [hm] at hp; rw [hu]; exact base.filesUsed p hp
  · intro q hq
    rw [hl] at hq
    rw [hu]
    exact inv.localsUsed q (mem_eraseA_sub f s'.locals q hq)
  · intro q hq
    rw [hl] at hq
    exact inv.localsNe q (mem_eraseA_sub f s'.locals q hq)

theorem phase2_fold (remoteIds : List String) :
    ∀ (l : List (String × ManifestEntry)) (s : SyncState), StateInv s →
      StateInv (l.foldl (phase2Step remoteIds) s) ∧
      (∀ k ∈ remoteIds,
        lookupA k (l.foldl (phase2Step remoteIds) s).manifest = lookupA k s.manifest) ∧
      (∀ f, (∀ p ∈ l, p.1 ∉ remoteIds → f ≠ p.2.file) →
        lookupA f (l.foldl (phase2Step remoteIds) s).locals = lookupA f s.locals) ∧
      (∀ k, lookupA k (l.foldl (phase2Step remoteIds) s).manifest ≠ none →
        k ∈ remoteIds ∨ (lookupA k s.manifest ≠ none ∧ k ∉ l.map Prod.fst)) ∧
      (l.foldl (phase2Step remoteIds) s).usedPaths = s.usedPaths ∧
      (l.foldl (phase2Step remoteIds) s).conflicts = s.conflicts ∧
      (l.foldl (phase2Step remoteIds) s).uploadsDone = s.uploadsDone ∧
      (l.foldl (phase2Step remoteIds) s).remoteDeletes = s.remoteDeletes ∧
      (l.foldl (phase2Step remoteIds) s).createCount = s.createCount := by
  intro l
  induction l with
  | nil =>
    intro s hinv
    exact ⟨hinv, fun k _ => rfl, fun f _ => rfl,
      fun k hk => .inr ⟨hk, by simp⟩, rfl, rfl, rfl, rfl, rfl⟩
  | cons pair rest ih =>
    intro s hinv
    simp only [List.foldl_cons]
    by_cases hmem : pair.1 ∈ remoteIds
    · have hstep : phase2Step remoteIds s pair = s := by
        unfold phase2Step
        rw [if_pos hmem]
      rw [hstep]
      obtain ⟨q1, q2, q3, q4, q5, q6, q7, q8, q9⟩ := ih s hinv
      refine ⟨q1, q2, ?_, ?_, q5, q6, q7, q8, q9⟩
      · intro f hf
        exact q3 f (fun p hp => hf p (List.mem_cons_of_mem _ hp))
      · intro k hk
        rcases q4 k hk with h1 | ⟨h1, h2⟩
        · exact .inl h1
        · by_cases hkp : k = pair.1
          · exact .inl (hkp ▸ hmem)
          · refine .inr ⟨h1, ?_⟩
            simp only [List.map_cons, List.mem_cons]
            push_neg
            exact ⟨hkp, h2⟩
    · have hstepGen : ∀ s2 : SyncState, phase2Step remoteIds s pair = s2 →
        s2.manifest = eraseA pair.1 s.manifest ∧
        (s2.locals = s.locals ∨ s2.locals = eraseA pair.2.file s.locals) ∧
        s2.usedPaths = s.usedPaths ∧ s2.conflicts = s.conflicts ∧
        s2.uploadsDone = s.uploadsDone ∧ s2.remoteDeletes = s.remoteDeletes ∧
        s2.createCount = s.createCount := by
        intro s2 hs2
        rw [← hs2]
        unfold phase2Step
        rw [if_neg hmem]
        by_cases hfe : pair.2.file = ""
        · rw [if_pos hfe]
          exact ⟨rfl, .inl rfl, rfl, rfl, rfl, rfl, rfl⟩
        · rw [if_neg hfe]
          cases hll : lookupA pair.2.file s.locals with
          | some hh => exact ⟨rfl, .inr rfl, rfl, rfl, rfl, rfl, rfl⟩
          | none => exact ⟨rfl, .inl rfl, rfl, rfl, rfl, rfl, rfl⟩
      obtain ⟨g1, g2, g3, g4, g5, g6, g7⟩ := hstepGen _ rfl
      have hinv2 : StateInv (phase2Step remoteIds s pair) := by
        rcases g2 with g2 | g2
        · exact StateInv_erase s hinv pair.1 _ g1 g2 g3
        · exact StateInv_eraseLoc s hinv pair.1 pair.2.file _ g1 g2 g3
      obtain ⟨q1, q2, q3, q4, q5, q6, q7, q8, q9⟩ := ih _ hinv2
      refine ⟨q1, ?_, ?_, ?_, ?_, ?_, ?_, ?_, ?_⟩
      · intro k hk
        rw [q2 k hk, g1, lookupA_eraseA_other k pair.1 (fun heq => hmem (heq ▸ hk))]
      · intro f hf
        have hfp : f ≠ pair.2.file := hf pair (List.mem_cons_self _ _) hmem
        have hloc : lookupA f (phase2Step remoteIds s pair).locals = lookupA f s.locals := by
          rcases g2 with g2 | g2
          · rw [g2]
          · rw [g2, lookupA_eraseA_other f pair.2.file hfp]
        rw [q3 f (fun p hp => hf p (List.mem_cons_of_mem _ hp)), hloc]
      · intro k hk
        rcases q4 k hk with h1 | ⟨h1, h2⟩
        · exact .inl h1
        · rw [g1] at h1
          by_cases hkp : k = pair.1
          · rw [hkp, lookupA_eraseA] at h1
            exact absurd rfl h1
          · rw [lookupA_eraseA_other k pair.1 hkp] at h1
            refine .inr ⟨h1, ?_⟩
            simp only [List.map_cons, List.mem_cons]
            push_neg
            exact ⟨hkp, h2⟩
      · rw [q5, g3]
      · rw [q6, g4]
      · rw [q7, g5]
      · rw [q8, g6]
      · rw [q9, g7]

theorem phase3_fold (env : SyncEnv) (fileToDoc remoteIds : List String)
    (hFresh : ∀ j : Nat, env.newDocId j ∉ remoteIds)
    (hInj : ∀ j1 j2 : Nat, env.newDocId j1 = env.newDocId j2 → j1 = j2) :
    ∀ (todo done : List (String × String)) (s : SyncState),
      StateInv s →
      (∀ q ∈ todo, q ∈ s.locals) →
      (((done ++ todo).map Prod.fst).Nodup) →
      (∀ k e1, lookupA k s.manifest = some e1 →
        e1.file ∈ fileToDoc ∨ e1.file ∈ done.map Prod.fst) →
      (∀ k, lookupA k s.manifest ≠ none →
        k ∈ remoteIds ∨ ∃ j, j < s.createCount ∧ k = env.newDocId j) →
      (∀ q ∈ done, ∃ k e, lookupA k s.manifest = some e ∧ e.file = q.1) →
      (∀ f ∈ fileToDoc, ∃ k e, lookupA k s.manifest = some e ∧ e.file = f) →
      (∀ j, j < s.createCount → SkipGoodAt s (env.newDocId j) (env.createMeta j).2) →
      StateInv (todo.foldl (phase3Step env fileToDoc) s) ∧
      (∀ k, lookupA k s.manifest ≠ none →
        lookupA k (todo.foldl (phase3Step env fileToDoc) s).manifest
          = lookupA k s.manifest) ∧
      (∀ k, (∀ j : Nat, k ≠ env.newDocId j) →
        lookupA k (todo.foldl (phase3Step env fileToDoc) s).manifest
          = lookupA k s.manifest) ∧
      (todo.foldl (phase3Step env fileToDoc) s).locals = s.locals ∧
      (∀ k, lookupA k (todo.foldl (phase3Step env fileToDoc) s).manifest ≠ none →
        k ∈ remoteIds ∨ ∃ j, j < (todo.foldl (phase3Step env fileToDoc) s).createCount ∧
          k = env.newDocId j) ∧
      (∀ j, j < (todo.foldl (phase3Step env fileToDoc) s).createCount →
        SkipGoodAt (todo.foldl (phase3Step env fileToDoc) s)
          (env.newDocId j) (env.createMeta j).2) ∧
      (∀ q ∈ done ++ todo, ∃ k e,
        lookupA k (todo.foldl (phase3Step env fileToDoc) s).manifest = some e ∧
        e.file = q.1) ∧
      (todo.foldl (phase3Step env fileToDoc) s).conflicts = s.conflicts ∧
      (todo.foldl (phase3Step env fileToDoc) s).uploadsDone = s.uploadsDone ∧
      (todo.foldl (phase3Step env fileToDoc) s).remoteDeletes = s.remoteDeletes ∧
      (todo.foldl (phase3Step env fileToDoc) s).usedPaths = s.usedPaths ∧
      s.createCount ≤ (todo.foldl (phase3Step env fileToDoc) s).createCount := by
  intro todo
  induction todo with
  | nil =>
    intro done s hinv _ _ _ hkc hdp _ hcs
    exact ⟨hinv, fun k _ => rfl, fun k _ => rfl, rfl, hkc, hcs,
      fun q hq => hdp q (by rw [List.append_nil] at hq; exact hq),
      rfl, rfl, rfl, rfl, le_refl _⟩
  | cons pair rest ih =>
    intro done s hinv hl hnd hfc hkc hdp hf2d hcs
    simp only [List.foldl_cons]
    have hseq : done ++ pair :: rest = (done ++ [pair]) ++ rest := by
      rw [List.append_cons]
    have hnd2 : (((done ++ [pair]) ++ rest).map Prod.fst).Nodup := by
      rw [← hseq]; exact hnd
    by_cases hmem : pair.1 ∈ fileToDoc
    · have hstep : phase3Step env fileToDoc s pair = s := by
        unfold phase3Step
        rw [if_pos hmem]
      rw [hstep]
      have hdp2 : ∀ q ∈ done ++ [pair], ∃ k e, lookupA k s.manifest = some e ∧ e.file = q.1 := by
        intro q hq
        rcases List.mem_append.1 hq with hq | hq
        · exact hdp q hq
        · rw [List.mem_singleton.1 hq]
          exact hf2d pair.1 hmem
      have hfc2 : ∀ k e1, lookupA k s.manifest = some e1 →
          e1.file ∈ fileToDoc ∨ e1.file ∈ (done ++ [pair]).map Prod.fst := by
        intro k e1 hk
        rcases hfc k e1 hk with h1 | h1
        · exact .inl h1
        · exact .inr (by rw [List.map_append]; exact List.mem_append_left _ h1)
      obtain ⟨c1, c2, c2n, c3, c4, c5, c6, c7, c8, c9, c10, c11⟩ :=
        ih (done ++ [pair]) s hinv (fun q hq => hl q (List.mem_cons_of_mem _ hq))
          hnd2 hfc2 hkc hdp2 hf2d hcs
      rw [hseq]
      exact ⟨c1, c2, c2n, c3, c4, c5, c6, c7, c8, c9, c10, c11⟩
    · have hstep : phase3Step env fileToDoc s pair =
          { s with
            manifest := setA (env.newDocId s.createCount)
              ⟨pair.1, (env.createMeta s.createCount).2, (env.createMeta s.createCount).1,
               "docx", pair.2⟩ s.manifest,
            uploaded := s.uploaded + 1,
            createCount := s.createCount + 1 } := by
        unfold phase3Step
        rw [if_neg hmem]
      have hpairM : pair ∈ s.locals := hl pair (List.mem_cons_self _ _)
      have hpairNe : pair.1 ≠ "" := hinv.localsNe pair hpairM
      have hpairUsed : pair.1 ∈ s.usedPaths := hinv.localsUsed pair hpairM
      have hKfresh : env.newDocId s.createCount ∉ s.manifest.map Prod.fst := by
        intro hk
        have hlk : lookupA (env.newDocId s.createCount) s.manifest ≠ none := by
          intro hn
          exact ((lookupA_eq_none _ _).1 hn) hk
        rcases hkc _ hlk with h1 | ⟨j, hj, hj2⟩
        · exact hFresh s.createCount h1
        · exact absurd (hInj j s.createCount hj2.symm) (Nat.ne_of_lt hj)
      have hdisj : (done.map Prod.fst).Disjoint ((pair :: rest).map Prod.fst) := by
        have hnd' := hnd
        rw [List.map_append] at hnd'
        exact List.disjoint_of_nodup_append hnd'
      have hOtherFile : ∀ k e1, lookupA k s.manifest = some e1 → e1.file ≠ pair.1 := by
        intro k e1 hk heq
        rcases hfc k e1 hk with h1 | h1
        · exact hmem (heq ▸ h1)
        · exact hdisj (heq ▸ h1)
            (List.mem_map_of_mem Prod.fst (List.mem_cons_self pair rest))
      have hinv2 : StateInv (phase3Step env fileToDoc s pair) := by
        rw [hstep]
        constructor
        · show (setA (env.newDocId s.createCount) _ s.manifest).map Prod.fst |>.Nodup
          rw [map_fst_setA_new _ _ _ hKfresh]
          exact nodup_append_single _ _ hinv.keysNodup hKfresh
        · exact hinv.localsNodup
        · intro k1 k2 e1 e2 h1 h2 hne
          show e1.file ≠ e2.file
          by_cases hk1 : k1 = env.newDocId s.createCount
          · subst hk1
            rw [lookupA_setA_self] at h1
            have he1 := (Option.some.inj h1).symm
            have hk2 : k2 ≠ env.newDocId s.createCount := fun hh => hne hh.symm
            rw [lookupA_setA_other k2 _ _ hk2] at h2
            rw [he1]
            exact fun hh => hOtherFile k2 e2 h2 hh.symm
          · rw [lookupA_setA_other k1 _ _ hk1] at h1
            by_cases hk2 : k2 = env.newDocId s.createCount
            · subst hk2
              rw [lookupA_setA_self] at h2
              have he2 := (Option.some.inj h2).symm
              rw [he2]
              exact hOtherFile k1 e1 h1
            · rw [lookupA_setA_other k2 _ _ hk2] at h2
              exact hinv.filesUnique k1 k2 e1 e2 h1 h2 hne
        · intro p hp
          rcases mem_setA _ _ s.manifest p hp with h1 | h1 | ⟨q, hq, h2, h3⟩
          · exact hinv.filesNe p h1
          · rw [h1]; exact hpairNe
          · rw [h2]; exact hpairNe
        · intro p hp
          rcases mem_setA _ _ s.manifest p hp with h1 | h1 | ⟨q, hq, h2, h3⟩
          · exact hinv.filesUsed p h1
          · rw [h1]; exact hpairUsed
          · rw [h2]; exact hpairUsed
        · exact hinv.localsUsed
        · exact hinv.localsNe
      have hmanEq : (phase3Step env fileToDoc s pair).manifest
          = setA (env.newDocId s.createCount)
              ⟨pair.1, (env.createMeta s.createCount).2, (env.createMeta s.createCount).1,
               "docx", pair.2⟩ s.manifest := by rw [hstep]
      have hccEq : (phase3Step env fileToDoc s pair).createCount = s.createCount + 1 := by
        rw [hstep]
      have hpres : ∀ k, lookupA k s.manifest ≠ none →
          lookupA k (phase3Step env fileToDoc s pair).manifest = lookupA k s.manifest := by
        intro k hk
        have hkK : k ≠ env.newDocId s.createCount := by
          intro heq
          exact hKfresh (heq ▸ (by
            rcases Option.ne_none_iff_exists.1 hk with ⟨v, hv⟩
            exact List.mem_map_of_mem Prod.fst (lookupA_mem _ _ _ hv.symm)))
        rw [hmanEq, lookupA_setA_other k _ _ hkK]
      have hfc2 : ∀ k e1, lookupA k (phase3Step env fileToDoc s pair).manifest = some e1 →
          e1.file ∈ fileToDoc ∨ e1.file ∈ (done ++ [pair]).map Prod.fst := by
        intro k e1 hk
        rw [hmanEq] at hk
        by_cases hkK : k = env.newDocId s.createCount
        · subst hkK
          rw [lookupA_setA_self] at hk
          have := (Option.some.inj hk).symm
          rw [this]
          right
          rw [List.map_append]
          exact List.mem_append_right _ (by simp)
        · rw [lookupA_setA_other k _ _ hkK] at hk
          rcases hfc k e1 hk with h1 | h1
          · exact .inl h1
          · exact .inr (by rw [List.map_append]; exact List.mem_append_left _ h1)
      have hkc2 : ∀ k, lookupA k (phase3Step env fileToDoc s pair).manifest ≠ none →
          k ∈ remoteIds ∨ ∃ j, j < (phase3Step env fileToDoc s pair).createCount ∧
            k = env.newDocId j := by
        intro k hk
        rw [hmanEq] at hk
        rw [hccEq]
        by_cases hkK : k = env.newDocId s.createCount
        · exact .inr ⟨s.createCount, Nat.lt_succ_self _, hkK⟩
        · rw [lookupA_setA_other k _ _ hkK] at hk
          rcases hkc k hk with h1 | ⟨j, hj, hj2⟩
          · exact .inl h1
          · exact .inr ⟨j, Nat.lt_succ_of_lt hj, hj2⟩
      have hdp2 : ∀ q ∈ done ++ [pair], ∃ k e,
          lookupA k (phase3Step env fileToDoc s pair).manifest = some e ∧ e.file = q.1 := by
        intro q hq
        rcases List.mem_append.1 hq with hq | hq
        · obtain ⟨k, e, hke, hef⟩ := hdp q hq
          refine ⟨k, e, ?_, hef⟩
          rw [hpres k (by rw [hke]; exact fun hh => Option.noConfusion hh)]
          exact hke
        · rw [List.mem_singleton.1 hq]
          refine ⟨env.newDocId s.createCount,
            ⟨pair.1, (env.createMeta s.createCount).2, (env.createMeta s.createCount).1,
             "docx", pair.2⟩, ?_, rfl⟩
          rw [hmanEq, lookupA_setA_self]
      have hf2d2 : ∀ f ∈ fileToDoc, ∃ k e,
          lookupA k (phase3Step env fileToDoc s pair).manifest = some e ∧ e.file = f := by
        intro f hf
        obtain ⟨k, e, hke, hef⟩ := hf2d f hf
        refine ⟨k, e, ?_, hef⟩
        rw [hpres k (by rw [hke]; exact fun hh => Option.noConfusion hh)]
        exact hke
      have hlocEq : (phase3Step env fileToDoc s pair).locals = s.locals := by rw [hstep]
      have hcs2 : ∀ j, j < (phase3Step env fileToDoc s pair).createCount →
          SkipGoodAt (phase3Step env fileToDoc s pair) (env.newDocId j)
            (env.createMeta j).2 := by
        intro j hj
        rw [hccEq] at hj
        rcases Nat.lt_succ_iff_lt_or_eq.1 hj with hj | hj
        · obtain ⟨e, hh, hle, hfne, hll, hlcB, hrcB⟩ := hcs j hj
          refine ⟨e, hh, ?_, hfne, ?_, hlcB, hrcB⟩
          · rw [hpres _ (by rw [hle]; exact fun hh2 => Option.noConfusion hh2)]
            exact hle
          · rw [hlocEq]
            exact hll
        · subst hj
          refine ⟨⟨pair.1, (env.createMeta s.createCount).2, (env.createMeta s.createCount).1,
            "docx", pair.2⟩, pair.2, ?_, hpairNe, ?_, ?_, ?_⟩
          · rw [hmanEq, lookupA_setA_self]
          · rw [hlocEq]
            exact lookupA_of_mem_nodup pair s.locals hinv.localsNodup hpairM
          · exact localChangedB_self _ _ rfl
          · exact remoteChangedRev_self _ _ rfl
      obtain ⟨c1, c2, c2n, c3, c4, c5, c6, c7, c8, c9, c10, c11⟩ :=
        ih (done ++ [pair]) (phase3Step env fileToDoc s pair) hinv2
          (fun q hq => by rw [hlocEq]; exact hl q (List.mem_cons_of_mem _ hq))
          hnd2 hfc2 hkc2 hdp2 hf2d2 hcs2
      rw [hseq]
      refine ⟨c1, ?_, ?_, ?_, c4, c5, c6, ?_, ?_, ?_, ?_, ?_⟩
      · intro k hk
        rw [c2 k (by rw [hpres k hk]; exact hk), hpres k hk]
      · intro k hkj
        rw [c2n k hkj, hmanEq, lookupA_setA_other k _ _ (hkj s.createCount)]
      · rw [c3, hlocEq]
      · rw [c7]
        rw [hstep]
      · rw [c8]
        rw [hstep]
      · rw [c9]
        rw [hstep]
      · rw [c10]
        rw [hstep]
      · calc s.createCount ≤ s.createCount + 1 := Nat.le_succ _
          _ = (phase3Step env fileToDoc s pair).createCount := hccEq.symm
          _ ≤ _ := c11

theorem nodup_map_inj {α β : Type} (f : α → β) :
    ∀ l : List α, (l.map f).Nodup → ∀ x ∈ l, ∀ y ∈ l, f x = f y → x = y := by
  intro l
  induction l with
  | nil => intro _ x hx; cases hx
  | cons a rest ih =>
    intro hnd x hx y hy hf
    simp only [List.map_cons, List.nodup_cons] at hnd
    rcases List.mem_cons.1 hx with hx1 | hx1
    · rcases List.mem_cons.1 hy with hy1 | hy1
      · rw [hx1, hy1]
      · exfalso
        apply hnd.1
        have : f a ∈ rest.map f := by
          rw [← hx1, hf]
          exact List.mem_map_of_mem f hy1
        exact this
    · rcases List.mem_cons.1 hy with hy1 | hy1
      · exfalso
        apply hnd.1
        have : f a ∈ rest.map f := by
          rw [← hy1, ← hf]
          exact List.mem_map_of_mem f hx1
        exact this
      · exact ih hnd.2 x hx1 y hy1 hf

theorem initialState_inv (w : SyncWorld) (hw : WorldInv w) : StateInv (initialState w) := by
  constructor
  · exact hw.keysNodup
  · exact hw.localsNodup
  · intro k1 k2 e1 e2 h1 h2 hne
    show e1.file ≠ e2.file
    intro hf
    have hm1 : (k1, e1) ∈ w.manifest := lookupA_mem _ _ _ h1
    have hm2 : (k2, e2) ∈ w.manifest := lookupA_mem _ _ _ h2
    have := nodup_map_inj (fun p => p.2.file) w.manifest hw.filesNodup
      (k1, e1) hm1 (k2, e2) hm2 hf
    exact hne (congrArg Prod.fst this)
  · exact hw.filesNe
  · intro p hp
    show p.2.file ∈ initialUsedPaths w
    rw [initialUsedPaths]
    refine List.mem_append_right _ (List.mem_filterMap.2 ⟨p, hp, ?_⟩)
    rw [if_neg (hw.filesNe p hp)]
  · intro q hq
    show q.1 ∈ initialUsedPaths w
    rw [initialUsedPaths]
    exact List.mem_append_left _ (List.mem_map_of_mem Prod.fst hq)
  · exact hw.localsNe

theorem run1_facts (env : SyncEnv) (w : SyncWorld) (hw : WorldInv w)
    (hFresh : ∀ j : Nat, env.newDocId j ∉ w.remote.map RDoc.documentId)
    (hInj : ∀ j1 j2 : Nat, env.newDocId j1 = env.newDocId j2 → j1 = j2) :
    StateInv (syncRun env w) ∧
    (∀ q ∈ (syncRun env w).locals, ∃ k e,
      lookupA k (syncRun env w).manifest = some e ∧ e.file = q.1) ∧
    (∀ d ∈ w.remote, d.documentId ∈ (syncRun env w).remoteDeletes ∨
      SkipGoodAt (syncRun env w) d.documentId (revAfter env (syncRun env w) d) ∨
      1 ≤ (syncRun env w).conflicts) ∧
    (∀ j, j < (syncRun env w).createCount →
      SkipGoodAt (syncRun env w) (env.newDocId j) (env.createMeta j).2) ∧
    (∀ k, lookupA k (syncRun env w).manifest ≠ none →
      (k ∈ w.remote.map RDoc.documentId ∧ k ∉ (syncRun env w).remoteDeletes) ∨
      ∃ j, j < (syncRun env w).createCount ∧ k = env.newDocId j) := by
  have Iw := initialState_inv w hw
  obtain ⟨f1Inv, f1Post, f1Del, f1Upl, f1DelN, f1CC, f1Confl⟩ :=
    run1_fold env w.remote [] (initialState w) Iw
      (by rw [List.nil_append]; exact hw.remoteNodup)
      (by intro d0 hd0; exact absurd hd0 (List.not_mem_nil d0))
      (by intro x hx; exact absurd hx (List.not_mem_nil x))
      (by intro x hx; exact absurd hx (List.not_mem_nil x))
      (by intro x hx; exact absurd hx (List.not_mem_nil x))
      rfl
  rw [List.nil_append] at f1Post f1Del f1Upl
  set S1 := List.foldl (processRemoteDoc env) (initialState w) w.remote with hS1
  obtain ⟨p2Inv, p2Man, p2Loc, p2Keys, p2Used, p2Confl, p2Upl, p2RD, p2CC⟩ :=
    phase2_fold (w.remote.map RDoc.documentId) S1.manifest S1 f1Inv
  set S2 := List.foldl (phase2Step (List.map RDoc.documentId w.remote)) S1 S1.manifest
    with hS2
  obtain ⟨c1, c2, c2n, c3, c4, c5, c6, c7, c8, c9, c10, c11⟩ :=
    phase3_fold env (manifestFiles S2.manifest) (w.remote.map RDoc.documentId)
      hFresh hInj S2.locals [] S2 p2Inv
      (fun q hq => hq)
      (by rw [List.nil_append]; exact p2Inv.localsNodup)
      (by
        intro k e1 hk1
        refine .inl (List.mem_filterMap.2 ⟨(k, e1), lookupA_mem _ _ _ hk1, ?_⟩)
        rw [if_neg (p2Inv.filesNe (k, e1) (lookupA_mem _ _ _ hk1))])
      (by
        intro k hk
        rcases p2Keys k hk with h1 | ⟨h1, h2⟩
        · exact .inl h1
        · exact absurd ((lookupA_eq_none _ _).2 h2) h1)
      (by intro q hq; exact absurd hq (List.not_mem_nil q))
      (by
        intro f hf
        obtain ⟨p, hp, hpf⟩ := List.mem_filterMap.1 hf
        by_cases hfe : p.2.file = ""
        · rw [if_pos hfe] at hpf
          cases hpf
        · rw [if_neg hfe] at hpf
          exact ⟨p.1, p.2, lookupA_of_mem_nodup p _ p2Inv.keysNodup hp,
            Option.some.inj hpf⟩)
      (by
        intro j hj
        rw [p2CC, f1CC] at hj
        exact absurd hj (Nat.not_lt_zero j))
  rw [List.nil_append] at c6
  set S3 := List.foldl (phase3Step env (manifestFiles S2.manifest)) S2 S2.locals with hS3
  have hrun : syncRun env w = S3 := by
    rw [hS3, hS2, hS1]
    rfl
  rw [hrun]
  refine ⟨c1, ?_, ?_, c5, ?_⟩
  · intro q hq
    rw [c3] at hq
    exact c6 q hq
  · intro d hd
    rcases f1Post d hd with hA | hB | hC
    · left
      show d.documentId ∈ S3.remoteDeletes
      rw [c9, p2RD]
      exact hA
    · obtain ⟨e, hh, hle, hfne, hll, hlcB, hrcB⟩ := hB
      have hdmem : d.documentId ∈ w.remote.map RDoc.documentId :=
        List.mem_map_of_mem RDoc.documentId hd
      have hs2e : lookupA d.documentId S2.manifest = some e := by
        rw [p2Man d.documentId hdmem]
        exact hle
      have hlp : ∀ p ∈ S1.manifest, p.1 ∉ w.remote.map RDoc.documentId →
          e.file ≠ p.2.file := by
        intro p hp hpnot
        have hplk := lookupA_of_mem_nodup p _ f1Inv.keysNodup hp
        have hpne : d.documentId ≠ p.1 := fun heq => hpnot (heq ▸ hdmem)
        exact f1Inv.filesUnique d.documentId p.1 e p.2 hle hplk hpne
      have hs2l : lookupA e.file S2.locals = some hh := by
        rw [p2Loc e.file hlp]
        exact hll
      refine .inr (.inl ⟨e, hh, ?_, hfne, ?_, hlcB, ?_⟩)
      · rw [c2 d.documentId (by rw [hs2e]; exact fun hx => Option.noConfusion hx)]
        exact hs2e
      · rw [c3]
        exact hs2l
      · have hrw : revAfter env S3 d = revAfter env S1 d := by
          rw [revAfter, revAfter, c8, p2Upl]
        rw [hrw]
        exact hrcB
    · right; right
      show 1 ≤ S3.conflicts
      rw [c7, p2Confl]
      exact hC
  · intro k hk
    rcases c4 k hk with h1 | h1
    · refine .inl ⟨h1, ?_⟩
      intro hmem
      replace hmem : k ∈ S3.remoteDeletes := hmem
      rw [c9, p2RD] at hmem
      have hnone := f1DelN k hmem
      have hnotc : ∀ j : Nat, k ≠ env.newDocId j := fun j heq => hFresh j (heq ▸ h1)
      have hkn : lookupA k S3.manifest = none := by
        rw [c2n k hnotc, p2Man k h1]
        exact hnone
      exact hk hkn
    · exact .inr h1

theorem processRemoteDoc_skipStep (env : SyncEnv) (s : SyncState) (d : RDoc)
    (inv : StateInv s) (hsg : SkipGoodAt s d.documentId d.revisionId) :
    (processRemoteDoc env s d).downloaded = s.downloaded ∧
    (processRemoteDoc env s d).uploaded = s.uploaded ∧
    (processRemoteDoc env s d).conflicts = s.conflicts ∧
    (processRemoteDoc env s d).deletedLocal = s.deletedLocal ∧
    (processRemoteDoc env s d).deletedRemote = s.deletedRemote ∧
    (processRemoteDoc env s d).skipped = s.skipped + 1 ∧
    StateInv (processRemoteDoc env s d) ∧
    (processRemoteDoc env s d).manifest.map Prod.fst = s.manifest.map Prod.fst ∧
    (∀ k, k ≠ d.documentId →
      lookupA k (processRemoteDoc env s d).manifest = lookupA k s.manifest) ∧
    (∀ f, f ∈ s.usedPaths →
      (∀ e1, lookupA d.documentId s.manifest = some e1 → f ≠ e1.file) →
      lookupA f (processRemoteDoc env s d).locals = lookupA f s.locals) ∧
    (LocalsPaired s → LocalsPaired (processRemoteDoc env s d)) := by
  obtain ⟨hfD, hfU, hfC, hfS, hfDL, hfDR, hfDW, hfRD, hfUD, hfCC⟩ := resolvePairing_frame s d
  obtain ⟨e0, h, hle, hfne, hll, hlcB, hrcB⟩ := hsg
  have pg := resolvePairing_good s d e0 h inv hle hfne hll
  have hrc' : remoteChangedB { e0 with file := (resolvePairing s d).2 } d = false := hrcB
  have hlc' : localChangedB { e0 with file := (resolvePairing s d).2 } h = false := hlcB
  have hb := processRemoteDoc_skipBranch env s d _ h pg.entry pg.loc hrc' hlc'
  have hkeys : d.documentId ∈ (resolvePairing s d).1.manifest.map Prod.fst :=
    List.mem_map_of_mem Prod.fst (lookupA_mem _ _ _ pg.entry)
  refine ⟨?_, ?_, ?_, ?_, ?_, ?_, ?_, ?_, ?_, ?_, ?_⟩
  · rw [hb]
    show (resolvePairing s d).1.downloaded = s.downloaded
    exact hfD
  · rw [hb]
    show (resolvePairing s d).1.uploaded = s.uploaded
    exact hfU
  · rw [hb]
    show (resolvePairing s d).1.conflicts = s.conflicts
    exact hfC
  · rw [hb]
    show (resolvePairing s d).1.deletedLocal = s.deletedLocal
    exact hfDL
  · rw [hb]
    show (resolvePairing s d).1.deletedRemote = s.deletedRemote
    exact hfDR
  · rw [hb]
    show (resolvePairing s d).1.skipped + 1 = s.skipped + 1
    rw [hfS]
  · exact StateInv_setA_entry s (resolvePairing s d).1 (resolvePairing s d).2 d e0 h pg
      ⟨(resolvePairing s d).2, d.revisionId, d.title,
       resolveFileType d (some { e0 with file := (resolvePairing s d).2 }),
       jsOr h e0.hash⟩ rfl _ (by rw [hb]) (by rw [hb]) (by rw [hb])
  · rw [hb]
    show (setA d.documentId _ (resolvePairing s d).1.manifest).map Prod.fst
      = s.manifest.map Prod.fst
    rw [map_fst_setA_mem _ _ _ hkeys, pg.keysEq]
  · intro k hk
    rw [hb]
    show lookupA k (setA d.documentId _ (resolvePairing s d).1.manifest) = lookupA k s.manifest
    rw [lookupA_setA_other k _ _ hk, pg.manOther k hk]
  · intro f hf hfe
    rw [hb]
    show lookupA f (resolvePairing s d).1.locals = lookupA f s.locals
    exact pg.locOther f (hfe e0 hle) (pg.frNotOld f hf (hfe e0 hle))
  · intro hLP q hq
    rw [hb] at hq
    replace hq : q ∈ (resolvePairing s d).1.locals := hq
    rcases pg.locChar q hq with ⟨hq1, _⟩ | ⟨hq1, hq2, hq3⟩
    · refine ⟨d.documentId, ⟨(resolvePairing s d).2, d.revisionId, d.title,
        resolveFileType d (some { e0 with file := (resolvePairing s d).2 }),
        jsOr h e0.hash⟩, ?_, hq1.symm⟩
      rw [hb]
      show lookupA d.documentId (setA d.documentId _ (resolvePairing s d).1.manifest) = _
      rw [lookupA_setA_self]
    · obtain ⟨k, e1, hk1, hf1⟩ := hLP q hq1
      have hkne : k ≠ d.documentId := by
        intro heq
        rw [heq, hle] at hk1
        have he10 : e0 = e1 := Option.some.inj hk1
        rw [← he10] at hf1
        exact hq2 hf1.symm
      refine ⟨k, e1, ?_, hf1⟩
      rw [hb]
      show lookupA k (setA d.documentId _ (resolvePairing s d).1.manifest) = some e1
      rw [lookupA_setA_other k _ _ hkne, pg.manOther k hkne]
      exact hk1

theorem run2_fold (env : SyncEnv) :
    ∀ (todo : List RDoc) (s : SyncState),
      StateInv s →
      ((todo.map RDoc.documentId).Nodup) →
      (∀ d ∈ todo, SkipGoodAt s d.documentId d.revisionId) →
      LocalsPaired s →
      (todo.foldl (processRemoteDoc env) s).downloaded = s.downloaded ∧
      (todo.foldl (processRemoteDoc env) s).uploaded = s.uploaded ∧
      (todo.foldl (processRemoteDoc env) s).conflicts = s.conflicts ∧
      (todo.foldl (processRemoteDoc env) s).deletedLocal = s.deletedLocal ∧
      (todo.foldl (processRemoteDoc env) s).deletedRemote = s.deletedRemote ∧
      (todo.foldl (processRemoteDoc env) s).skipped = s.skipped + todo.length ∧
      StateInv (todo.foldl (processRemoteDoc env) s) ∧
      LocalsPaired (todo.foldl (processRemoteDoc env) s) ∧
      (todo.foldl (processRemoteDoc env) s).manifest.map Prod.fst
        = s.manifest.map Prod.fst := by
  intro todo
  induction todo with
  | nil =>
    intro s hinv _ _ hlp
    exact ⟨rfl, rfl, rfl, rfl, rfl, rfl, hinv, hlp, rfl⟩
  | cons d rest ih =>
    intro s hinv hnd hsg hlp
    simp only [List.foldl_cons]
    have hndr : ((rest.map RDoc.documentId).Nodup) := by
      simp only [List.map_cons, List.nodup_cons] at hnd
      exact hnd.2
    have hdnr : d.documentId ∉ rest.map RDoc.documentId := by
      simp only [List.map_cons, List.nodup_cons] at hnd
      exact hnd.1
    obtain ⟨k1, k2, k3, k4, k5, k6, k7, k8, k9, k10, k11⟩ :=
      processRemoteDoc_skipStep env s d hinv (hsg d (List.mem_cons_self d rest))
    have hsg2 : ∀ d0 ∈ rest, SkipGoodAt (processRemoteDoc env s d)
        d0.documentId d0.revisionId := by
      intro d0 hd0
      obtain ⟨e, hh, hle, hfne, hll, hlcB, hrcB⟩ := hsg d0 (List.mem_cons_of_mem _ hd0)
      have hne : d0.documentId ≠ d.documentId := by
        intro heq
        exact hdnr (heq ▸ List.mem_map_of_mem RDoc.documentId hd0)
      refine ⟨e, hh, ?_, hfne, ?_, hlcB, hrcB⟩
      · rw [k9 d0.documentId hne]
        exact hle
      · rw [k10 e.file (hinv.filesUsed (d0.documentId, e) (lookupA_mem _ _ _ hle))
          (fun e1 hl1 => hinv.filesUnique d0.documentId d.documentId e e1 hle hl1 hne)]
        exact hll
    obtain ⟨c1, c2, c3, c4, c5, c6, c7, c8, c9⟩ :=
      ih (processRemoteDoc env s d) k7 hndr hsg2 (k11 hlp)
    refine ⟨?_, ?_, ?_, ?_, ?_, ?_, c7, c8, ?_⟩
    · rw [c1, k1]
    · rw [c2, k2]
    · rw [c3, k3]
    · rw [c4, k4]
    · rw [c5, k5]
    · rw [c6, k6]
      show s.skipped + 1 + rest.length = s.skipped + (rest.length + 1)
      omega
    · rw [c9, k8]

theorem phase2_noop (remoteIds : List String) :
    ∀ (l : List (String × ManifestEntry)) (s : SyncState),
      (∀ p ∈ l, p.1 ∈ remoteIds) →
      l.foldl (phase2Step remoteIds) s = s := by
  intro l
  induction l with
  | nil => intro s _; rfl
  | cons pair rest ih =>
    intro s hp
    simp only [List.foldl_cons]
    have hstep : phase2Step remoteIds s pair = s := by
      unfold phase2Step
      rw [if_pos (hp pair (List.mem_cons_self _ _))]
    rw [hstep]
    exact ih s (fun p hp2 => hp p (List.mem_cons_of_mem _ hp2))

theorem phase3_noop (env : SyncEnv) (fileToDoc : List String) :
    ∀ (l : List (String × String)) (s : SyncState),
      (∀ q ∈ l, q.1 ∈ fileToDoc) →
      l.foldl (phase3Step env fileToDoc) s = s := by
  intro l
  induction l with
  | nil => intro s _; rfl
  | cons pair rest ih =>
    intro s hp
    simp only [List.foldl_cons]
    have hstep : phase3Step env fileToDoc s pair = s := by
      unfold phase3Step
      rw [if_pos (hp pair (List.mem_cons_self _ _))]
    rw [hstep]
    exact ih s (fun p hp2 => hp p (List.mem_cons_of_mem _ hp2))

theorem initialState_inv_of (w2 : SyncWorld)
    (hk : (w2.manifest.map Prod.fst).Nodup)
    (hl : (w2.locals.map Prod.fst).Nodup)
    (hfu : ∀ k1 k2 e1 e2, lookupA k1 w2.manifest = some e1 →
      lookupA k2 w2.manifest = some e2 → k1 ≠ k2 → e1.file ≠ e2.file)
    (hfe : ∀ p ∈ w2.manifest, p.2.file ≠ "")
    (hle : ∀ q ∈ w2.locals, q.1 ≠ "") :
    StateInv (initialState w2) := by
  constructor
  · exact hk
  · exact hl
  · exact hfu
  · exact hfe
  · intro p hp
    show p.2.file ∈ initialUsedPaths w2
    rw [initialUsedPaths]
    refine List.mem_append_right _ (List.mem_filterMap.2 ⟨p, hp, ?_⟩)
    rw [if_neg (hfe p hp)]
  · intro q hq
    show q.1 ∈ initialUsedPaths w2
    rw [initialUsedPaths]
    exact List.mem_append_left _ (List.mem_map_of_mem Prod.fst hq)
  · exact hle

theorem run2_clean (env2 : SyncEnv) (w2 : SyncWorld)
    (hk : (w2.manifest.map Prod.fst).Nodup)
    (hl : (w2.locals.map Prod.fst).Nodup)
    (hfu : ∀ k1 k2 e1 e2, lookupA k1 w2.manifest = some e1 →
      lookupA k2 w2.manifest = some e2 → k1 ≠ k2 → e1.file ≠ e2.file)
    (hfe : ∀ p ∈ w2.manifest, p.2.file ≠ "")
    (hle : ∀ q ∈ w2.locals, q.1 ≠ "")
    (hrnd : (w2.remote.map RDoc.documentId).Nodup)
    (hsg : ∀ d ∈ w2.remote, SkipGoodAt (initialState w2) d.documentId d.revisionId)
    (hkeys : ∀ k ∈ w2.manifest.map Prod.fst, k ∈ w2.remote.map RDoc.documentId)
    (hlp : LocalsPaired (initialState w2)) :
    (syncRun env2 w2).downloaded = 0 ∧ (syncRun env2 w2).uploaded = 0 ∧
    (syncRun env2 w2).conflicts = 0 ∧ (syncRun env2 w2).deletedLocal = 0 ∧
    (syncRun env2 w2).deletedRemote = 0 ∧
    (syncRun env2 w2).skipped = w2.remote.length := by
  have inv0 := initialState_inv_of w2 hk hl hfu hfe hle
  obtain ⟨r1, r2, r3, r4, r5, r6, r7, r8, r9⟩ :=
    run2_fold env2 w2.remote (initialState w2) inv0 hrnd hsg hlp
  set S1 := List.foldl (processRemoteDoc env2) (initialState w2) w2.remote with hS1
  have h2noop : List.foldl (phase2Step (List.map RDoc.documentId w2.remote)) S1 S1.manifest
      = S1 := by
    apply phase2_noop
    intro p hp
    have hmem : p.1 ∈ S1.manifest.map Prod.fst := List.mem_map_of_mem Prod.fst hp
    rw [r9] at hmem
    exact hkeys p.1 hmem
  have h3noop : List.foldl (phase3Step env2 (manifestFiles S1.manifest)) S1 S1.locals
      = S1 := by
    apply phase3_noop
    intro q hq
    obtain ⟨k, e, hke, hf⟩ := r8 q hq
    have hmem : (k, e) ∈ S1.manifest := lookupA_mem _ _ _ hke
    refine List.mem_filterMap.2 ⟨(k, e), hmem, ?_⟩
    rw [if_neg (r7.filesNe (k, e) hmem), hf]
  have hrun0 : syncRun env2 w2 =
      List.foldl (phase3Step env2 (manifestFiles
        (List.foldl (phase2Step (List.map RDoc.documentId w2.remote)) S1
          S1.manifest).manifest))
        (List.foldl (phase2Step (List.map RDoc.documentId w2.remote)) S1 S1.manifest)
        (List.foldl (phase2Step (List.map RDoc.documentId w2.remote)) S1
          S1.manifest).locals := by
    rw [hS1]
    rfl
  rw [h2noop, h3noop] at hrun0
  rw [hrun0]
  refine ⟨?_, ?_, ?_, ?_, ?_, ?_⟩
  · rw [r1]; rfl
  · rw [r2]; rfl
  · rw [r3]; rfl
  · rw [r4]; rfl
  · rw [r5]; rfl
  · rw [r6]
    show (initialState w2).skipped + w2.remote.length = w2.remote.length
    show 0 + w2.remote.length = w2.remote.length
    omega

theorem remoteAfter_surv_sublist (S : List String) (g : RDoc → Option String) :
    ∀ l : List RDoc,
      ((l.filterMap fun d => if d.documentId ∈ S then none
        else some (d.documentId, g d)).map Prod.fst).Sublist (l.map RDoc.documentId) := by
  intro l
  induction l with
  | nil => exact List.Sublist.refl _
  | cons d rest ih =>
    rw [List.filterMap_cons, List.map_cons]
    by_cases hd : d.documentId ∈ S
    · rw [if_pos hd]
      show ((rest.filterMap _).map Prod.fst).Sublist _
      exact ih.cons d.documentId
    · rw [if_neg hd]
      show (((d.documentId, g d) :: rest.filterMap _).map Prod.fst).Sublist _
      rw [List.map_cons]
      exact ih.cons₂ d.documentId

/-- C5 (amended): the reconciler is idempotent on conflict-free runs over a
well-formed world. If the manifest read from disk has distinct keys and
distinct non-empty files, local paths are distinct and non-empty, remote
documentIds are distinct, created documentIds are fresh, and the first pass
reports zero conflicts, then a second pass over the resulting world — the
surviving and newly created remote documents carrying their post-run
revisions, with arbitrary re-fetched titles/tokens/types/content and any
environment — downloads, uploads and deletes nothing, conflicts on nothing,
and counts every remote document as skipped.  (Without the zero-conflict
hypothesis this fails: see the counterexample theorem.) -/
theorem reconciler_idempotent_when_clean
    (env env2 : SyncEnv) (w : SyncWorld) (tf ntf ftf chf : String → String)
    (hw : WorldInv w)
    (hFresh : ∀ j : Nat, env.newDocId j ∉ w.remote.map RDoc.documentId)
    (hInj : ∀ j1 j2 : Nat, env.newDocId j1 = env.newDocId j2 → j1 = j2)
    (hconf : (syncRun env w).conflicts = 0) :
    (syncRun env2 (worldAfter env w tf ntf ftf chf)).downloaded = 0 ∧
    (syncRun env2 (worldAfter env w tf ntf ftf chf)).uploaded = 0 ∧
    (syncRun env2 (worldAfter env w tf ntf ftf chf)).conflicts = 0 ∧
    (syncRun env2 (worldAfter env w tf ntf ftf chf)).deletedLocal = 0 ∧
    (syncRun env2 (worldAfter env w tf ntf ftf chf)).deletedRemote = 0 ∧
    (syncRun env2 (worldAfter env w tf ntf ftf chf)).skipped
      = (worldAfter env w tf ntf ftf chf).remote.length := by
  obtain ⟨F1inv, F1lp, F1doc, F1cr, F1keys⟩ := run1_facts env w hw hFresh hInj
  apply run2_clean env2 (worldAfter env w tf ntf ftf chf)
  · exact F1inv.keysNodup
  · exact F1inv.localsNodup
  · exact F1inv.filesUnique
  · exact F1inv.filesNe
  · exact F1inv.localsNe
  · -- remote ids of the second world are distinct
    show ((((remoteAfter env w).map fun p =>
      RDoc.mk p.1 (ntf p.1) (tf p.1) p.2 (ftf p.1) (chf p.1)).map
        RDoc.documentId)).Nodup
    rw [List.map_map]
    show ((remoteAfter env w).map Prod.fst).Nodup
    rw [remoteAfter, List.map_append]
    rw [List.nodup_append]
    refine ⟨?_, ?_, ?_⟩
    · exact hw.remoteNodup.sublist (remoteAfter_surv_sublist _ _ w.remote)
    · rw [List.map_map]
      show ((List.range (syncRun env w).createCount).map env.newDocId).Nodup
      exact List.Nodup.map (fun a b h => hInj a b h) (List.nodup_range _)
    · intro x hxA hxB
      have hxR : x ∈ w.remote.map RDoc.documentId :=
        (remoteAfter_surv_sublist _ _ w.remote).subset hxA
      rw [List.map_map] at hxB
      replace hxB : x ∈ (List.range (syncRun env w).createCount).map env.newDocId := hxB
      obtain ⟨j, _, hje⟩ := List.mem_map.1 hxB
      exact hFresh j (hje ▸ hxR)
  · -- every remote doc of the second world is cleanly paired
    intro d2 hd2
    replace hd2 : d2 ∈ (remoteAfter env w).map fun p =>
      RDoc.mk p.1 (ntf p.1) (tf p.1) p.2 (ftf p.1) (chf p.1) := hd2
    obtain ⟨p, hp, hmk⟩ := List.mem_map.1 hd2
    subst hmk
    rw [remoteAfter] at hp
    rcases List.mem_append.1 hp with hp | hp
    · obtain ⟨d, hd, hsome⟩ := List.mem_filterMap.1 hp
      by_cases hdel : d.documentId ∈ (syncRun env w).remoteDeletes
      · rw [if_pos hdel] at hsome
        cases hsome
      · rw [if_neg hdel] at hsome
        have hpe := Option.some.inj hsome
        rcases F1doc d hd with hA | hB | hC
        · exact absurd hA hdel
        · rw [← hpe]
          show SkipGoodAt (initialState (worldAfter env w tf ntf ftf chf))
            d.documentId
            (if d.documentId ∈ (syncRun env w).uploadsDone
             then env.uploadMeta d.documentId else d.revisionId)
          exact hB
        · rw [hconf] at hC
          exact absurd hC (by omega)
    · obtain ⟨j, hj, hje⟩ := List.mem_map.1 hp
      rw [← hje]
      show SkipGoodAt (initialState (worldAfter env w tf ntf ftf chf))
        (env.newDocId j) (env.createMeta j).2
      exact F1cr j (List.mem_range.1 hj)
  · -- every manifest key of the second world is a remote id of the second world
    intro k hkm
    replace hkm : k ∈ (syncRun env w).manifest.map Prod.fst := hkm
    have hlk : lookupA k (syncRun env w).manifest ≠ none :=
      fun hn => ((lookupA_eq_none _ _).1 hn) hkm
    rcases F1keys k hlk with ⟨h1, h2⟩ | ⟨j, hj, hje⟩
    · obtain ⟨d, hd, hdk⟩ := List.mem_map.1 h1
      show k ∈ (worldAfter env w tf ntf ftf chf).remote.map RDoc.documentId
      have hpmem : (d.documentId,
          if d.documentId ∈ (syncRun env w).uploadsDone
          then env.uploadMeta d.documentId else d.revisionId) ∈ remoteAfter env w := by
        rw [remoteAfter]
        refine List.mem_append_left _ (List.mem_filterMap.2 ⟨d, hd, ?_⟩)
        rw [if_neg (by rw [hdk]; exact h2)]
      have hd2mem : RDoc.mk d.documentId (ntf d.documentId) (tf d.documentId)
          (if d.documentId ∈ (syncRun env w).uploadsDone
           then env.uploadMeta d.documentId else d.revisionId)
          (ftf d.documentId) (chf d.documentId)
          ∈ (worldAfter env w tf ntf ftf chf).remote :=
        List.mem_map_of_mem (fun p =>
          RDoc.mk p.1 (ntf p.1) (tf p.1) p.2 (ftf p.1) (chf p.1)) hpmem
      have hfin := List.mem_map_of_mem RDoc.documentId hd2mem
      rw [← hdk]
      exact hfin
    · show k ∈ (worldAfter env w tf ntf ftf chf).remote.map RDoc.documentId
      have hpmem : (env.newDocId j, (env.createMeta j).2) ∈ remoteAfter env w := by
        rw [remoteAfter]
        exact List.mem_append_right _
          (List.mem_map_of_mem _ (List.mem_range.2 hj))
      have hd2mem : RDoc.mk (env.newDocId j) (ntf (env.newDocId j)) (tf (env.newDocId j))
          (env.createMeta j).2 (ftf (env.newDocId j)) (chf (env.newDocId j))
          ∈ (worldAfter env w tf ntf ftf chf).remote :=
        List.mem_map_of_mem (fun p =>
          RDoc.mk p.1 (ntf p.1) (tf p.1) p.2 (ftf p.1) (chf p.1)) hpmem
      have hfin := List.mem_map_of_mem RDoc.documentId hd2mem
      rw [hje]
      exact hfin
  · intro q hq
    exact F1lp q hq

/-- C8 (amended): after a reconciliation pass over a well-formed world — the
manifest read from disk has distinct keys and pairwise-distinct non-empty
`file` values, local paths and remote documentIds are distinct, and created
documentIds are fresh — the resulting manifest's `file` values are pairwise
distinct: any two distinct documentIds map to entries with different files.
(Without the distinct-input-files hypothesis this fails: see the
counterexample theorem.) -/
theorem manifest_files_unique_when_wellformed
    (env : SyncEnv) (w : SyncWorld) (hw : WorldInv w)
    (hFresh : ∀ j : Nat, env.newDocId j ∉ w.remote.map RDoc.documentId)
    (hInj : ∀ j1 j2 : Nat, env.newDocId j1 = env.newDocId j2 → j1 = j2) :
    ∀ k1 k2 e1 e2, lookupA k1 (syncRun env w).manifest = some e1 →
      lookupA k2 (syncRun env w).manifest = some e2 → k1 ≠ k2 →
      e1.file ≠ e2.file :=
  (run1_facts env w hw hFresh hInj).1.filesUnique

theorem newId_ne_D1 (j : Nat) : "new" ++ Nat.repr j ≠ "D1" := by
  intro h
  have h2 := congrArg String.data h
  rw [String.data_append] at h2
  have h3 : 'n' :: 'e' :: 'w' :: (Nat.repr j).data = ['D', '1'] := h2
  injection h3 with h4 h5
  exact absurd h4 (by decide)

theorem newId_ne_D2 (j : Nat) : "new" ++ Nat.repr j ≠ "D2" := by
  intro h
  have h2 := congrArg String.data h
  rw [String.data_append] at h2
  have h3 : 'n' :: 'e' :: 'w' :: (Nat.repr j).data = ['D', '2'] := h2
  injection h3 with h4 h5
  exact absurd h4 (by decide)

theorem newId_inj (j1 j2 : Nat) (h : "new" ++ Nat.repr j1 = "new" ++ Nat.repr j2) :
    j1 = j2 := by
  have h2 := congrArg String.data h
  rw [String.data_append, String.data_append] at h2
  have h3 := List.append_cancel_left h2
  exact toDigits_inj j1 j2 h3

/-- Witness: a clean one-document world runs with zero conflicts, and the
second pass over its result counts zero everywhere and one skip. -/
theorem reconciler_idempotent_witness :
    (syncRun c5env c5wClean).conflicts = 0 ∧
    ((syncRun c5env (worldAfter c5env c5wClean (fun _ => "x") (fun _ => "n")
        (fun _ => "docx") (fun _ => "h1"))).downloaded = 0 ∧
      (syncRun c5env (worldAfter c5env c5wClean (fun _ => "x") (fun _ => "n")
        (fun _ => "docx") (fun _ => "h1"))).uploaded = 0 ∧
      (syncRun c5env (worldAfter c5env c5wClean (fun _ => "x") (fun _ => "n")
        (fun _ => "docx") (fun _ => "h1"))).conflicts = 0 ∧
      (syncRun c5env (worldAfter c5env c5wClean (fun _ => "x") (fun _ => "n")
        (fun _ => "docx") (fun _ => "h1"))).deletedLocal = 0 ∧
      (syncRun c5env (worldAfter c5env c5wClean (fun _ => "x") (fun _ => "n")
        (fun _ => "docx") (fun _ => "h1"))).deletedRemote = 0 ∧
      (syncRun c5env (worldAfter c5env c5wClean (fun _ => "x") (fun _ => "n")
        (fun _ => "docx") (fun _ => "h1"))).skipped
        = (worldAfter c5env c5wClean (fun _ => "x") (fun _ => "n")
            (fun _ => "docx") (fun _ => "h1")).remote.length) :=
  ⟨by decide,
   reconciler_idempotent_when_clean c5env c5env c5wClean (fun _ => "x") (fun _ => "n")
     (fun _ => "docx") (fun _ => "h1")
     ⟨by decide, by decide, by decide, by decide, by decide, by decide⟩
     (fun j hmem => newId_ne_D1 j (List.mem_singleton.1 hmem))
     newId_inj
     (by decide)⟩

/-- Witness: on a well-formed two-document world the pass keeps the two
entries' files distinct. -/
theorem manifest_files_unique_witness :
    lookupA "D1" (syncRun c8env c8wGood).manifest
      = some ⟨"x.md", some "r1", "x", "docx", "h1"⟩ ∧
    lookupA "D2" (syncRun c8env c8wGood).manifest
      = some ⟨"y.md", some "r1", "y", "docx", "h2"⟩ ∧
    (⟨"x.md", some "r1", "x", "docx", "h1"⟩ : ManifestEntry).file
      ≠ (⟨"y.md", some "r1", "y", "docx", "h2"⟩ : ManifestEntry).file :=
  ⟨by decide, by decide,
   manifest_files_unique_when_wellformed c8env c8wGood
     ⟨by decide, by decide, by decide, by decide, by decide, by decide⟩
     (fun j hmem => by
       rcases List.mem_cons.1 hmem with h | h
       · exact newId_ne_D1 j h
       · exact newId_ne_D2 j (List.mem_singleton.1 h))
     newId_inj
     "D1" "D2" _ _ (by decide) (by decide) (by decide)⟩
